import Mathlib

/-!
Verification development for the pattern-syntax parser in
`src/compiler/parse/src/pattern.rs`.

The parser-combinator runtime, the tokenizer scanners, the expression
parser and the keyword set live outside `src/`; they are modelled from the
spec (each such definition carries a doc comment starting with
`Modelled from the spec:`).  Everything else is a direct shallow embedding
of the Rust source: arena allocation becomes plain values, the tri-state
`ParseResult` becomes `PResult` (with an extra `oot` constructor that
models running out of recursion fuel and is produced by no claim-relevant
run), and machine integers for rows/columns become `Nat`.
-/

/-- Parser progress marker, as in `crate::parser::Progress`. -/
inductive Progress where
  | MadeProgress
  | NoProgress
deriving Repr, DecidableEq

/-- Modelled from the spec: the cursor abstraction (`crate::parser::State`),
"cheap to duplicate, carries remaining input, current line/column". -/
structure State where
  input : List Char
  line : Nat
  col : Nat
deriving Repr, DecidableEq

/-- A source region (start/end line and column), as in `roc_region::all::Region`. -/
structure Region where
  startLine : Nat
  startCol : Nat
  endLine : Nat
  endCol : Nat
deriving Repr, DecidableEq

/-- A value paired with its region, as in `roc_region::all::Located`. -/
structure Located (α : Type) where
  region : Region
  value : α
deriving Repr, DecidableEq

/-- Modelled from the spec: whitespace/comment trivia items attached by the
blank-space parsers; only newlines are modelled (comments are additional
trivia of the same kind and play no role in any claim). -/
inductive CommentOrNewline where
  | Newline
deriving Repr, DecidableEq

/-- Result of a parse step: the tri-state result of the spec
(success / no-progress failure / progress-made failure), plus `oot`
("out of time"), which models exhausting the recursion fuel of the
shallow embedding and never occurs in a run with enough fuel. -/
inductive PResult (α : Type) (ε : Type) where
  | ok (p : Progress) (v : α) (s : State)
  | err (p : Progress) (e : ε) (s : State)
  | oot
deriving Repr

/-- Identifier classification produced by the tokenizer (`crate::ident::Ident`). -/
inductive Ident where
  | GlobalTag (s : String)
  | PrivateTag (s : String)
  | Access (module_name : String) (parts : List String)
  | AccessorFunction (s : String)
  | Malformed (s : String)
deriving Repr, DecidableEq

/-- Modelled from the spec: the expression AST fragment reachable from this
system (number literals produced by the number scanner, plus a variable,
trivia wrappers, a malformed marker, and a lambda standing for the
non-literal expression shapes that the literal-to-pattern conversion
rejects). -/
inductive Expr where
  | Num (s : String)
  | Float (s : String)
  | NonBase10Int (s : String)
  | Var (s : String)
  | Malformed (s : String)
  | SpaceBefore (e : Expr) (sp : List CommentOrNewline)
  | SpaceAfter (e : Expr) (sp : List CommentOrNewline)
  | Lambda (body : Expr)
deriving Repr, DecidableEq

/-- The pattern AST, as in `crate::ast::Pattern`. -/
inductive Pattern where
  | Identifier (s : String)
  | GlobalTag (s : String)
  | PrivateTag (s : String)
  | Apply (head : Located Pattern) (args : List (Located Pattern))
  | RecordDestructure (fields : List (Located Pattern))
  | RequiredField (label : String) (pat : Located Pattern)
  | OptionalField (label : String) (default : Located Expr)
  | NumLiteral (s : String)
  | NonBase10Literal (s : String)
  | FloatLiteral (s : String)
  | StrLiteral (s : String)
  | Underscore (s : String)
  | Malformed (s : String)
  | SpaceBefore (pat : Pattern) (sp : List CommentOrNewline)
  | SpaceAfter (pat : Pattern) (sp : List CommentOrNewline)
deriving Repr

mutual

/-- Error type for parenthesized patterns (`crate::parser::PInParens`). -/
inductive PInParens where
  | Open (r c : Nat)
  | End (r c : Nat)
  | Syntax (e : SyntaxError) (r c : Nat)
  | Space (r c : Nat)
  | IndentEnd (r c : Nat)

/-- Error type for record patterns (`crate::parser::PRecord`). -/
inductive PRecord where
  | Open (r c : Nat)
  | End (r c : Nat)
  | Colon (r c : Nat)
  | Optional (r c : Nat)
  | Field (r c : Nat)
  | Syntax (e : SyntaxError) (r c : Nat)
  | Space (r c : Nat)
  | IndentEnd (r c : Nat)
  | IndentColon (r c : Nat)

/-- Error type for patterns (`crate::parser::EPattern`). -/
inductive EPattern where
  | Record (e : PRecord) (r c : Nat)
  | PInParens (e : PInParens) (r c : Nat)
  | Start (r c : Nat)
  | End (r c : Nat)
  | Space (r c : Nat)
  | IndentStart (r c : Nat)
  | Underscore (r c : Nat)

/-- The outermost error type (`crate::parser::SyntaxError`), restricted to
the variant this system produces. -/
inductive SyntaxError where
  | Pattern (e : EPattern)

end

deriving instance Repr for PInParens, PRecord, EPattern, SyntaxError

/-- Step the cursor over one input character, advancing line/column. -/
def stepChar (s : State) : State :=
  match s.input with
  | [] => s
  | c :: rest =>
    if c = '\n' then ⟨rest, s.line + 1, 0⟩ else ⟨rest, s.line, s.col + 1⟩

/-- Step the cursor over `k` input characters. -/
def stepN (s : State) : Nat → State
  | 0 => s
  | k + 1 => stepN (stepChar s) k

/-- Initial state for a source string. -/
def st (src : String) : State := ⟨src.data, 0, 0⟩

/-- Initial state for an explicit character list. -/
def stl (src : List Char) : State := ⟨src, 0, 0⟩

/-- Lexicographic order on (line, column) positions. -/
def posLeB (l1 c1 l2 c2 : Nat) : Bool :=
  if l1 < l2 then true else if l1 = l2 then decide (c1 ≤ c2) else false

/-- A region is well formed when its start is not after its end. -/
def Region.wfB (r : Region) : Bool :=
  posLeB r.startLine r.startCol r.endLine r.endCol

/-- `outer` fully contains `inner`. -/
def Region.containsB (outer inner : Region) : Bool :=
  posLeB outer.startLine outer.startCol inner.startLine inner.startCol &&
  posLeB inner.endLine inner.endCol outer.endLine outer.endCol

/-- Span of two regions: earliest start to latest end
(`roc_region::all::Region::span_across`). -/
def Region.spanAcross (r1 r2 : Region) : Region :=
  { startLine := if posLeB r1.startLine r1.startCol r2.startLine r2.startCol then r1.startLine else r2.startLine
    startCol := if posLeB r1.startLine r1.startCol r2.startLine r2.startCol then r1.startCol else r2.startCol
    endLine := if posLeB r1.endLine r1.endCol r2.endLine r2.endCol then r2.endLine else r1.endLine
    endCol := if posLeB r1.endLine r1.endCol r2.endLine r2.endCol then r2.endCol else r1.endCol }

/-- Union of an ordered, non-empty sequence of regions
(`roc_region::all::Region::across_all`). -/
def Region.across_all (first : Region) (rest : List Region) : Region :=
  rest.foldl Region.spanAcross first

/-- The region covering the piece of input between two cursors. -/
def spanOf (s s' : State) : Region := ⟨s.line, s.col, s'.line, s'.col⟩

/-- Modelled from the spec: the error-specialization combinator
(`crate::parser::specialize`), a pure mapping from a child error (plus the
failure location) into a parent error. -/
def pspecialize {α ε ε' : Type} (f : ε → Nat → Nat → ε')
    (p : State → PResult α ε) (s : State) : PResult α ε' :=
  match p s with
  | .ok pr v s' => .ok pr v s'
  | .err pr e s' => .err pr (f e s'.line s'.col) s'
  | .oot => .oot

/-- Modelled from the spec: the `loc!` combinator wrapping a parsed value
with the region between the pre- and post-parse cursor. -/
def ploc {α ε : Type} (p : State → PResult α ε) (s : State) : PResult (Located α) ε :=
  match p s with
  | .ok pr v s' => .ok pr ⟨⟨s.line, s.col, s'.line, s'.col⟩, v⟩ s'
  | .err pr e s' => .err pr e s'
  | .oot => .oot

/-- Modelled from the spec: the single-byte parser (`crate::parser::word1`);
it consumes exactly the given character or fails with no progress. -/
def word1 {ε : Type} (c : Char) (toErr : Nat → Nat → ε) (s : State) : PResult Unit ε :=
  match s.input with
  | a :: _ => if a = c then .ok .MadeProgress () (stepChar s) else .err .NoProgress (toErr s.line s.col) s
  | [] => .err .NoProgress (toErr s.line s.col) s

/-- Modelled from the spec: the backtrackable wrapper, converting any failure
of the wrapped parser into a no-progress failure at the pre-attempt cursor. -/
def pbacktrackable {α ε : Type} (p : State → PResult α ε) (s : State) : PResult α ε :=
  match p s with
  | .ok pr v s' => .ok pr v s'
  | .err _ e _ => .err .NoProgress e s
  | .oot => .oot

/-- Progress combination: made progress absorbs no progress. -/
def Progress.or : Progress → Progress → Progress
  | .MadeProgress, _ => .MadeProgress
  | .NoProgress, p => p

/-- Trivia characters consumed by the blank-space parsers (comments are not
modelled). -/
def isSpaceCh (c : Char) : Bool := c = ' ' || c = '\n'

/-- Trivia list recorded for a run of consumed blank-space characters:
one entry per newline, nothing for plain spaces. -/
def triviaOf (l : List Char) : List CommentOrNewline :=
  l.filterMap (fun c => if c = '\n' then some .Newline else none)

/-- Modelled from the spec: the zero-or-more blank-space parser
(`crate::blankspace::space0_e`), consuming spaces and newlines, failing with
progress when a newline leaves the cursor left of the indentation
threshold. -/
def space0_e {ε : Type} (n : Nat) (_spErr indErr : Nat → Nat → ε) (s : State) :
    PResult (List CommentOrNewline) ε :=
  if (triviaOf (s.input.takeWhile isSpaceCh)).isEmpty then
    .ok (if (s.input.takeWhile isSpaceCh).isEmpty then .NoProgress else .MadeProgress)
      (triviaOf (s.input.takeWhile isSpaceCh)) (stepN s (s.input.takeWhile isSpaceCh).length)
  else if (stepN s (s.input.takeWhile isSpaceCh).length).col < n then
    .err .MadeProgress
      (indErr (stepN s (s.input.takeWhile isSpaceCh).length).line (stepN s (s.input.takeWhile isSpaceCh).length).col)
      (stepN s (s.input.takeWhile isSpaceCh).length)
  else .ok .MadeProgress (triviaOf (s.input.takeWhile isSpaceCh)) (stepN s (s.input.takeWhile isSpaceCh).length)

/-- Modelled from the spec: `crate::blankspace::space0_before_e`; leading
trivia is attached to the value through the supplied wrapper. -/
def space0_before_e {α ε : Type} (p : State → PResult α ε)
    (wrap : α → List CommentOrNewline → α)
    (n : Nat) (spErr indErr : Nat → Nat → ε) (s : State) : PResult α ε :=
  match space0_e n spErr indErr s with
  | .err pr e s' => .err pr e s'
  | .oot => .oot
  | .ok pr1 cn s1 =>
    match p s1 with
    | .err pr e s' => .err (pr1.or pr) e s'
    | .oot => .oot
    | .ok pr2 v s2 => .ok (pr1.or pr2) (if cn.isEmpty then v else wrap v cn) s2

/-- Modelled from the spec: `crate::blankspace::space0_around_e`; trivia on
either side is attached to the value through the supplied wrappers. -/
def space0_around_e {α ε : Type} (p : State → PResult α ε)
    (wrapB wrapA : α → List CommentOrNewline → α)
    (n : Nat) (spErr indErr : Nat → Nat → ε) (s : State) : PResult α ε :=
  match space0_e n spErr indErr s with
  | .err pr e s' => .err pr e s'
  | .oot => .oot
  | .ok pr1 cn1 s1 =>
    match p s1 with
    | .err pr e s' => .err (pr1.or pr) e s'
    | .oot => .oot
    | .ok pr2 v s2 =>
      match space0_e n spErr indErr s2 with
      | .err pr e s' => .err ((pr1.or pr2).or pr) e s'
      | .oot => .oot
      | .ok pr3 cn2 s3 =>
        .ok ((pr1.or pr2).or pr3)
          (if cn2.isEmpty then (if cn1.isEmpty then v else wrapB v cn1)
           else wrapA (if cn1.isEmpty then v else wrapB v cn1) cn2) s3

/-- Attach leading trivia to a located pattern. -/
def wrapPatBefore (lp : Located Pattern) (cn : List CommentOrNewline) : Located Pattern :=
  ⟨lp.region, .SpaceBefore lp.value cn⟩

/-- Attach trailing trivia to a located pattern. -/
def wrapPatAfter (lp : Located Pattern) (cn : List CommentOrNewline) : Located Pattern :=
  ⟨lp.region, .SpaceAfter lp.value cn⟩

/-- Attach leading trivia to a located expression. -/
def wrapExprBefore (le : Located Expr) (cn : List CommentOrNewline) : Located Expr :=
  ⟨le.region, .SpaceBefore le.value cn⟩

/-- Char list to string. -/
def listStr (l : List Char) : String := String.mk l

/-- Characters a scanned identifier token may contain. -/
def isIdentCh (c : Char) : Bool := c.isAlphanum || c = '.'

/-- Split a token into its dot-separated parts. -/
def splitDots : List Char → List (List Char)
  | [] => [[]]
  | c :: rest =>
    if c = '.' then [] :: splitDots rest
    else
      match splitDots rest with
      | [] => [[c]]
      | p :: ps => (c :: p) :: ps

/-- The part is non-empty and starts with an uppercase letter. -/
def partStartsUpper : List Char → Bool
  | [] => false
  | c :: _ => c.isUpper

/-- The part is non-empty and starts with a lowercase letter. -/
def partStartsLower : List Char → Bool
  | [] => false
  | c :: _ => c.isLower

/-- The part is a valid identifier part (starts with a letter). -/
def partOk (p : List Char) : Bool := partStartsUpper p || partStartsLower p

/-- Classify the dot-separated parts of a scanned identifier token:
a single uppercase part is a global tag, a single lowercase part is a bare
access, a leading run of uppercase parts qualifies the remaining lowercase
access chain, and anything else is a malformed identifier. -/
def classifyParts (tok : List Char) (parts : List (List Char)) : Ident :=
  if parts.all partOk then
    match parts with
    | [] => .Malformed (listStr tok)
    | [p] => if partStartsUpper p then .GlobalTag (listStr p) else .Access "" [listStr p]
    | p1 :: p2 :: more =>
      if partStartsUpper p1 then
        let ups := (p1 :: p2 :: more).takeWhile partStartsUpper
        let rest := (p1 :: p2 :: more).drop ups.length
        if rest.isEmpty then .Malformed (listStr tok)
        else .Access (String.intercalate "." (ups.map listStr)) (rest.map listStr)
      else .Access "" ((p1 :: p2 :: more).map listStr)
  else .Malformed (listStr tok)

/-- Modelled from the spec: the tokenizer-level identifier scanner and
classifier (`crate::ident::ident`), which consumes exactly one
identifier-shaped token and classifies it as a global tag, `@`-prefixed
private tag, bare or dotted access, `.field` accessor function, or a
malformed identifier; it fails with no progress when the input does not
start an identifier. -/
def identScan (s : State) : PResult Ident Unit :=
  match s.input with
  | [] => .err .NoProgress () s
  | c :: rest =>
    if c = '@' then
      match splitDots (rest.takeWhile isIdentCh) with
      | [p] =>
        if partStartsUpper p then
          .ok .MadeProgress (.PrivateTag ("@" ++ listStr p)) (stepN s ((rest.takeWhile isIdentCh).length + 1))
        else
          .ok .MadeProgress (.Malformed ("@" ++ listStr (rest.takeWhile isIdentCh))) (stepN s ((rest.takeWhile isIdentCh).length + 1))
      | _ =>
        .ok .MadeProgress (.Malformed ("@" ++ listStr (rest.takeWhile isIdentCh))) (stepN s ((rest.takeWhile isIdentCh).length + 1))
    else if c = '.' then
      match splitDots (rest.takeWhile isIdentCh) with
      | [p] =>
        if partStartsLower p then
          .ok .MadeProgress (.AccessorFunction ("." ++ listStr p)) (stepN s ((rest.takeWhile isIdentCh).length + 1))
        else
          .ok .MadeProgress (.Malformed ("." ++ listStr (rest.takeWhile isIdentCh))) (stepN s ((rest.takeWhile isIdentCh).length + 1))
      | _ =>
        .ok .MadeProgress (.Malformed ("." ++ listStr (rest.takeWhile isIdentCh))) (stepN s ((rest.takeWhile isIdentCh).length + 1))
    else if c.isAlpha then
      .ok .MadeProgress
        (classifyParts ((c :: rest).takeWhile isIdentCh) (splitDots ((c :: rest).takeWhile isIdentCh)))
        (stepN s ((c :: rest).takeWhile isIdentCh).length)
    else .err .NoProgress () s

/-- Modelled from the spec: the lowercase-identifier scanner
(`crate::ident::lowercase_ident`). -/
def lowercase_ident (s : State) : PResult String Unit :=
  match s.input with
  | c :: rest =>
    if c.isLower then
      .ok .MadeProgress (listStr (c :: rest.takeWhile (fun d => d.isAlphanum)))
        (stepN s ((rest.takeWhile (fun d => d.isAlphanum)).length + 1))
    else .err .NoProgress () s
  | [] => .err .NoProgress () s

/-- Hexadecimal digit test. -/
def isHexCh (c : Char) : Bool :=
  c.isDigit || ('a' ≤ c && c ≤ 'f') || ('A' ≤ c && c ≤ 'F')

/-- Modelled from the spec: the number-literal scanner
(`crate::number_literal::number_literal`), producing decimal, float, or
non-base-10 literal expressions. -/
def number_literal (s : State) : PResult Expr Unit :=
  match s.input with
  | c :: rest =>
    if c.isDigit then
      match c, rest with
      | '0', 'x' :: hrest =>
        if (hrest.takeWhile isHexCh).isEmpty then .err .MadeProgress () (stepN s 2)
        else
          .ok .MadeProgress (.NonBase10Int (listStr ('0' :: 'x' :: hrest.takeWhile isHexCh)))
            (stepN s ((hrest.takeWhile isHexCh).length + 2))
      | _, _ =>
        match ((c :: rest).takeWhile (fun d => d.isDigit)), ((c :: rest).drop ((c :: rest).takeWhile (fun d => d.isDigit)).length) with
        | digits, '.' :: tail2 =>
          if (tail2.takeWhile (fun d => d.isDigit)).isEmpty then
            .ok .MadeProgress (.Num (listStr digits)) (stepN s digits.length)
          else
            .ok .MadeProgress (.Float (listStr (digits ++ '.' :: tail2.takeWhile (fun d => d.isDigit))))
              (stepN s (digits.length + 1 + (tail2.takeWhile (fun d => d.isDigit)).length))
        | digits, _ => .ok .MadeProgress (.Num (listStr digits)) (stepN s digits.length)
    else .err .NoProgress () s
  | [] => .err .NoProgress () s

/-- Modelled from the spec: the string-literal scanner
(`crate::string_literal::parse`), without escape handling; an unterminated
string is a progress-made failure. -/
def string_parse (s : State) : PResult String Unit :=
  match s.input with
  | '"' :: rest =>
    match (rest.takeWhile (fun c => !(c == '"'))), (rest.drop (rest.takeWhile (fun c => !(c == '"'))).length) with
    | content, '"' :: _ => .ok .MadeProgress (listStr content) (stepN s (content.length + 2))
    | content, _ => .err .MadeProgress () (stepN s (content.length + 1))
  | _ => .err .NoProgress () s

/-- Modelled from the spec: the reserved keyword set (`crate::keyword::KEYWORDS`). -/
def KEYWORDS : List String := ["if", "then", "else", "when", "as", "is", "expect"]

/-- Modelled from the spec: the literal-expression-to-pattern conversion
(`crate::expr::expr_to_pattern`), total on all literal expression shapes it
is given and failing on non-pattern shapes such as lambdas. -/
def expr_to_pattern : Expr → Option Pattern
  | .Num s => some (.NumLiteral s)
  | .Float s => some (.FloatLiteral s)
  | .NonBase10Int s => some (.NonBase10Literal s)
  | .Var s => some (.Identifier s)
  | .Malformed s => some (.Malformed s)
  | .SpaceBefore e sp => (expr_to_pattern e).map (fun p => .SpaceBefore p sp)
  | .SpaceAfter e sp => (expr_to_pattern e).map (fun p => .SpaceAfter p sp)
  | .Lambda _ => none

/-- Modelled from the spec: the external expression parser
(`crate::expr::expr`), used here only for optional record-field default
values; modelled minimally as a number literal or a lowercase variable. -/
def expr (_n : Nat) (s : State) : PResult Expr SyntaxError :=
  match number_literal s with
  | .ok pr v s' => .ok pr v s'
  | .err .MadeProgress _ s' => .err .MadeProgress (.Pattern (.Start s'.line s'.col)) s'
  | .oot => .oot
  | .err .NoProgress _ _ =>
    match lowercase_ident s with
    | .ok pr v s' => .ok pr (.Var v) s'
    | .err pr _ s' => .err pr (.Pattern (.Start s'.line s'.col)) s'
    | .oot => .oot

/-- `lowercase_ident_pattern` from the source: the lowercase scanner with
its failure re-tagged to an `End` error at the pre-parse position. -/
def lowercase_ident_pattern (s : State) : PResult String EPattern :=
  pspecialize (fun _ _ _ => EPattern.End s.line s.col) lowercase_ident s

/-- `underscore_pattern_help` from the source: `_` optionally followed by a
lowercase name. -/
def underscore_pattern_help (s : State) : PResult Pattern EPattern :=
  match word1 '_' (fun r c => EPattern.Underscore r c) s with
  | .err pr e s' => .err pr e s'
  | .oot => .oot
  | .ok _ _ s1 =>
    match lowercase_ident_pattern s1 with
    | .ok _ name s2 => .ok .MadeProgress (.Underscore name) s2
    | .err .NoProgress _ _ => .ok .MadeProgress (.Underscore "") s1
    | .err .MadeProgress e s2 => .err .MadeProgress e s2
    | .oot => .oot

/-- `number_pattern_help` from the source: the number literal converted to a
pattern; the `none` branch models the `unwrap` panic point. -/
def number_pattern_help (s : State) : PResult Pattern EPattern :=
  match number_literal s with
  | .ok pr e s' =>
    match expr_to_pattern e with
    | some p => .ok pr p s'
    | none => .ok pr (.Malformed "number literal unwrap") s'
  | .err pr _ s' => .err pr (EPattern.Start s'.line s'.col) s'
  | .oot => .oot

/-- `string_pattern_help` from the source. -/
def string_pattern_help (s : State) : PResult Pattern EPattern :=
  match string_parse s with
  | .ok pr str s' => .ok pr (.StrLiteral str) s'
  | .err pr _ s' => .err pr (EPattern.Start s'.line s'.col) s'
  | .oot => .oot

/-- The malformed text built for a qualified/multi-part access
(`loc_ident_pattern_help`, lines 248-252 of the source). -/
def malformedStr (module_name : String) (parts : List String) : String :=
  if module_name = "" then String.intercalate "." parts
  else module_name ++ "." ++ String.intercalate "." parts

/-- Modelled from the spec: the ordered-alternation step (`one_of!`): a
no-progress failure tries the next alternative (on the state carried in the
failure), a progress-made failure aborts. -/
def pOr {α ε : Type} (p q : State → PResult α ε) (s : State) : PResult α ε :=
  match p s with
  | .ok pr v s' => .ok pr v s'
  | .err .MadeProgress e s' => .err .MadeProgress e s'
  | .err .NoProgress _ s' => q s'
  | .oot => .oot

/-- One fuel level of the mutually recursive parser family of the source:
each component holds the parsers of `pattern.rs` at a given recursion
depth, with the indentation threshold as first argument. -/
structure PB where
  loc_pattern_help : Nat → State → PResult (Located Pattern) EPattern
  parse_closure_param : Nat → State → PResult (Located Pattern) EPattern
  loc_parse_tag_pattern_arg : Nat → State → PResult (Located Pattern) EPattern
  loc_ident_pattern_help : Nat → Bool → State → PResult (Located Pattern) EPattern
  loc_tag_pattern_args_help : Nat → State → PResult (List (Located Pattern)) EPattern
  loc_tag_pattern_arg : Nat → State → PResult (Located Pattern) EPattern
  loc_pattern_in_parens_help : Nat → State → PResult (Located Pattern) PInParens
  loc_pattern : Nat → State → PResult (Located Pattern) SyntaxError
  record_pattern_help : Nat → State → PResult Pattern PRecord
  record_fields_loop : Nat → List (Located Pattern) → State → PResult (List (Located Pattern) × List CommentOrNewline) PRecord
  record_pattern_field : Nat → State → PResult Pattern PRecord

/-- The parser family with no fuel left: every component is out of time. -/
def pbot : PB where
  loc_pattern_help := fun _ _ => .oot
  parse_closure_param := fun _ _ => .oot
  loc_parse_tag_pattern_arg := fun _ _ => .oot
  loc_ident_pattern_help := fun _ _ _ => .oot
  loc_tag_pattern_args_help := fun _ _ => .oot
  loc_tag_pattern_arg := fun _ _ => .oot
  loc_pattern_in_parens_help := fun _ _ => .oot
  loc_pattern := fun _ _ => .oot
  record_pattern_help := fun _ _ => .oot
  record_fields_loop := fun _ _ _ => .oot
  record_pattern_field := fun _ _ => .oot

/-- Body of `loc_pattern_help`, over the previous fuel level. -/
def locPatternHelpBody (prev : PB) (n : Nat) (s : State) : PResult (Located Pattern) EPattern :=
  pOr (fun t => pspecialize (fun e r c => EPattern.PInParens e r c) (fun u => prev.loc_pattern_in_parens_help n u) t)
    (pOr (fun t => ploc underscore_pattern_help t)
      (pOr (fun t => prev.loc_ident_pattern_help n true t)
        (pOr (fun t => ploc (pspecialize (fun e r c => EPattern.Record e r c) (fun u => prev.record_pattern_help n u)) t)
          (pOr (fun t => ploc string_pattern_help t)
            (fun t => ploc number_pattern_help t))))) s

/-- Body of `parse_closure_param`, over the previous fuel level. -/
def closureParamBody (prev : PB) (n : Nat) (s : State) : PResult (Located Pattern) EPattern :=
  pOr (fun t => prev.loc_ident_pattern_help n true t)
    (pOr (fun t => ploc underscore_pattern_help t)
      (pOr (fun t => ploc (pspecialize (fun e r c => EPattern.Record e r c) (fun u => prev.record_pattern_help n u)) t)
        (fun t => pspecialize (fun e r c => EPattern.PInParens e r c) (fun u => prev.loc_pattern_in_parens_help n u) t))) s

/-- Body of `loc_parse_tag_pattern_arg`, over the previous fuel level. -/
def parseTagArgBody (prev : PB) (n : Nat) (s : State) : PResult (Located Pattern) EPattern :=
  pOr (fun t => pspecialize (fun e r c => EPattern.PInParens e r c) (fun u => prev.loc_pattern_in_parens_help n u) t)
    (pOr (fun t => ploc underscore_pattern_help t)
      (pOr (fun t => prev.loc_ident_pattern_help n false t)
        (pOr (fun t => ploc (pspecialize (fun e r c => EPattern.Record e r c) (fun u => prev.record_pattern_help n u)) t)
          (pOr (fun t => ploc string_pattern_help t)
            (fun t => ploc number_pattern_help t))))) s

/-- Body of `loc_ident_pattern_help`, over the previous fuel level. -/
def lihBody (prev : PB) (n : Nat) (canArgs : Bool) (s : State) : PResult (Located Pattern) EPattern :=
  match pspecialize (fun _ r c => EPattern.Start r c) (ploc identScan) s with
  | .oot => .oot
  | .err pr e s1 => .err pr e s1
  | .ok _ locIdent s1 =>
    match locIdent.value with
    | .GlobalTag tag =>
      if canArgs then
        match prev.loc_tag_pattern_args_help n s1 with
        | .oot => .oot
        | .err pr e s2 => .err pr e s2
        | .ok _ locArgs s2 =>
          if locArgs.isEmpty then .ok .MadeProgress ⟨locIdent.region, .GlobalTag tag⟩ s2
          else
            .ok .MadeProgress
              ⟨Region.across_all locIdent.region (locArgs.map (fun a => a.region)),
               .Apply ⟨locIdent.region, .GlobalTag tag⟩ locArgs⟩ s2
      else .ok .MadeProgress ⟨locIdent.region, .GlobalTag tag⟩ s1
    | .PrivateTag tag =>
      if canArgs then
        match prev.loc_tag_pattern_args_help n s1 with
        | .oot => .oot
        | .err pr e s2 => .err pr e s2
        | .ok _ locArgs s2 =>
          if locArgs.isEmpty then .ok .MadeProgress ⟨locIdent.region, .PrivateTag tag⟩ s2
          else
            .ok .MadeProgress
              ⟨Region.across_all locIdent.region (locArgs.map (fun a => a.region)),
               .Apply ⟨locIdent.region, .PrivateTag tag⟩ locArgs⟩ s2
      else .ok .MadeProgress ⟨locIdent.region, .PrivateTag tag⟩ s1
    | .Access module_name parts =>
      if KEYWORDS.contains (parts.headD "") then
        .err .NoProgress (EPattern.End s.line s.col) s
      else if module_name = "" && parts.length = 1 then
        .ok .MadeProgress ⟨locIdent.region, .Identifier (parts.headD "")⟩ s1
      else
        .ok .MadeProgress ⟨locIdent.region, .Malformed (malformedStr module_name parts)⟩ s1
    | .AccessorFunction str => .ok .MadeProgress ⟨locIdent.region, .Malformed str⟩ s1
    | .Malformed _ => .err .MadeProgress (EPattern.Start s1.line s1.col) s1

/-- Body of `loc_tag_pattern_args_help`, over the previous fuel level. -/
def tagArgsBody (prev : PB) (n : Nat) (s : State) : PResult (List (Located Pattern)) EPattern :=
  match prev.loc_tag_pattern_arg n s with
  | .oot => .oot
  | .err .MadeProgress e s' => .err .MadeProgress e s'
  | .err .NoProgress _ s' => .ok .NoProgress [] s'
  | .ok _ arg s' =>
    match prev.loc_tag_pattern_args_help n s' with
    | .oot => .oot
    | .err pr e s2 => .err pr e s2
    | .ok _ args s2 => .ok .MadeProgress (arg :: args) s2

/-- Body of `loc_tag_pattern_arg`, over the previous fuel level. -/
def tagArgBody (prev : PB) (n : Nat) (s : State) : PResult (Located Pattern) EPattern :=
  match pbacktrackable (fun t => space0_e n (fun r c => EPattern.Space r c) (fun r c => EPattern.IndentStart r c) t) s with
  | .oot => .oot
  | .err pr e s' => .err pr e s'
  | .ok _ spaces s1 =>
    match prev.loc_parse_tag_pattern_arg n s1 with
    | .oot => .oot
    | .err pr e s2 => .err pr e s2
    | .ok _ locPat s2 =>
      .ok .MadeProgress
        (if spaces.isEmpty then locPat
         else ⟨locPat.region, .SpaceBefore locPat.value spaces⟩) s2

/-- Body of `loc_pattern_in_parens_help`, over the previous fuel level. -/
def parensBody (prev : PB) (n : Nat) (s : State) : PResult (Located Pattern) PInParens :=
  match word1 '(' (fun r c => PInParens.Open r c) s with
  | .oot => .oot
  | .err pr e s' => .err pr e s'
  | .ok _ _ s1 =>
    match space0_around_e
        (fun t => pspecialize (fun e r c => PInParens.Syntax e r c) (fun u => prev.loc_pattern n u) t)
        wrapPatBefore wrapPatAfter n (fun r c => PInParens.Space r c) (fun r c => PInParens.IndentEnd r c) s1 with
    | .oot => .oot
    | .err _ e s2 => .err .MadeProgress e s2
    | .ok _ locPat s2 =>
      match word1 ')' (fun r c => PInParens.End r c) s2 with
      | .oot => .oot
      | .err _ e s3 => .err .MadeProgress e s3
      | .ok _ _ s3 => .ok .MadeProgress locPat s3

/-- Body of `loc_pattern`, over the previous fuel level. -/
def locPatternBody (prev : PB) (n : Nat) (s : State) : PResult (Located Pattern) SyntaxError :=
  pspecialize (fun e _ _ => SyntaxError.Pattern e) (fun t => prev.loc_pattern_help n t) s

/-- Body of `record_pattern_help`, over the previous fuel level. -/
def recordBody (prev : PB) (n : Nat) (s : State) : PResult Pattern PRecord :=
  match word1 '{' (fun r c => PRecord.Open r c) s with
  | .oot => .oot
  | .err pr e s' => .err pr e s'
  | .ok _ _ s1 =>
    match prev.record_fields_loop n [] s1 with
    | .oot => .oot
    | .err _ e s2 => .err .MadeProgress e s2
    | .ok _ fieldsAndComments s2 => .ok .MadeProgress (.RecordDestructure fieldsAndComments.1) s2

/-- Body of `record_fields_loop`, over the previous fuel level. -/
def fieldsLoopBody (prev : PB) (n : Nat) (acc : List (Located Pattern)) (s : State) :
    PResult (List (Located Pattern) × List CommentOrNewline) PRecord :=
  match space0_e n (fun r c => PRecord.Space r c) (fun r c => PRecord.IndentEnd r c) s with
  | .oot => .oot
  | .err _ e s' => .err .MadeProgress e s'
  | .ok _ cn s1 =>
    match ploc (fun t => prev.record_pattern_field n t) s1 with
    | .oot => .oot
    | .err .MadeProgress e s2 => .err .MadeProgress e s2
    | .err .NoProgress _ _ =>
      match word1 '}' (fun r c => PRecord.End r c) s1 with
      | .oot => .oot
      | .ok _ _ s2 => .ok .MadeProgress (acc, cn) s2
      | .err _ e _ => .err .MadeProgress e s1
    | .ok _ fld s2 =>
      match space0_e n (fun r c => PRecord.Space r c) (fun r c => PRecord.IndentEnd r c) s2 with
      | .oot => .oot
      | .err _ e s' => .err .MadeProgress e s'
      | .ok _ _ s3 =>
        match word1 ',' (fun r c => PRecord.End r c) s3 with
        | .oot => .oot
        | .ok _ _ s4 => prev.record_fields_loop n (acc ++ [fld]) s4
        | .err _ _ _ =>
          match word1 '}' (fun r c => PRecord.End r c) s3 with
          | .oot => .oot
          | .ok _ _ s4 => .ok .MadeProgress (acc ++ [fld], []) s4
          | .err _ e _ => .err .MadeProgress e s3

/-- Body of `record_pattern_field`, over the previous fuel level. -/
def fieldBody (prev : PB) (n : Nat) (s : State) : PResult Pattern PRecord :=
  match pspecialize (fun _ _ _ => PRecord.Field s.line s.col) (ploc lowercase_ident) s with
  | .oot => .oot
  | .err pr e s' => .err pr e s'
  | .ok _ locLabel s1 =>
    match space0_e n (fun r c => PRecord.Space r c) (fun r c => PRecord.IndentEnd r c) s1 with
    | .oot => .oot
    | .err pr e s' => .err pr e s'
    | .ok _ spaces s2 =>
      match word1 ':' (fun r c => PRecord.Colon r c) s2 with
      | .oot => .oot
      | .ok _ _ s3 =>
        match space0_before_e
            (fun t => pspecialize (fun e r c => PRecord.Syntax e r c) (fun u => prev.loc_pattern n u) t)
            wrapPatBefore n (fun r c => PRecord.Space r c) (fun r c => PRecord.IndentColon r c) s3 with
        | .oot => .oot
        | .err pr e s' => .err pr e s'
        | .ok _ locVal s4 => .ok .MadeProgress (.RequiredField locLabel.value locVal) s4
      | .err _ _ _ =>
        match word1 '?' (fun r c => PRecord.Optional r c) s2 with
        | .oot => .oot
        | .ok _ _ s3 =>
          match space0_before_e
              (fun t => pspecialize (fun e r c => PRecord.Syntax e r c) (ploc (fun u => expr n u)) t)
              wrapExprBefore n (fun r c => PRecord.Space r c) (fun r c => PRecord.IndentColon r c) s3 with
          | .oot => .oot
          | .err pr e s' => .err pr e s'
          | .ok _ locVal s4 => .ok .MadeProgress (.OptionalField locLabel.value locVal) s4
        | .err _ _ _ =>
          .ok .MadeProgress
            (if spaces.isEmpty then .Identifier locLabel.value
             else .SpaceAfter (.Identifier locLabel.value) spaces) s2

/-- One step of the parser family: the bodies of the functions of
`pattern.rs`, with every call into the family taken at the previous fuel
level. -/
def pstep (prev : PB) : PB where
  loc_pattern_help := locPatternHelpBody prev
  parse_closure_param := closureParamBody prev
  loc_parse_tag_pattern_arg := parseTagArgBody prev
  loc_ident_pattern_help := lihBody prev
  loc_tag_pattern_args_help := tagArgsBody prev
  loc_tag_pattern_arg := tagArgBody prev
  loc_pattern_in_parens_help := parensBody prev
  loc_pattern := locPatternBody prev
  record_pattern_help := recordBody prev
  record_fields_loop := fieldsLoopBody prev
  record_pattern_field := fieldBody prev

/-- The parser family at a given recursion fuel. -/
def parsersAt : Nat → PB
  | 0 => pbot
  | f + 1 => pstep (parsersAt f)

/-- `loc_pattern_help` from the source (lines 65-79): ordered alternation
over parenthesized, underscore, identifier-classified, record, string and
number patterns. -/
def loc_pattern_help (fuel n : Nat) (s : State) : PResult (Located Pattern) EPattern :=
  (parsersAt fuel).loc_pattern_help n s

/-- `parse_closure_param` from the source (lines 36-56): ident first, then
underscore, record, and parenthesized. -/
def parse_closure_param (fuel n : Nat) (s : State) : PResult (Located Pattern) EPattern :=
  (parsersAt fuel).parse_closure_param n s

/-- `loc_parse_tag_pattern_arg` from the source (lines 111-129): the same
alternatives as `loc_pattern_help`, but the identifier alternative passes
`can_have_arguments = false` so that `Foo Bar 1` is parsed as
`Foo (Bar) 1` and not `Foo (Bar 1)`. -/
def loc_parse_tag_pattern_arg (fuel n : Nat) (s : State) : PResult (Located Pattern) EPattern :=
  (parsersAt fuel).loc_parse_tag_pattern_arg n s

/-- `loc_ident_pattern_help` from the source (lines 163-284): scan one
identifier token and classify it into a (possibly applied) tag, a bare
identifier, a malformed access, a keyword no-progress failure, or a hard
failure on a malformed token. -/
def loc_ident_pattern_help (fuel n : Nat) (canArgs : Bool) (s : State) : PResult (Located Pattern) EPattern :=
  (parsersAt fuel).loc_ident_pattern_help n canArgs s

/-- `loc_tag_pattern_args_help` from the source (lines 81-85):
`zero_or_more!` over single tag arguments; a no-progress failure of the
argument parser ends the repetition, a progress-made failure propagates. -/
def loc_tag_pattern_args_help (fuel n : Nat) (s : State) : PResult (List (Located Pattern)) EPattern :=
  (parsersAt fuel).loc_tag_pattern_args_help n s

/-- `loc_tag_pattern_arg` from the source (lines 87-109): backtrackable
leading space, then one atomic argument; leading trivia is attached with a
`SpaceBefore` wrapper keeping the argument's own region. -/
def loc_tag_pattern_arg (fuel n : Nat) (s : State) : PResult (Located Pattern) EPattern :=
  (parsersAt fuel).loc_tag_pattern_arg n s

/-- `loc_pattern_in_parens_help` from the source (lines 131-145):
`(`, a trivia-tolerant general pattern, `)`; the result keeps the inner
pattern's located region. -/
def loc_pattern_in_parens_help (fuel n : Nat) (s : State) : PResult (Located Pattern) PInParens :=
  (parsersAt fuel).loc_pattern_in_parens_help n s

/-- `loc_pattern` from the source (lines 58-63): `loc_pattern_help` with its
error re-tagged into `SyntaxError::Pattern`. -/
def loc_pattern (fuel n : Nat) (s : State) : PResult (Located Pattern) SyntaxError :=
  (parsersAt fuel).loc_pattern n s

/-- `record_pattern_help` from the source (lines 321-345): a brace-delimited
field collection becoming a `RecordDestructure` (final comments unused). -/
def record_pattern_help (fuel n : Nat) (s : State) : PResult Pattern PRecord :=
  (parsersAt fuel).record_pattern_help n s

/-- Modelled from the spec: the `collection_trailing_sep_e!` loop used by
`record_pattern_help`: comma-separated located fields with optional
trailing comma and interstitial trivia, closed by `}`; once `{` has been
consumed every failure is progress-made. -/
def record_fields_loop (fuel n : Nat) (acc : List (Located Pattern)) (s : State) :
    PResult (List (Located Pattern) × List CommentOrNewline) PRecord :=
  (parsersAt fuel).record_fields_loop n acc s

/-- `record_pattern_field` from the source (lines 347-429): a lowercase
label, optional trivia, then optionally `:` with a full sub-pattern or `?`
with a default expression; with neither, the label alone binds. -/
def record_pattern_field (fuel n : Nat) (s : State) : PResult Pattern PRecord :=
  (parsersAt fuel).record_pattern_field n s

theorem loc_pattern_help_succ (f n : Nat) (s : State) :
    loc_pattern_help (f + 1) n s = locPatternHelpBody (parsersAt f) n s := rfl

theorem parse_closure_param_succ (f n : Nat) (s : State) :
    parse_closure_param (f + 1) n s = closureParamBody (parsersAt f) n s := rfl

theorem loc_parse_tag_pattern_arg_succ (f n : Nat) (s : State) :
    loc_parse_tag_pattern_arg (f + 1) n s = parseTagArgBody (parsersAt f) n s := rfl

theorem loc_ident_pattern_help_succ (f n : Nat) (b : Bool) (s : State) :
    loc_ident_pattern_help (f + 1) n b s = lihBody (parsersAt f) n b s := rfl

theorem loc_tag_pattern_args_help_succ (f n : Nat) (s : State) :
    loc_tag_pattern_args_help (f + 1) n s = tagArgsBody (parsersAt f) n s := rfl

theorem loc_tag_pattern_arg_succ (f n : Nat) (s : State) :
    loc_tag_pattern_arg (f + 1) n s = tagArgBody (parsersAt f) n s := rfl

theorem loc_pattern_in_parens_help_succ (f n : Nat) (s : State) :
    loc_pattern_in_parens_help (f + 1) n s = parensBody (parsersAt f) n s := rfl

theorem loc_pattern_succ (f n : Nat) (s : State) :
    loc_pattern (f + 1) n s = locPatternBody (parsersAt f) n s := rfl

theorem record_pattern_help_succ (f n : Nat) (s : State) :
    record_pattern_help (f + 1) n s = recordBody (parsersAt f) n s := rfl

theorem record_fields_loop_succ (f n : Nat) (acc : List (Located Pattern)) (s : State) :
    record_fields_loop (f + 1) n acc s = fieldsLoopBody (parsersAt f) n acc s := rfl

theorem record_pattern_field_succ (f n : Nat) (s : State) :
    record_pattern_field (f + 1) n s = fieldBody (parsersAt f) n s := rfl

theorem PB_loc_pattern_help (f : Nat) : (parsersAt f).loc_pattern_help = loc_pattern_help f := rfl

theorem PB_parse_closure_param (f : Nat) : (parsersAt f).parse_closure_param = parse_closure_param f := rfl

theorem PB_loc_parse_tag_pattern_arg (f : Nat) : (parsersAt f).loc_parse_tag_pattern_arg = loc_parse_tag_pattern_arg f := rfl

theorem PB_loc_ident_pattern_help (f : Nat) : (parsersAt f).loc_ident_pattern_help = loc_ident_pattern_help f := rfl

theorem PB_loc_tag_pattern_args_help (f : Nat) : (parsersAt f).loc_tag_pattern_args_help = loc_tag_pattern_args_help f := rfl

theorem PB_loc_tag_pattern_arg (f : Nat) : (parsersAt f).loc_tag_pattern_arg = loc_tag_pattern_arg f := rfl

theorem PB_loc_pattern_in_parens_help (f : Nat) : (parsersAt f).loc_pattern_in_parens_help = loc_pattern_in_parens_help f := rfl

theorem PB_loc_pattern (f : Nat) : (parsersAt f).loc_pattern = loc_pattern f := rfl

theorem PB_record_pattern_help (f : Nat) : (parsersAt f).record_pattern_help = record_pattern_help f := rfl

theorem PB_record_fields_loop (f : Nat) : (parsersAt f).record_fields_loop = record_fields_loop f := rfl

theorem PB_record_pattern_field (f : Nat) : (parsersAt f).record_pattern_field = record_pattern_field f := rfl

mutual

/-- The region of every located node of a pattern is well formed and
contained in the region of its parent; `outer` is the region of the
enclosing located node. -/
def wfIn (outer : Region) : Pattern → Bool
  | .Apply ⟨hr, hv⟩ args =>
    outer.containsB hr && hr.wfB && wfIn hr hv && wfList outer args
  | .RecordDestructure fs => wfList outer fs
  | .RequiredField _ ⟨lr, lv⟩ => outer.containsB lr && lr.wfB && wfIn lr lv
  | .OptionalField _ le => outer.containsB le.region && le.region.wfB
  | .SpaceBefore p _ => wfIn outer p
  | .SpaceAfter p _ => wfIn outer p
  | _ => true

/-- List form of `wfIn`. -/
def wfList (outer : Region) : List (Located Pattern) → Bool
  | [] => true
  | ⟨lr, lv⟩ :: rest => outer.containsB lr && lr.wfB && wfIn lr lv && wfList outer rest

end

mutual

/-- No `Apply` node anywhere in the pattern has an empty argument sequence. -/
def noEmpApply : Pattern → Bool
  | .Apply ⟨_, hv⟩ args => !args.isEmpty && noEmpApply hv && noEmpList args
  | .RecordDestructure fs => noEmpList fs
  | .RequiredField _ ⟨_, v⟩ => noEmpApply v
  | .SpaceBefore p _ => noEmpApply p
  | .SpaceAfter p _ => noEmpApply p
  | _ => true

/-- List form of `noEmpApply`. -/
def noEmpList : List (Located Pattern) → Bool
  | [] => true
  | ⟨_, v⟩ :: rest => noEmpApply v && noEmpList rest

end

/-- The all-zero region used when region information is erased. -/
def rzero : Region := ⟨0, 0, 0, 0⟩

mutual

/-- Erase every region inside a pattern value. -/
def eraseP : Pattern → Pattern
  | .Apply ⟨_, hv⟩ args => .Apply ⟨rzero, eraseP hv⟩ (eraseL args)
  | .RecordDestructure fs => .RecordDestructure (eraseL fs)
  | .RequiredField l ⟨_, v⟩ => .RequiredField l ⟨rzero, eraseP v⟩
  | .OptionalField l le => .OptionalField l ⟨rzero, le.value⟩
  | .SpaceBefore p sp => .SpaceBefore (eraseP p) sp
  | .SpaceAfter p sp => .SpaceAfter (eraseP p) sp
  | p => p

/-- List form of `eraseP`. -/
def eraseL : List (Located Pattern) → List (Located Pattern)
  | [] => []
  | ⟨_, v⟩ :: rest => ⟨rzero, eraseP v⟩ :: eraseL rest

end

theorem posLeB_iff (l1 c1 l2 c2 : Nat) :
    posLeB l1 c1 l2 c2 = true ↔ (l1 < l2 ∨ (l1 = l2 ∧ c1 ≤ c2)) := by
  simp only [posLeB]
  split
  · simp; omega
  · split <;> simp <;> omega

theorem posLeB_refl (l c : Nat) : posLeB l c l c = true := by
  rw [posLeB_iff]; omega

theorem posLeB_trans {l1 c1 l2 c2 l3 c3 : Nat}
    (h1 : posLeB l1 c1 l2 c2 = true) (h2 : posLeB l2 c2 l3 c3 = true) :
    posLeB l1 c1 l3 c3 = true := by
  rw [posLeB_iff] at h1 h2 ⊢; omega

/-- Discriminator: the result is a success. -/
def isOkB {α ε : Type} : PResult α ε → Bool
  | .ok _ _ _ => true
  | _ => false

/-- Discriminator: the pattern is an `Apply` node. -/
def isApplyB : Pattern → Bool
  | .Apply _ _ => true
  | _ => false

theorem word1_err {ε : Type} {c : Char} {toErr : Nat → Nat → ε} {s s' : State}
    {pr : Progress} {e : ε} (h : word1 c toErr s = .err pr e s') :
    pr = .NoProgress ∧ s' = s ∧ e = toErr s.line s.col := by
  unfold word1 at h
  repeat' split at h
  all_goals (try cases h)
  all_goals simp_all

theorem word1_ok {ε : Type} {c : Char} {toErr : Nat → Nat → ε} {s s' : State}
    {pr : Progress} {v : Unit} (h : word1 c toErr s = .ok pr v s') :
    pr = .MadeProgress ∧ s' = stepChar s ∧ s.input.head? = some c := by
  unfold word1 at h
  repeat' split at h
  all_goals (try cases h)
  all_goals simp_all

theorem identScan_err {s s' : State} {pr : Progress} {e : Unit}
    (h : identScan s = .err pr e s') : pr = .NoProgress ∧ s' = s := by
  unfold identScan at h
  repeat' split at h
  all_goals (try cases h)
  all_goals simp_all

theorem identScan_ok_first {s s' : State} {pr : Progress} {v : Ident}
    (h : identScan s = .ok pr v s') :
    ∃ c rest, s.input = c :: rest ∧ (c = '@' ∨ c = '.' ∨ c.isAlpha = true) := by
  unfold identScan at h
  repeat' split at h
  all_goals (try cases h)
  all_goals exact ⟨_, _, by assumption, by tauto⟩

theorem lowercase_ident_err {s s' : State} {pr : Progress} {e : Unit}
    (h : lowercase_ident s = .err pr e s') : pr = .NoProgress ∧ s' = s := by
  unfold lowercase_ident at h
  repeat' split at h
  all_goals (try cases h)
  all_goals simp_all

theorem lowercase_ident_ok_first {s s' : State} {pr : Progress} {v : String}
    (h : lowercase_ident s = .ok pr v s') :
    ∃ c rest, s.input = c :: rest ∧ c.isLower = true := by
  unfold lowercase_ident at h
  repeat' split at h
  all_goals (try cases h)
  all_goals exact ⟨_, _, by assumption, by assumption⟩

theorem number_literal_np {s s' : State} {e : Unit}
    (h : number_literal s = .err .NoProgress e s') : s' = s := by
  unfold number_literal at h
  repeat' split at h
  all_goals (try cases h)
  all_goals simp_all

theorem number_literal_ok_first {s s' : State} {pr : Progress} {v : Expr}
    (h : number_literal s = .ok pr v s') :
    ∃ c rest, s.input = c :: rest ∧ c.isDigit = true := by
  unfold number_literal at h
  repeat' split at h
  all_goals (try cases h)
  all_goals exact ⟨_, _, by assumption, by assumption⟩

theorem string_parse_np {s s' : State} {e : Unit}
    (h : string_parse s = .err .NoProgress e s') : s' = s := by
  unfold string_parse at h
  repeat' split at h
  all_goals (try cases h)
  all_goals simp_all

theorem string_parse_ok_first {s s' : State} {pr : Progress} {v : String}
    (h : string_parse s = .ok pr v s') :
    ∃ rest, s.input = '"' :: rest := by
  unfold string_parse at h
  repeat' split at h
  all_goals (try cases h)
  all_goals exact ⟨_, by assumption⟩
theorem space0_e_err {ε : Type} {n : Nat} {spErr indErr : Nat → Nat → ε} {s s' : State}
    {pr : Progress} {e : ε} (h : space0_e n spErr indErr s = .err pr e s') :
    pr = .MadeProgress := by
  unfold space0_e at h
  repeat' split at h
  all_goals (try cases h)
  all_goals simp_all

theorem space0_e_not_oot {ε : Type} {n : Nat} {spErr indErr : Nat → Nat → ε} {s : State} :
    space0_e n spErr indErr s ≠ .oot := by
  unfold space0_e
  repeat' split
  all_goals simp

theorem space0_e_ok_empty {ε : Type} {n : Nat} {spErr indErr : Nat → Nat → ε} {s : State}
    (h : (s.input.takeWhile isSpaceCh).isEmpty = true) :
    space0_e n spErr indErr s = .ok .NoProgress [] s := by
  unfold space0_e
  have h2 : s.input.takeWhile isSpaceCh = [] := by
    cases hx : s.input.takeWhile isSpaceCh with
    | nil => rfl
    | cons a l => rw [hx] at h; simp [List.isEmpty] at h
  rw [h2]
  simp [triviaOf, stepN]

/-- Lexicographic state-position order. -/
def sLeB (a b : State) : Bool := posLeB a.line a.col b.line b.col

theorem stepChar_mono (s : State) : sLeB s (stepChar s) = true := by
  unfold stepChar sLeB
  cases s.input with
  | nil => exact posLeB_refl _ _
  | cons c rest =>
    by_cases hc : c = '\n' <;> simp [hc, posLeB_iff]

theorem stepN_mono (k : Nat) (s : State) : sLeB s (stepN s k) = true := by
  induction k generalizing s with
  | zero => exact posLeB_refl _ _
  | succ m ih =>
    show sLeB s (stepN (stepChar s) m) = true
    exact posLeB_trans (stepChar_mono s) (ih (stepChar s))

theorem sLeB_trans {a b c : State} (h1 : sLeB a b = true) (h2 : sLeB b c = true) :
    sLeB a c = true := posLeB_trans h1 h2
theorem word1_mono {ε : Type} {c : Char} {toErr : Nat → Nat → ε} {s s' : State}
    {pr : Progress} {v : Unit} (h : word1 c toErr s = .ok pr v s') : sLeB s s' = true := by
  obtain ⟨-, rfl, -⟩ := word1_ok h
  exact stepChar_mono s

theorem identScan_mono {s s' : State} {pr : Progress} {v : Ident}
    (h : identScan s = .ok pr v s') : sLeB s s' = true := by
  unfold identScan at h
  repeat' split at h
  all_goals (try cases h)
  all_goals exact stepN_mono _ _

theorem lowercase_ident_mono {s s' : State} {pr : Progress} {v : String}
    (h : lowercase_ident s = .ok pr v s') : sLeB s s' = true := by
  unfold lowercase_ident at h
  repeat' split at h
  all_goals (try cases h)
  all_goals exact stepN_mono _ _

theorem number_literal_mono {s s' : State} {pr : Progress} {v : Expr}
    (h : number_literal s = .ok pr v s') : sLeB s s' = true := by
  unfold number_literal at h
  repeat' split at h
  all_goals (try cases h)
  all_goals exact stepN_mono _ _

theorem string_parse_mono {s s' : State} {pr : Progress} {v : String}
    (h : string_parse s = .ok pr v s') : sLeB s s' = true := by
  unfold string_parse at h
  repeat' split at h
  all_goals (try cases h)
  all_goals exact stepN_mono _ _

theorem space0_e_mono {ε : Type} {n : Nat} {spErr indErr : Nat → Nat → ε} {s s' : State}
    {pr : Progress} {v : List CommentOrNewline}
    (h : space0_e n spErr indErr s = .ok pr v s') : sLeB s s' = true := by
  unfold space0_e at h
  repeat' split at h
  all_goals (try cases h)
  all_goals exact stepN_mono _ _

theorem expr_mono {n : Nat} {s s' : State} {pr : Progress} {v : Expr}
    (h : expr n s = .ok pr v s') : sLeB s s' = true := by
  unfold expr at h
  split at h
  · cases h; exact number_literal_mono (by assumption)
  · cases h
  · cases h
  · rename_i heq
    split at h
    · cases h; exact lowercase_ident_mono (by assumption)
    · cases h
    · cases h
theorem loc_pattern_help_zero (n : Nat) (s : State) : loc_pattern_help 0 n s = .oot := rfl

theorem parse_closure_param_zero (n : Nat) (s : State) : parse_closure_param 0 n s = .oot := rfl

theorem loc_parse_tag_pattern_arg_zero (n : Nat) (s : State) : loc_parse_tag_pattern_arg 0 n s = .oot := rfl

theorem loc_ident_pattern_help_zero (n : Nat) (b : Bool) (s : State) : loc_ident_pattern_help 0 n b s = .oot := rfl

theorem loc_tag_pattern_args_help_zero (n : Nat) (s : State) : loc_tag_pattern_args_help 0 n s = .oot := rfl

theorem loc_tag_pattern_arg_zero (n : Nat) (s : State) : loc_tag_pattern_arg 0 n s = .oot := rfl

theorem loc_pattern_in_parens_help_zero (n : Nat) (s : State) : loc_pattern_in_parens_help 0 n s = .oot := rfl

theorem loc_pattern_zero (n : Nat) (s : State) : loc_pattern 0 n s = .oot := rfl

theorem record_pattern_help_zero (n : Nat) (s : State) : record_pattern_help 0 n s = .oot := rfl

theorem record_fields_loop_zero (n : Nat) (acc : List (Located Pattern)) (s : State) :
    record_fields_loop 0 n acc s = .oot := rfl

theorem record_pattern_field_zero (n : Nat) (s : State) : record_pattern_field 0 n s = .oot := rfl

theorem lowercase_ident_pattern_err {s s' : State} {pr : Progress} {e : EPattern}
    (h : lowercase_ident_pattern s = .err pr e s') :
    pr = .NoProgress ∧ s' = s ∧ e = .End s.line s.col := by
  unfold lowercase_ident_pattern pspecialize at h
  split at h
  · cases h
  · rename_i heq
    injection h with h1 h2 h3
    obtain ⟨hp, hs⟩ := lowercase_ident_err heq
    exact ⟨h1 ▸ hp, h3 ▸ hs, h2.symm⟩
  · cases h

theorem underscore_err {s s' : State} {pr : Progress} {e : EPattern}
    (h : underscore_pattern_help s = .err pr e s') :
    pr = .NoProgress ∧ s' = s ∧ e = .Underscore s.line s.col := by
  unfold underscore_pattern_help at h
  split at h
  · rename_i heq
    injection h with h1 h2 h3
    obtain ⟨hp, hs, he⟩ := word1_err heq
    exact ⟨h1 ▸ hp, h3 ▸ hs, h2 ▸ he⟩
  · cases h
  · split at h
    · cases h
    · cases h
    · rename_i heq
      exact absurd (lowercase_ident_pattern_err heq).1 (by simp)
    · cases h

theorem underscore_ok_first {s s' : State} {pr : Progress} {v : Pattern}
    (h : underscore_pattern_help s = .ok pr v s') : s.input.head? = some '_' := by
  unfold underscore_pattern_help at h
  split at h
  · cases h
  · cases h
  · rename_i heq
    exact (word1_ok heq).2.2

theorem number_pattern_help_np {s s' : State} {e : EPattern}
    (h : number_pattern_help s = .err .NoProgress e s') :
    s' = s ∧ e = .Start s.line s.col := by
  unfold number_pattern_help at h
  split at h
  · split at h <;> cases h
  · rename_i pr2 e2 s2 heq
    injection h with h1 h2 h3
    have hs : s2 = s := number_literal_np (h1 ▸ heq)
    subst hs
    exact ⟨h3.symm, h2.symm⟩
  · cases h

theorem number_pattern_help_ok_first {s s' : State} {pr : Progress} {v : Pattern}
    (h : number_pattern_help s = .ok pr v s') :
    ∃ c rest, s.input = c :: rest ∧ c.isDigit = true := by
  unfold number_pattern_help at h
  split at h
  · rename_i heq
    exact number_literal_ok_first heq
  · cases h
  · cases h

theorem string_pattern_help_np {s s' : State} {e : EPattern}
    (h : string_pattern_help s = .err .NoProgress e s') :
    s' = s ∧ e = .Start s.line s.col := by
  unfold string_pattern_help at h
  split at h
  · cases h
  · rename_i pr2 e2 s2 heq
    injection h with h1 h2 h3
    have hs : s2 = s := string_parse_np (h1 ▸ heq)
    subst hs
    exact ⟨h3.symm, h2.symm⟩
  · cases h

theorem string_pattern_help_ok_first {s s' : State} {pr : Progress} {v : Pattern}
    (h : string_pattern_help s = .ok pr v s') :
    ∃ rest, s.input = '"' :: rest := by
  unfold string_pattern_help at h
  split at h
  · rename_i heq
    exact string_parse_ok_first heq
  · cases h
  · cases h

theorem ploc_err_iff {α ε : Type} {p : State → PResult α ε} {s s' : State} {pr : Progress} {e : ε} :
    ploc p s = .err pr e s' ↔ p s = .err pr e s' := by
  unfold ploc
  cases hp : p s <;> simp

theorem ploc_ok_elim {α ε : Type} {p : State → PResult α ε} {s s' : State} {pr : Progress}
    {lv : Located α} (h : ploc p s = .ok pr lv s') :
    p s = .ok pr lv.value s' ∧ lv.region = ⟨s.line, s.col, s'.line, s'.col⟩ := by
  unfold ploc at h
  cases hp : p s
  all_goals rw [hp] at h
  · injection h with h1 h2 h3
    subst h3 h1
    exact ⟨by rw [← h2], by rw [← h2]⟩
  · cases h
  · cases h

theorem pspecialize_ok_iff {α ε ε' : Type} {f : ε → Nat → Nat → ε'} {p : State → PResult α ε}
    {s s' : State} {pr : Progress} {v : α} :
    pspecialize f p s = .ok pr v s' ↔ p s = .ok pr v s' := by
  unfold pspecialize
  cases hp : p s <;> simp

theorem pspecialize_err_elim {α ε ε' : Type} {f : ε → Nat → Nat → ε'} {p : State → PResult α ε}
    {s s' : State} {pr : Progress} {e : ε'} (h : pspecialize f p s = .err pr e s') :
    ∃ e0, p s = .err pr e0 s' ∧ e = f e0 s'.line s'.col := by
  unfold pspecialize at h
  cases hp : p s
  all_goals rw [hp] at h
  · cases h
  · injection h with h1 h2 h3
    subst h1 h3
    exact ⟨_, rfl, h2.symm⟩
  · cases h

theorem pbacktrackable_ok_iff {α ε : Type} {p : State → PResult α ε} {s s' : State}
    {pr : Progress} {v : α} :
    pbacktrackable p s = .ok pr v s' ↔ p s = .ok pr v s' := by
  unfold pbacktrackable
  cases hp : p s <;> simp

theorem pbacktrackable_err {α ε : Type} {p : State → PResult α ε} {s s' : State}
    {pr : Progress} {e : ε} (h : pbacktrackable p s = .err pr e s') :
    pr = .NoProgress ∧ s' = s := by
  unfold pbacktrackable at h
  cases hp : p s
  all_goals rw [hp] at h
  · cases h
  · injection h with h1 h2 h3
    exact ⟨h1.symm, h3.symm⟩
  · cases h

theorem args_loop_err_mp {f n : Nat} {s s' : State} {pr : Progress} {e : EPattern}
    (h : loc_tag_pattern_args_help f n s = .err pr e s') : pr = .MadeProgress := by
  induction f generalizing s s' pr e with
  | zero => rw [loc_tag_pattern_args_help_zero] at h; cases h
  | succ g ih =>
    rw [loc_tag_pattern_args_help_succ] at h
    unfold tagArgsBody at h
    simp only [PB_loc_tag_pattern_arg, PB_loc_tag_pattern_args_help] at h
    split at h
    · cases h
    · injection h with h1 h2 h3; exact h1.symm
    · cases h
    · split at h
      · cases h
      · rename_i heq
        injection h with h1 h2 h3
        subst h1
        exact ih heq
      · cases h

theorem fields_loop_err_mp {f n : Nat} {acc : List (Located Pattern)} {s s' : State}
    {pr : Progress} {e : PRecord}
    (h : record_fields_loop f n acc s = .err pr e s') : pr = .MadeProgress := by
  induction f generalizing acc s s' pr e with
  | zero => rw [record_fields_loop_zero] at h; cases h
  | succ g ih =>
    rw [record_fields_loop_succ] at h
    unfold fieldsLoopBody at h
    simp only [PB_record_pattern_field, PB_record_fields_loop] at h
    repeat' split at h
    all_goals first
      | exact ih h
      | (injection h with h1 h2 h3; exact h1.symm)
      | cases h

theorem lih_errnp {f n : Nat} {b : Bool} {s s' : State} {e : EPattern}
    (h : loc_ident_pattern_help f n b s = .err .NoProgress e s') : s' = s := by
  cases f with
  | zero => rw [loc_ident_pattern_help_zero] at h; cases h
  | succ g =>
    rw [loc_ident_pattern_help_succ] at h
    unfold lihBody at h
    simp only [PB_loc_tag_pattern_args_help] at h
    split at h
    · cases h
    · rename_i heq
      injection h with h1 h2 h3
      subst h1 h3
      obtain ⟨e0, he0, -⟩ := pspecialize_err_elim heq
      exact (identScan_err (ploc_err_iff.mp he0)).2
    · split at h
      · -- global tag
        split at h
        · split at h
          · cases h
          · rename_i heq
            injection h with h1 h2 h3
            have hmp := args_loop_err_mp heq
            rw [h1] at hmp
            cases hmp
          · split at h <;> cases h
        · cases h
      · -- private tag
        split at h
        · split at h
          · cases h
          · rename_i heq
            injection h with h1 h2 h3
            have hmp := args_loop_err_mp heq
            rw [h1] at hmp
            cases hmp
          · split at h <;> cases h
        · cases h
      · -- access
        split at h
        · injection h with h1 h2 h3
          exact h3.symm
        · split at h <;> cases h
      · -- accessor function
        cases h
      · -- malformed token
        injection h with h1 h2 h3
        cases h1

theorem parens_errnp {f n : Nat} {s s' : State} {e : PInParens}
    (h : loc_pattern_in_parens_help f n s = .err .NoProgress e s') :
    s' = s ∧ e = .Open s.line s.col := by
  cases f with
  | zero => rw [loc_pattern_in_parens_help_zero] at h; cases h
  | succ g =>
    rw [loc_pattern_in_parens_help_succ] at h
    unfold parensBody at h
    split at h
    · cases h
    · rename_i heq
      injection h with h1 h2 h3
      obtain ⟨hp, hs, he⟩ := word1_err heq
      exact ⟨h3 ▸ hs, h2 ▸ he⟩
    · split at h
      · cases h
      · injection h with h1 h2 h3; cases h1
      · split at h
        · cases h
        · injection h with h1 h2 h3; cases h1
        · cases h

theorem parens_ok_first {f n : Nat} {s s' : State} {pr : Progress} {v : Located Pattern}
    (h : loc_pattern_in_parens_help f n s = .ok pr v s') : s.input.head? = some '(' := by
  cases f with
  | zero => rw [loc_pattern_in_parens_help_zero] at h; cases h
  | succ g =>
    rw [loc_pattern_in_parens_help_succ] at h
    unfold parensBody at h
    split at h
    · cases h
    · cases h
    · rename_i heq
      exact (word1_ok heq).2.2

theorem record_errnp {f n : Nat} {s s' : State} {e : PRecord}
    (h : record_pattern_help f n s = .err .NoProgress e s') :
    s' = s ∧ e = .Open s.line s.col := by
  cases f with
  | zero => rw [record_pattern_help_zero] at h; cases h
  | succ g =>
    rw [record_pattern_help_succ] at h
    unfold recordBody at h
    split at h
    · cases h
    · rename_i heq
      injection h with h1 h2 h3
      obtain ⟨hp, hs, he⟩ := word1_err heq
      exact ⟨h3 ▸ hs, h2 ▸ he⟩
    · split at h
      · cases h
      · injection h with h1 h2 h3; cases h1
      · cases h

theorem record_ok_first {f n : Nat} {s s' : State} {pr : Progress} {v : Pattern}
    (h : record_pattern_help f n s = .ok pr v s') : s.input.head? = some '{' := by
  cases f with
  | zero => rw [record_pattern_help_zero] at h; cases h
  | succ g =>
    rw [record_pattern_help_succ] at h
    unfold recordBody at h
    split at h
    · cases h
    · cases h
    · rename_i heq
      exact (word1_ok heq).2.2

theorem lih_ok_first {f n : Nat} {b : Bool} {s s' : State} {pr : Progress} {v : Located Pattern}
    (h : loc_ident_pattern_help f n b s = .ok pr v s') :
    ∃ c rest, s.input = c :: rest ∧ (c = '@' ∨ c = '.' ∨ c.isAlpha = true) := by
  cases f with
  | zero => rw [loc_ident_pattern_help_zero] at h; cases h
  | succ g =>
    rw [loc_ident_pattern_help_succ] at h
    unfold lihBody at h
    split at h
    · cases h
    · cases h
    · rename_i heq
      exact identScan_ok_first (ploc_ok_elim (pspecialize_ok_iff.mp heq)).1

theorem loc_pattern_help_errnp {f n : Nat} {s s' : State} {e : EPattern}
    (h : loc_pattern_help f n s = .err .NoProgress e s') : s' = s := by
  cases f with
  | zero => rw [loc_pattern_help_zero] at h; cases h
  | succ g =>
    rw [loc_pattern_help_succ] at h
    unfold locPatternHelpBody at h
    simp only [PB_loc_pattern_in_parens_help, PB_loc_ident_pattern_help, PB_record_pattern_help] at h
    unfold pOr at h
    split at h
    · cases h
    · injection h with h1 h2 h3; cases h1
    · rename_i e1 s1 heq1
      obtain ⟨e0, he0, -⟩ := pspecialize_err_elim heq1
      obtain ⟨hs1, -⟩ := parens_errnp he0
      subst hs1
      split at h
      · cases h
      · injection h with h1 h2 h3; cases h1
      · rename_i e2 s2 heq2
        obtain ⟨-, hs2, -⟩ := underscore_err (ploc_err_iff.mp heq2)
        subst hs2
        split at h
        · cases h
        · injection h with h1 h2 h3; cases h1
        · rename_i e3 s3 heq3
          have hs3 := lih_errnp heq3
          subst hs3
          split at h
          · cases h
          · injection h with h1 h2 h3; cases h1
          · rename_i e4 s4 heq4
            obtain ⟨e5, he5, -⟩ := pspecialize_err_elim (ploc_err_iff.mp heq4)
            obtain ⟨hs4, -⟩ := record_errnp he5
            subst hs4
            split at h
            · cases h
            · injection h with h1 h2 h3; cases h1
            · rename_i e6 s6 heq6
              obtain ⟨hs6, -⟩ := string_pattern_help_np (ploc_err_iff.mp heq6)
              subst hs6
              obtain ⟨hs7, -⟩ := number_pattern_help_np (ploc_err_iff.mp h)
              exact hs7
            · cases h
          · cases h
        · cases h
      · cases h
    · cases h

theorem loc_parse_tag_pattern_arg_errnp {f n : Nat} {s s' : State} {e : EPattern}
    (h : loc_parse_tag_pattern_arg f n s = .err .NoProgress e s') : s' = s := by
  cases f with
  | zero => rw [loc_parse_tag_pattern_arg_zero] at h; cases h
  | succ g =>
    rw [loc_parse_tag_pattern_arg_succ] at h
    unfold parseTagArgBody at h
    simp only [PB_loc_pattern_in_parens_help, PB_loc_ident_pattern_help, PB_record_pattern_help] at h
    unfold pOr at h
    split at h
    · cases h
    · injection h with h1 h2 h3; cases h1
    · rename_i e1 s1 heq1
      obtain ⟨e0, he0, -⟩ := pspecialize_err_elim heq1
      obtain ⟨hs1, -⟩ := parens_errnp he0
      subst hs1
      split at h
      · cases h
      · injection h with h1 h2 h3; cases h1
      · rename_i e2 s2 heq2
        obtain ⟨-, hs2, -⟩ := underscore_err (ploc_err_iff.mp heq2)
        subst hs2
        split at h
        · cases h
        · injection h with h1 h2 h3; cases h1
        · rename_i e3 s3 heq3
          have hs3 := lih_errnp heq3
          subst hs3
          split at h
          · cases h
          · injection h with h1 h2 h3; cases h1
          · rename_i e4 s4 heq4
            obtain ⟨e5, he5, -⟩ := pspecialize_err_elim (ploc_err_iff.mp heq4)
            obtain ⟨hs4, -⟩ := record_errnp he5
            subst hs4
            split at h
            · cases h
            · injection h with h1 h2 h3; cases h1
            · rename_i e6 s6 heq6
              obtain ⟨hs6, -⟩ := string_pattern_help_np (ploc_err_iff.mp heq6)
              subst hs6
              obtain ⟨hs7, -⟩ := number_pattern_help_np (ploc_err_iff.mp h)
              exact hs7
            · cases h
          · cases h
        · cases h
      · cases h
    · cases h

theorem loc_pattern_errnp {f n : Nat} {s s' : State} {e : SyntaxError}
    (h : loc_pattern f n s = .err .NoProgress e s') : s' = s := by
  cases f with
  | zero => rw [loc_pattern_zero] at h; cases h
  | succ g =>
    rw [loc_pattern_succ] at h
    unfold locPatternBody at h
    simp only [PB_loc_pattern_help] at h
    obtain ⟨e0, he0, -⟩ := pspecialize_err_elim h
    exact loc_pattern_help_errnp he0

theorem lih_false_not_apply {f n : Nat} {s s' : State} {pr : Progress} {lv : Located Pattern}
    (h : loc_ident_pattern_help f n false s = .ok pr lv s') : isApplyB lv.value = false := by
  cases f with
  | zero => rw [loc_ident_pattern_help_zero] at h; cases h
  | succ g =>
    rw [loc_ident_pattern_help_succ] at h
    unfold lihBody at h
    split at h
    · cases h
    · cases h
    · split at h
      · rw [if_neg (by simp : ¬(false = true))] at h
        injection h with h1 h2 h3
        rw [← h2]
        rfl
      · rw [if_neg (by simp : ¬(false = true))] at h
        injection h with h1 h2 h3
        rw [← h2]
        rfl
      · split at h
        · cases h
        · split at h
          · injection h with h1 h2 h3
            rw [← h2]
            rfl
          · injection h with h1 h2 h3
            rw [← h2]
            rfl
      · injection h with h1 h2 h3
        rw [← h2]
        rfl
      · cases h

theorem lih_access_keyword {f n : Nat} {b : Bool} {s s1 : State} {pr : Progress}
    {reg : Region} {name : String}
    (hscan : pspecialize (fun _ r c => EPattern.Start r c) (ploc identScan) s =
      .ok pr ⟨reg, .Access "" [name]⟩ s1)
    (hkw : name ∈ KEYWORDS) :
    loc_ident_pattern_help (f + 1) n b s = .err .NoProgress (.End s.line s.col) s := by
  rw [loc_ident_pattern_help_succ]
  unfold lihBody
  rw [hscan]
  have hc : KEYWORDS.contains (([name] : List String).headD "") = true := by
    simp only [List.headD]
    exact List.elem_iff.mpr hkw
  simp only [hc, if_true]

theorem lih_access_malformed {f n : Nat} {b : Bool} {s s1 : State} {pr : Progress}
    {reg : Region} {mod : String} {parts : List String}
    (hscan : pspecialize (fun _ r c => EPattern.Start r c) (ploc identScan) s =
      .ok pr ⟨reg, .Access mod parts⟩ s1)
    (hkw : KEYWORDS.contains (parts.headD "") = false)
    (hq : ¬(mod = "" ∧ parts.length = 1)) :
    loc_ident_pattern_help (f + 1) n b s =
      .ok .MadeProgress ⟨reg, .Malformed (malformedStr mod parts)⟩ s1 := by
  rw [loc_ident_pattern_help_succ]
  unfold lihBody
  rw [hscan]
  have hc2 : (mod = "" && parts.length = 1) = false := by
    cases hx : (mod = "" && parts.length = 1)
    · rfl
    · simp only [Bool.and_eq_true, decide_eq_true_eq] at hx
      exact absurd hx hq
  simp only [hkw, hc2, Bool.false_eq_true, if_false]

theorem lih_accessor_malformed {f n : Nat} {b : Bool} {s s1 : State} {pr : Progress}
    {reg : Region} {str : String}
    (hscan : pspecialize (fun _ r c => EPattern.Start r c) (ploc identScan) s =
      .ok pr ⟨reg, .AccessorFunction str⟩ s1) :
    loc_ident_pattern_help (f + 1) n b s = .ok .MadeProgress ⟨reg, .Malformed str⟩ s1 := by
  rw [loc_ident_pattern_help_succ]
  unfold lihBody
  rw [hscan]

theorem lih_malformed_token {f n : Nat} {b : Bool} {s s1 : State} {pr : Progress}
    {reg : Region} {msg : String}
    (hscan : pspecialize (fun _ r c => EPattern.Start r c) (ploc identScan) s =
      .ok pr ⟨reg, .Malformed msg⟩ s1) :
    loc_ident_pattern_help (f + 1) n b s = .err .MadeProgress (.Start s1.line s1.col) s1 := by
  rw [loc_ident_pattern_help_succ]
  unfold lihBody
  rw [hscan]

theorem lih_tag_no_args_global {f n : Nat} {s s1 s2 : State} {pr pr2 : Progress}
    {reg : Region} {tag : String}
    (hscan : pspecialize (fun _ r c => EPattern.Start r c) (ploc identScan) s =
      .ok pr ⟨reg, .GlobalTag tag⟩ s1)
    (hargs : loc_tag_pattern_args_help f n s1 = .ok pr2 [] s2) :
    loc_ident_pattern_help (f + 1) n true s = .ok .MadeProgress ⟨reg, .GlobalTag tag⟩ s2 := by
  rw [loc_ident_pattern_help_succ]
  unfold lihBody
  rw [hscan]
  simp only [PB_loc_tag_pattern_args_help]
  rw [hargs]
  simp

theorem lih_tag_no_args_private {f n : Nat} {s s1 s2 : State} {pr pr2 : Progress}
    {reg : Region} {tag : String}
    (hscan : pspecialize (fun _ r c => EPattern.Start r c) (ploc identScan) s =
      .ok pr ⟨reg, .PrivateTag tag⟩ s1)
    (hargs : loc_tag_pattern_args_help f n s1 = .ok pr2 [] s2) :
    loc_ident_pattern_help (f + 1) n true s = .ok .MadeProgress ⟨reg, .PrivateTag tag⟩ s2 := by
  rw [loc_ident_pattern_help_succ]
  unfold lihBody
  rw [hscan]
  simp only [PB_loc_tag_pattern_args_help]
  rw [hargs]
  simp

theorem lih_apply_region {f n : Nat} {s s' : State} {pr : Progress} {r : Region}
    {hd : Located Pattern} {args : List (Located Pattern)}
    (h : loc_ident_pattern_help f n true s = .ok pr ⟨r, .Apply hd args⟩ s') :
    r = Region.across_all hd.region (args.map (fun a => a.region)) ∧ args ≠ [] := by
  cases f with
  | zero => rw [loc_ident_pattern_help_zero] at h; cases h
  | succ g =>
    rw [loc_ident_pattern_help_succ] at h
    unfold lihBody at h
    split at h
    · cases h
    · cases h
    · split at h
      · rw [if_pos rfl] at h
        split at h
        · cases h
        · cases h
        · split at h
          · cases h
          · rename_i hne
            injection h with h1 h2 h3
            injection h2 with h2r h2v
            injection h2v with hhd hargs
            subst hhd hargs h2r
            refine ⟨rfl, ?_⟩
            simpa [List.isEmpty_iff] using hne
      · rw [if_pos rfl] at h
        split at h
        · cases h
        · cases h
        · split at h
          · cases h
          · rename_i hne
            injection h with h1 h2 h3
            injection h2 with h2r h2v
            injection h2v with hhd hargs
            subst hhd hargs h2r
            refine ⟨rfl, ?_⟩
            simpa [List.isEmpty_iff] using hne
      · split at h
        · cases h
        · split at h
          · injection h with h1 h2 h3
            injection h2 with h2r h2v
            cases h2v
          · injection h with h1 h2 h3
            injection h2 with h2r h2v
            cases h2v
      · injection h with h1 h2 h3
        injection h2 with h2r h2v
        cases h2v
      · cases h

theorem number_literal_shape {s s' : State} {pr : Progress} {v : Expr}
    (h : number_literal s = .ok pr v s') :
    (∃ t, v = .Num t) ∨ (∃ t, v = .Float t) ∨ (∃ t, v = .NonBase10Int t) := by
  unfold number_literal at h
  repeat' split at h
  all_goals (try cases h)
  all_goals first
    | exact Or.inl ⟨_, rfl⟩
    | exact Or.inr (Or.inl ⟨_, rfl⟩)
    | exact Or.inr (Or.inr ⟨_, rfl⟩)

/-- C1: an uppercase tag followed by whitespace-separated atomic patterns
parses as one left-grouped application: `Foo Bar 1` yields
`Apply(GlobalTag "Foo", [GlobalTag "Bar", NumLiteral "1"])` and never
`Apply(GlobalTag "Foo", [Apply(GlobalTag "Bar", [NumLiteral "1"])])`,
because every trailing argument is parsed with
`can_have_arguments = false`: the identifier alternative of the
tag-argument grammar can never return an `Apply` node of its own. -/
theorem claim_C1 :
    loc_pattern_help 10 0 (st "Foo Bar 1") =
      .ok .MadeProgress
        ⟨⟨0, 0, 0, 9⟩,
          .Apply ⟨⟨0, 0, 0, 3⟩, .GlobalTag "Foo"⟩
            [⟨⟨0, 4, 0, 7⟩, .GlobalTag "Bar"⟩, ⟨⟨0, 8, 0, 9⟩, .NumLiteral "1"⟩]⟩
        ⟨[], 0, 9⟩ ∧
    (∀ (f n : Nat) (s s' : State) (pr : Progress) (lv : Located Pattern),
      loc_ident_pattern_help f n false s = .ok pr lv s' → isApplyB lv.value = false) :=
  ⟨rfl, fun _ _ _ _ _ _ h => lih_false_not_apply h⟩

/-- Witness for C1: the argument `Bar` of `Foo Bar 1` parses (with
arguments disabled) to a bare tag, which is not an `Apply`. -/
theorem claim_C1_witness : isApplyB (Pattern.GlobalTag "Bar") = false :=
  claim_C1.2 3 0 (st "Bar") ⟨[], 0, 3⟩ .MadeProgress ⟨⟨0, 0, 0, 3⟩, .GlobalTag "Bar"⟩ rfl

/-- C4: an input scanning as a single unqualified identifier part that is a
reserved keyword fails in pattern position with a no-progress failure and
the original (pre-attempt) cursor, so an enclosing ordered alternation may
try its next alternative. -/
theorem claim_C4 (f n : Nat) (b : Bool) (s s1 : State) (pr : Progress)
    (reg : Region) (name : String)
    (hscan : pspecialize (fun _ r c => EPattern.Start r c) (ploc identScan) s =
      .ok pr ⟨reg, .Access "" [name]⟩ s1)
    (hkw : name ∈ KEYWORDS) :
    loc_ident_pattern_help (f + 1) n b s = .err .NoProgress (.End s.line s.col) s :=
  lih_access_keyword hscan hkw

/-- Witness for C4: the keyword `if` in pattern position gives a
no-progress failure carrying the original cursor. -/
theorem claim_C4_witness :
    loc_ident_pattern_help 1 0 true (st "if") = .err .NoProgress (.End 0 0) (st "if") :=
  claim_C4 0 0 true (st "if") ⟨[], 0, 2⟩ .MadeProgress ⟨0, 0, 0, 2⟩ "if" rfl (by decide)

/-- C5: a module-qualified or multi-part dotted access, and an
accessor-function literal, both parse successfully in pattern position
(never a hard failure) into a `Malformed` node preserving the original
source text; concretely `Foo.bar` parses as `Malformed "Foo.bar"` and
`.foo` as `Malformed ".foo"`. -/
theorem claim_C5 :
    (∀ (f n : Nat) (b : Bool) (s s1 : State) (pr : Progress) (reg : Region)
      (mod : String) (parts : List String),
      pspecialize (fun _ r c => EPattern.Start r c) (ploc identScan) s =
        .ok pr ⟨reg, .Access mod parts⟩ s1 →
      KEYWORDS.contains (parts.headD "") = false →
      ¬(mod = "" ∧ parts.length = 1) →
      loc_ident_pattern_help (f + 1) n b s =
        .ok .MadeProgress ⟨reg, .Malformed (malformedStr mod parts)⟩ s1) ∧
    (∀ (f n : Nat) (b : Bool) (s s1 : State) (pr : Progress) (reg : Region) (str : String),
      pspecialize (fun _ r c => EPattern.Start r c) (ploc identScan) s =
        .ok pr ⟨reg, .AccessorFunction str⟩ s1 →
      loc_ident_pattern_help (f + 1) n b s = .ok .MadeProgress ⟨reg, .Malformed str⟩ s1) ∧
    loc_pattern_help 10 0 (st "Foo.bar") =
      .ok .MadeProgress ⟨⟨0, 0, 0, 7⟩, .Malformed "Foo.bar"⟩ ⟨[], 0, 7⟩ ∧
    loc_pattern_help 10 0 (st ".foo") =
      .ok .MadeProgress ⟨⟨0, 0, 0, 4⟩, .Malformed ".foo"⟩ ⟨[], 0, 4⟩ :=
  ⟨fun _ _ _ _ _ _ _ _ _ hscan hkw hq => lih_access_malformed hscan hkw hq,
   fun _ _ _ _ _ _ _ _ hscan => lih_accessor_malformed hscan,
   rfl, rfl⟩

/-- Witness for C5: `Foo.bar` scans as a qualified access and the
classifier yields `Malformed "Foo.bar"` without a hard failure. -/
theorem claim_C5_witness :
    loc_ident_pattern_help 1 0 true (st "Foo.bar") =
      .ok .MadeProgress ⟨⟨0, 0, 0, 7⟩, .Malformed (malformedStr "Foo" ["bar"])⟩ ⟨[], 0, 7⟩ :=
  claim_C5.1 0 0 true (st "Foo.bar") ⟨[], 0, 7⟩ .MadeProgress ⟨0, 0, 0, 7⟩ "Foo" ["bar"]
    rfl rfl (by decide)

/-- C6: when the tokenizer reports a malformed identifier token in pattern
position, the parser fails with a progress-made (fatal) failure, never a
no-progress one; concretely `@foo` aborts the whole pattern alternation
with a progress-made failure. -/
theorem claim_C6 :
    (∀ (f n : Nat) (b : Bool) (s s1 : State) (pr : Progress) (reg : Region) (msg : String),
      pspecialize (fun _ r c => EPattern.Start r c) (ploc identScan) s =
        .ok pr ⟨reg, .Malformed msg⟩ s1 →
      loc_ident_pattern_help (f + 1) n b s = .err .MadeProgress (.Start s1.line s1.col) s1) ∧
    loc_pattern_help 10 0 (st "@foo") = .err .MadeProgress (.Start 0 4) ⟨[], 0, 4⟩ :=
  ⟨fun _ _ _ _ _ _ _ _ hscan => lih_malformed_token hscan, rfl⟩

/-- Witness for C6: the malformed token `@foo` gives a progress-made
failure at the post-token position. -/
theorem claim_C6_witness :
    loc_ident_pattern_help 1 0 true (st "@foo") =
      .err .MadeProgress (.Start 0 4) ⟨[], 0, 4⟩ :=
  claim_C6.1 0 0 true (st "@foo") ⟨[], 0, 4⟩ .MadeProgress ⟨0, 0, 0, 4⟩ "@foo" rfl

/-- C10: whenever the number-literal scanner succeeds in pattern position,
converting the resulting literal expression to a pattern also succeeds, so
the `unwrap` in `number_pattern_help` never panics. -/
theorem claim_C10 (s s' : State) (pr : Progress) (e : Expr)
    (h : number_literal s = .ok pr e s') :
    ∃ p, expr_to_pattern e = some p ∧ number_pattern_help s = .ok pr p s' := by
  rcases number_literal_shape h with ⟨t, rfl⟩ | ⟨t, rfl⟩ | ⟨t, rfl⟩ <;>
    exact ⟨_, rfl, by unfold number_pattern_help; rw [h]; rfl⟩

/-- Witness for C10: the literal `1` converts to `NumLiteral "1"` and the
number-pattern parser succeeds on it. -/
theorem claim_C10_witness :
    ∃ p, expr_to_pattern (.Num "1") = some p ∧
      number_pattern_help (st "1") = .ok .MadeProgress p ⟨[], 0, 1⟩ :=
  claim_C10 (st "1") ⟨[], 0, 1⟩ .MadeProgress (.Num "1") rfl

theorem word1_np {ε : Type} {c : Char} {toErr : Nat → Nat → ε} {s : State}
    (h : s.input.head? ≠ some c) :
    word1 c toErr s = .err .NoProgress (toErr s.line s.col) s := by
  unfold word1
  cases hs : s.input with
  | nil => rfl
  | cons a rest =>
    have hac : ¬(a = c) := fun hac => h (by rw [hs, hac]; rfl)
    simp [hac]

theorem parens_np_of_first {k n : Nat} {s : State} {c : Char}
    (hin : s.input.head? = some c) (hc : c ≠ '(') :
    loc_pattern_in_parens_help (k + 1) n s = .err .NoProgress (.Open s.line s.col) s := by
  rw [loc_pattern_in_parens_help_succ]
  unfold parensBody
  rw [word1_np (by rw [hin]; intro hx; exact hc (Option.some.inj hx))]

theorem underscore_np_of_first {s : State} {c : Char}
    (hin : s.input.head? = some c) (hc : c ≠ '_') :
    ploc underscore_pattern_help s = .err .NoProgress (.Underscore s.line s.col) s := by
  unfold ploc underscore_pattern_help
  rw [word1_np (by rw [hin]; intro hx; exact hc (Option.some.inj hx))]

theorem record_np_of_first {k n : Nat} {s : State} {c : Char}
    (hin : s.input.head? = some c) (hc : c ≠ '{') :
    record_pattern_help (k + 1) n s = .err .NoProgress (.Open s.line s.col) s := by
  rw [record_pattern_help_succ]
  unfold recordBody
  rw [word1_np (by rw [hin]; intro hx; exact hc (Option.some.inj hx))]

theorem closure_refines_help {f n : Nat} {s s' : State} {pr : Progress} {v : Located Pattern}
    (h : parse_closure_param f n s = .ok pr v s') :
    loc_pattern_help f n s = .ok pr v s' := by
  cases f with
  | zero => rw [parse_closure_param_zero] at h; cases h
  | succ g =>
    cases g with
    | zero =>
      rw [parse_closure_param_succ] at h
      unfold closureParamBody at h
      simp only [PB_loc_ident_pattern_help] at h
      unfold pOr at h
      simp only [loc_ident_pattern_help_zero] at h
      cases h
    | succ k =>
      rw [parse_closure_param_succ] at h
      rw [loc_pattern_help_succ]
      unfold closureParamBody at h
      unfold locPatternHelpBody
      simp only [PB_loc_pattern_in_parens_help, PB_loc_ident_pattern_help,
        PB_record_pattern_help] at h ⊢
      unfold pOr at h ⊢
      beta_reduce at h ⊢
      split at h
      · -- ident alternative succeeded
        rename_i pr1 v1 s1 heq1
        injection h with h1 h2 h3
        subst h1 h2 h3
        obtain ⟨c, rest, hin, hc⟩ := lih_ok_first heq1
        have hcp : s.input.head? = some c := by rw [hin]; rfl
        have hne1 : c ≠ '(' := by
          rintro rfl
          rcases hc with hx | hx | hx <;> simp at hx
        have hne2 : c ≠ '_' := by
          rintro rfl
          rcases hc with hx | hx | hx <;> simp at hx
        have hp : pspecialize (fun e r c => EPattern.PInParens e r c)
            (fun u => loc_pattern_in_parens_help (k + 1) n u) s =
            .err .NoProgress (.PInParens (.Open s.line s.col) s.line s.col) s := by
          unfold pspecialize
          beta_reduce
          rw [parens_np_of_first hcp hne1]
        simp only [hp, underscore_np_of_first hcp hne2, heq1]
      · -- ident alternative made-progress failure: impossible with overall success
        cases h
      · -- ident alternative no-progress failure
        rename_i e1 s1 heq1
        have hs1 : s = s1 := (lih_errnp heq1).symm
        subst hs1
        split at h
        · -- underscore succeeded
          rename_i pr2 v2 s2 heq2
          injection h with h1 h2 h3
          subst h1 h2 h3
          have hcp : s.input.head? = some '_' := underscore_ok_first (ploc_ok_elim heq2).1
          have hp : pspecialize (fun e r c => EPattern.PInParens e r c)
              (fun u => loc_pattern_in_parens_help (k + 1) n u) s =
              .err .NoProgress (.PInParens (.Open s.line s.col) s.line s.col) s := by
            unfold pspecialize
            beta_reduce
            rw [parens_np_of_first hcp (by decide)]
          simp only [hp, heq2]
        · cases h
        · -- underscore no-progress failure
          rename_i e2 s2 heq2
          have hs2 : s = s2 := (underscore_err (ploc_err_iff.mp heq2)).2.1.symm
          subst hs2
          split at h
          · -- record succeeded
            rename_i pr3 v3 s3 heq3
            injection h with h1 h2 h3
            subst h1 h2 h3
            have hcp : s.input.head? = some '{' :=
              record_ok_first (pspecialize_ok_iff.mp (ploc_ok_elim heq3).1)
            have hp : pspecialize (fun e r c => EPattern.PInParens e r c)
                (fun u => loc_pattern_in_parens_help (k + 1) n u) s =
                .err .NoProgress (.PInParens (.Open s.line s.col) s.line s.col) s := by
              unfold pspecialize
              beta_reduce
              rw [parens_np_of_first hcp (by decide)]
            simp only [hp, underscore_np_of_first hcp (by decide), heq1, heq3]
          · cases h
          · -- record no-progress failure: only parens can have succeeded
            rename_i e3 s3 heq3
            obtain ⟨e4, he4, -⟩ := pspecialize_err_elim (ploc_err_iff.mp heq3)
            have hs3 := (record_errnp he4).1.symm
            subst hs3
            simp only [h]
          · cases h
        · cases h
      · cases h

/-- C3 counterexample: the closure-parameter entry point does not return
the same tri-state result as the general pattern entry point on every
input: on `1` the general entry point succeeds with a number literal while
the closure-parameter entry point (which has no number alternative) fails. -/
theorem claim_C3_counterexample :
    ¬(parse_closure_param 10 0 (st "1") = loc_pattern_help 10 0 (st "1")) := by
  intro h
  have h2 := congrArg isOkB h
  rw [show isOkB (parse_closure_param 10 0 (st "1")) = false from rfl] at h2
  rw [show isOkB (loc_pattern_help 10 0 (st "1")) = true from rfl] at h2
  cases h2

/-- C3 (amended): `parse_closure_param` tries the same shared alternatives
as `loc_pattern_help` but omits the string- and number-literal ones and
tries the identifier alternative first, so whenever it succeeds, the
general located-pattern entry point succeeds with the identical result. -/
theorem claim_C3 (f n : Nat) (s s' : State) (pr : Progress) (v : Located Pattern)
    (h : parse_closure_param f n s = .ok pr v s') :
    loc_pattern_help f n s = .ok pr v s' :=
  closure_refines_help h

/-- Witness for C3 (amended): on `\x`-style parameter input `x` both entry
points succeed with the same identifier pattern. -/
theorem claim_C3_witness :
    loc_pattern_help 5 0 (st "x") =
      .ok .MadeProgress ⟨⟨0, 0, 0, 1⟩, .Identifier "x"⟩ ⟨[], 0, 1⟩ :=
  claim_C3 5 0 (st "x") ⟨[], 0, 1⟩ .MadeProgress ⟨⟨0, 0, 0, 1⟩, .Identifier "x"⟩ rfl

/-- Predicate: the shapes a record field binding may take: a bare
`Identifier` (possibly carrying trailing trivia), a `RequiredField` with a
sub-pattern, or an `OptionalField` with a default expression. -/
def fieldShapeOk : Pattern → Bool
  | .Identifier _ => true
  | .SpaceAfter (.Identifier _) _ => true
  | .RequiredField _ _ => true
  | .OptionalField _ _ => true
  | _ => false

theorem field_shape {f n : Nat} {s s' : State} {pr : Progress} {v : Pattern}
    (h : record_pattern_field f n s = .ok pr v s') : fieldShapeOk v = true := by
  cases f with
  | zero => rw [record_pattern_field_zero] at h; cases h
  | succ g =>
    rw [record_pattern_field_succ] at h
    unfold fieldBody at h
    repeat' split at h
    all_goals try cases h
    all_goals rfl

/-- C8: the record pattern `{ a, b: _, c ? 1 }` parses into a
`RecordDestructure` listing its bindings in literal source order with no
sorting or deduplication — `Identifier "a"`, then
`RequiredField "b" (Underscore "")`, then `OptionalField "c" (Num "1")` —
and, in general, every successfully parsed field is exactly one of the
three shapes: a bare identifier binding (possibly with trailing trivia),
a required field with a sub-pattern, or an optional field with a default
expression. -/
theorem claim_C8 :
    loc_pattern_help 10 0
        (stl ['{', ' ', 'a', ',', ' ', 'b', ':', ' ', '_', ',', ' ', 'c', ' ', '?', ' ', '1', ' ', '}']) =
      .ok .MadeProgress
        ⟨⟨0, 0, 0, 18⟩,
          .RecordDestructure
            [⟨⟨0, 2, 0, 3⟩, .Identifier "a"⟩,
             ⟨⟨0, 5, 0, 9⟩, .RequiredField "b" ⟨⟨0, 8, 0, 9⟩, .Underscore ""⟩⟩,
             ⟨⟨0, 11, 0, 16⟩, .OptionalField "c" ⟨⟨0, 15, 0, 16⟩, .Num "1"⟩⟩]⟩
        ⟨[], 0, 18⟩ ∧
    (∀ (f n : Nat) (s s' : State) (pr : Progress) (v : Pattern),
      record_pattern_field f n s = .ok pr v s' → fieldShapeOk v = true) :=
  ⟨rfl, fun _ _ _ _ _ _ h => field_shape h⟩

/-- Witness for C8: the field `a` alone parses to a bare identifier
binding, one of the three admissible field shapes. -/
theorem claim_C8_witness : fieldShapeOk (Pattern.Identifier "a") = true :=
  claim_C8.2 1 0 (st "a") ⟨[], 0, 1⟩ .MadeProgress (.Identifier "a") rfl

theorem containsB_refl (r : Region) : r.containsB r = true := by
  simp [Region.containsB, posLeB_refl]

theorem containsB_trans {a b c : Region} (h1 : a.containsB b = true) (h2 : b.containsB c = true) :
    a.containsB c = true := by
  simp only [Region.containsB, Bool.and_eq_true] at h1 h2 ⊢
  exact ⟨posLeB_trans h1.1 h2.1, posLeB_trans h2.2 h1.2⟩

theorem posLeB_total (l1 c1 l2 c2 : Nat) :
    posLeB l1 c1 l2 c2 = true ∨ posLeB l2 c2 l1 c1 = true := by
  rw [posLeB_iff, posLeB_iff]; omega

theorem span_contains_left (a b : Region) : (a.spanAcross b).containsB a = true := by
  simp only [Region.spanAcross, Region.containsB, Bool.and_eq_true]
  constructor
  · split
    · exact posLeB_refl _ _
    · rename_i hx
      rcases posLeB_total a.startLine a.startCol b.startLine b.startCol with hy | hy
      · exact absurd hy hx
      · exact hy
  · split
    · rename_i hx
      exact hx
    · exact posLeB_refl _ _

theorem span_contains_right (a b : Region) : (a.spanAcross b).containsB b = true := by
  simp only [Region.spanAcross, Region.containsB, Bool.and_eq_true]
  constructor
  · split
    · rename_i hx
      exact hx
    · exact posLeB_refl _ _
  · split
    · exact posLeB_refl _ _
    · rename_i hx
      rcases posLeB_total a.endLine a.endCol b.endLine b.endCol with hy | hy
      · exact absurd hy hx
      · exact hy

theorem across_all_cons (r x : Region) (rs : List Region) :
    Region.across_all r (x :: rs) = Region.across_all (r.spanAcross x) rs := rfl

theorem across_contains_first (r : Region) (rs : List Region) :
    (Region.across_all r rs).containsB r = true := by
  induction rs generalizing r with
  | nil => exact containsB_refl r
  | cons x rs ih =>
    rw [across_all_cons]
    exact containsB_trans (ih (r.spanAcross x)) (span_contains_left r x)

theorem across_contains_mem (r : Region) {x : Region} {rs : List Region} (hx : x ∈ rs) :
    (Region.across_all r rs).containsB x = true := by
  induction rs generalizing r with
  | nil => cases hx
  | cons y rs ih =>
    rw [across_all_cons]
    rcases List.mem_cons.mp hx with rfl | hmem
    · exact containsB_trans (across_contains_first (r.spanAcross x) rs) (span_contains_right r x)
    · exact ih (r.spanAcross y) hmem

theorem wfB_of_contains {R r : Region} (hc : R.containsB r = true) (hw : r.wfB = true) :
    R.wfB = true := by
  simp only [Region.containsB, Region.wfB, Bool.and_eq_true] at hc ⊢
  exact posLeB_trans hc.1 (posLeB_trans hw hc.2)

theorem span_start_ge {l c : Nat} {a b : Region}
    (h1 : posLeB l c a.startLine a.startCol = true)
    (h2 : posLeB l c b.startLine b.startCol = true) :
    posLeB l c (a.spanAcross b).startLine (a.spanAcross b).startCol = true := by
  simp only [Region.spanAcross]
  split
  · exact h1
  · exact h2

theorem span_end_le {l c : Nat} {a b : Region}
    (h1 : posLeB a.endLine a.endCol l c = true)
    (h2 : posLeB b.endLine b.endCol l c = true) :
    posLeB (a.spanAcross b).endLine (a.spanAcross b).endCol l c = true := by
  simp only [Region.spanAcross]
  split
  · exact h2
  · exact h1

theorem across_start_ge {l c : Nat} {r : Region} {rs : List Region}
    (h1 : posLeB l c r.startLine r.startCol = true)
    (h2 : ∀ x ∈ rs, posLeB l c x.startLine x.startCol = true) :
    posLeB l c (Region.across_all r rs).startLine (Region.across_all r rs).startCol = true := by
  induction rs generalizing r with
  | nil => exact h1
  | cons x rs ih =>
    rw [across_all_cons]
    exact ih (span_start_ge h1 (h2 x (List.mem_cons_self x rs)))
      (fun y hy => h2 y (List.mem_cons_of_mem x hy))

theorem across_end_le {l c : Nat} {r : Region} {rs : List Region}
    (h1 : posLeB r.endLine r.endCol l c = true)
    (h2 : ∀ x ∈ rs, posLeB x.endLine x.endCol l c = true) :
    posLeB (Region.across_all r rs).endLine (Region.across_all r rs).endCol l c = true := by
  induction rs generalizing r with
  | nil => exact h1
  | cons x rs ih =>
    rw [across_all_cons]
    exact ih (span_end_le h1 (h2 x (List.mem_cons_self x rs)))
      (fun y hy => h2 y (List.mem_cons_of_mem x hy))

/-- Well-formedness bundle for a located parse result: the region lies
between the two cursors, is itself well formed, all nested regions are well
formed and contained in their parents, and no empty `Apply` occurs. -/
def WLoc (s : State) (lv : Located Pattern) (s' : State) : Prop :=
  posLeB s.line s.col lv.region.startLine lv.region.startCol = true ∧
  lv.region.wfB = true ∧
  posLeB lv.region.endLine lv.region.endCol s'.line s'.col = true ∧
  wfIn lv.region lv.value = true ∧
  noEmpApply lv.value = true

/-- Well-formedness bundle for a bare pattern result over the consumed span. -/
def WPat (s : State) (v : Pattern) (s' : State) : Prop :=
  sLeB s s' = true ∧ wfIn (spanOf s s') v = true ∧ noEmpApply v = true

theorem WLoc_extend_right {s : State} {lv : Located Pattern} {s' s'' : State}
    (h : WLoc s lv s') (hs : sLeB s' s'' = true) : WLoc s lv s'' :=
  ⟨h.1, h.2.1, posLeB_trans h.2.2.1 hs, h.2.2.2.1, h.2.2.2.2⟩

theorem WLoc_extend_left {s0 s : State} {lv : Located Pattern} {s' : State}
    (h : WLoc s lv s') (hs : sLeB s0 s = true) : WLoc s0 lv s' :=
  ⟨posLeB_trans hs h.1, h.2.1, h.2.2.1, h.2.2.2.1, h.2.2.2.2⟩

theorem WLoc_sLeB {s : State} {lv : Located Pattern} {s' : State} (h : WLoc s lv s') :
    sLeB s s' = true :=
  posLeB_trans h.1 (posLeB_trans h.2.1 h.2.2.1)

theorem wfList_of_forall {s s' : State} {l : List (Located Pattern)}
    (h : ∀ a ∈ l, WLoc s a s') : wfList (spanOf s s') l = true := by
  induction l with
  | nil => rfl
  | cons a l ih =>
    obtain ⟨h1, h2, h3, h4, h5⟩ := h a (List.mem_cons_self a l)
    cases a with
    | mk ar av =>
      simp only [wfList, Bool.and_eq_true]
      refine ⟨⟨⟨?_, h2⟩, h4⟩, ih (fun b hb => h b (List.mem_cons_of_mem _ hb))⟩
      simp only [Region.containsB, Bool.and_eq_true]
      exact ⟨h1, h3⟩

theorem noEmpList_of_forall {s s' : State} {l : List (Located Pattern)}
    (h : ∀ a ∈ l, WLoc s a s') : noEmpList l = true := by
  induction l with
  | nil => rfl
  | cons a l ih =>
    obtain ⟨-, -, -, -, h5⟩ := h a (List.mem_cons_self a l)
    cases a with
    | mk ar av =>
      simp only [noEmpList, Bool.and_eq_true]
      exact ⟨h5, ih (fun b hb => h b (List.mem_cons_of_mem _ hb))⟩

theorem wfList_contains {R R' : Region} {l : List (Located Pattern)}
    (hsub : ∀ a ∈ l, R'.containsB a.region = true)
    (h : wfList R l = true) : wfList R' l = true := by
  induction l with
  | nil => rfl
  | cons a l ih =>
    cases a with
    | mk ar av =>
      simp only [wfList, Bool.and_eq_true] at h ⊢
      exact ⟨⟨⟨hsub ⟨ar, av⟩ (List.mem_cons_self _ _), h.1.1.2⟩, h.1.2⟩,
        ih (fun b hb => hsub b (List.mem_cons_of_mem _ hb)) h.2⟩

theorem lowercase_ident_pattern_ok {s s' : State} {pr : Progress} {v : String}
    (h : lowercase_ident_pattern s = .ok pr v s') : sLeB s s' = true := by
  unfold lowercase_ident_pattern at h
  exact lowercase_ident_mono (pspecialize_ok_iff.mp h)

theorem underscore_w {s s' : State} {pr : Progress} {v : Pattern}
    (h : underscore_pattern_help s = .ok pr v s') :
    sLeB s s' = true ∧ ∃ nm, v = .Underscore nm := by
  unfold underscore_pattern_help at h
  split at h
  · cases h
  · cases h
  · rename_i heq
    split at h
    · rename_i heq2
      injection h with h1 h2 h3
      subst h3
      exact ⟨sLeB_trans (word1_mono heq) (lowercase_ident_pattern_ok heq2), _, h2.symm⟩
    · injection h with h1 h2 h3
      subst h3
      exact ⟨word1_mono heq, _, h2.symm⟩
    · cases h
    · cases h

theorem number_pattern_w {s s' : State} {pr : Progress} {v : Pattern}
    (h : number_pattern_help s = .ok pr v s') :
    sLeB s s' = true ∧
      ((∃ t, v = .NumLiteral t) ∨ (∃ t, v = .FloatLiteral t) ∨ (∃ t, v = .NonBase10Literal t)) := by
  unfold number_pattern_help at h
  split at h
  · rename_i pr2 e s2 heq
    rcases number_literal_shape heq with ⟨t, rfl⟩ | ⟨t, rfl⟩ | ⟨t, rfl⟩ <;>
      simp only [expr_to_pattern] at h <;>
      injection h with h1 h2 h3 <;>
      subst h3
    · exact ⟨number_literal_mono heq, Or.inl ⟨t, h2.symm⟩⟩
    · exact ⟨number_literal_mono heq, Or.inr (Or.inl ⟨t, h2.symm⟩)⟩
    · exact ⟨number_literal_mono heq, Or.inr (Or.inr ⟨t, h2.symm⟩)⟩
  · cases h
  · cases h

theorem string_pattern_w {s s' : State} {pr : Progress} {v : Pattern}
    (h : string_pattern_help s = .ok pr v s') :
    sLeB s s' = true ∧ ∃ t, v = .StrLiteral t := by
  unfold string_pattern_help at h
  split at h
  · rename_i heq
    injection h with h1 h2 h3
    subst h3
    exact ⟨string_parse_mono heq, _, h2.symm⟩
  · cases h
  · cases h

theorem lih_scan_elim {s s' : State} {pr : Progress} {li : Located Ident}
    (h : pspecialize (fun _ r c => EPattern.Start r c) (ploc identScan) s = .ok pr li s') :
    li.region = ⟨s.line, s.col, s'.line, s'.col⟩ ∧ sLeB s s' = true := by
  have h2 := pspecialize_ok_iff.mp h
  obtain ⟨hscan, hreg⟩ := ploc_ok_elim h2
  exact ⟨hreg, identScan_mono hscan⟩

theorem WLoc_span {s s' : State} {v : Pattern} (hm : sLeB s s' = true)
    (hw : wfIn (spanOf s s') v = true) (hn : noEmpApply v = true) :
    WLoc s ⟨spanOf s s', v⟩ s' :=
  ⟨posLeB_refl _ _, hm, posLeB_refl _ _, hw, hn⟩

theorem wfIn_Underscore (R : Region) (nm : String) : wfIn R (.Underscore nm) = true := rfl

theorem wfIn_StrLiteral (R : Region) (t : String) : wfIn R (.StrLiteral t) = true := rfl

theorem wfIn_NumLiteral (R : Region) (t : String) : wfIn R (.NumLiteral t) = true := rfl

theorem wfIn_FloatLiteral (R : Region) (t : String) : wfIn R (.FloatLiteral t) = true := rfl

theorem wfIn_NonBase10 (R : Region) (t : String) : wfIn R (.NonBase10Literal t) = true := rfl

theorem wfIn_Identifier (R : Region) (t : String) : wfIn R (.Identifier t) = true := rfl

theorem wfIn_Malformed (R : Region) (t : String) : wfIn R (.Malformed t) = true := rfl

theorem wfIn_GlobalTag (R : Region) (t : String) : wfIn R (.GlobalTag t) = true := rfl

theorem wfIn_PrivateTag (R : Region) (t : String) : wfIn R (.PrivateTag t) = true := rfl

theorem noEmp_Underscore (nm : String) : noEmpApply (.Underscore nm) = true := rfl

theorem noEmp_StrLiteral (t : String) : noEmpApply (.StrLiteral t) = true := rfl

theorem noEmp_NumLiteral (t : String) : noEmpApply (.NumLiteral t) = true := rfl

theorem noEmp_FloatLiteral (t : String) : noEmpApply (.FloatLiteral t) = true := rfl

theorem noEmp_NonBase10 (t : String) : noEmpApply (.NonBase10Literal t) = true := rfl

theorem noEmp_Identifier (t : String) : noEmpApply (.Identifier t) = true := rfl

theorem noEmp_Malformed (t : String) : noEmpApply (.Malformed t) = true := rfl

theorem noEmp_GlobalTag (t : String) : noEmpApply (.GlobalTag t) = true := rfl

theorem noEmp_PrivateTag (t : String) : noEmpApply (.PrivateTag t) = true := rfl

theorem wf_chainBody {f n : Nat} {b : Bool}
    (IHparens : ∀ s s' pr lv, loc_pattern_in_parens_help f n s = .ok pr lv s' → WLoc s lv s')
    (IHlih : ∀ s s' pr lv, loc_ident_pattern_help f n b s = .ok pr lv s' → WLoc s lv s')
    (IHrecord : ∀ s s' pr v, record_pattern_help f n s = .ok pr v s' → WPat s v s')
    {s s' : State} {pr : Progress} {lv : Located Pattern}
    (h : pOr (fun t => pspecialize (fun e r c => EPattern.PInParens e r c) (fun u => loc_pattern_in_parens_help f n u) t)
          (pOr (fun t => ploc underscore_pattern_help t)
            (pOr (fun t => loc_ident_pattern_help f n b t)
              (pOr (fun t => ploc (pspecialize (fun e r c => EPattern.Record e r c) (fun u => record_pattern_help f n u)) t)
                (pOr (fun t => ploc string_pattern_help t)
                  (fun t => ploc number_pattern_help t))))) s = .ok pr lv s') :
    WLoc s lv s' := by
  unfold pOr at h
  beta_reduce at h
  split at h
  · -- parens alternative succeeded
    rename_i pr1 v1 s1 heq1
    injection h with h1 h2 h3
    subst h2 h3
    exact IHparens _ _ _ _ (pspecialize_ok_iff.mp heq1)
  · cases h
  · rename_i e1 s1 heq1
    obtain ⟨e0, he0, -⟩ := pspecialize_err_elim heq1
    have hs1 : s = s1 := (parens_errnp he0).1.symm
    subst hs1
    split at h
    · -- underscore succeeded
      rename_i pr2 v2 s2 heq2
      injection h with h1 h2 h3
      subst h2 h3
      obtain ⟨hu, hreg⟩ := ploc_ok_elim heq2
      obtain ⟨hm, nm, hv⟩ := underscore_w hu
      cases v2 with
      | mk vr vv =>
        simp only at hv hreg
        subst hv hreg
        exact WLoc_span hm (wfIn_Underscore _ _) (noEmp_Underscore _)
    · cases h
    · rename_i e2 s2 heq2
      have hs2 : s = s2 := (underscore_err (ploc_err_iff.mp heq2)).2.1.symm
      subst hs2
      split at h
      · -- ident-classified alternative succeeded
        rename_i pr3 v3 s3 heq3
        injection h with h1 h2 h3
        subst h2 h3
        exact IHlih _ _ _ _ heq3
      · cases h
      · rename_i e3 s3 heq3
        have hs3 : s = s3 := (lih_errnp heq3).symm
        subst hs3
        split at h
        · -- record alternative succeeded
          rename_i pr4 v4 s4 heq4
          injection h with h1 h2 h3
          subst h2 h3
          obtain ⟨hrec, hreg⟩ := ploc_ok_elim heq4
          obtain ⟨hm, hw, hn⟩ := IHrecord _ _ _ _ (pspecialize_ok_iff.mp hrec)
          cases v4 with
          | mk vr vv =>
            simp only at hreg
            subst hreg
            exact WLoc_span hm hw hn
        · cases h
        · rename_i e4 s4 heq4
          obtain ⟨e5, he5, -⟩ := pspecialize_err_elim (ploc_err_iff.mp heq4)
          have hs4 : s = s4 := (record_errnp he5).1.symm
          subst hs4
          split at h
          · -- string alternative succeeded
            rename_i pr5 v5 s5 heq5
            injection h with h1 h2 h3
            subst h2 h3
            obtain ⟨hstr, hreg⟩ := ploc_ok_elim heq5
            obtain ⟨hm, t, hv⟩ := string_pattern_w hstr
            cases v5 with
            | mk vr vv =>
              simp only at hv hreg
              subst hv hreg
              exact WLoc_span hm (wfIn_StrLiteral _ _) (noEmp_StrLiteral _)
          · cases h
          · rename_i e6 s6 heq6
            have hs6 : s = s6 := (string_pattern_help_np (ploc_err_iff.mp heq6)).1.symm
            subst hs6
            -- number alternative is last
            obtain ⟨hnum, hreg⟩ := ploc_ok_elim h
            obtain ⟨hm, hshape⟩ := number_pattern_w hnum
            cases lv with
            | mk vr vv =>
              simp only at hreg
              subst hreg
              rcases hshape with ⟨t, hv⟩ | ⟨t, hv⟩ | ⟨t, hv⟩ <;> simp only at hv <;> subst hv
              · exact WLoc_span hm (wfIn_NumLiteral _ _) (noEmp_NumLiteral _)
              · exact WLoc_span hm (wfIn_FloatLiteral _ _) (noEmp_FloatLiteral _)
              · exact WLoc_span hm (wfIn_NonBase10 _ _) (noEmp_NonBase10 _)
          · cases h
        · cases h
      · cases h
    · cases h
  · cases h

theorem arg_errnp_ge {f n : Nat} {s s' : State} {e : EPattern}
    (h : loc_tag_pattern_arg f n s = .err .NoProgress e s') : sLeB s s' = true := by
  cases f with
  | zero => rw [loc_tag_pattern_arg_zero] at h; cases h
  | succ g =>
    rw [loc_tag_pattern_arg_succ] at h
    unfold tagArgBody at h
    simp only [PB_loc_parse_tag_pattern_arg] at h
    split at h
    · cases h
    · rename_i heq
      injection h with h1 h2 h3
      subst h3
      exact (pbacktrackable_err heq).2 ▸ posLeB_refl _ _
    · rename_i heq
      split at h
      · cases h
      · rename_i heq2
        injection h with h1 h2 h3
        subst h1 h3
        have hs2 := loc_parse_tag_pattern_arg_errnp heq2
        subst hs2
        exact space0_e_mono (pbacktrackable_ok_iff.mp heq)
      · cases h

theorem WLoc_scan_leaf {s s1 s2 : State} {v : Pattern}
    (h1 : sLeB s s1 = true) (h2 : sLeB s1 s2 = true)
    (hw : wfIn ⟨s.line, s.col, s1.line, s1.col⟩ v = true) (hn : noEmpApply v = true) :
    WLoc s ⟨⟨s.line, s.col, s1.line, s1.col⟩, v⟩ s2 :=
  ⟨posLeB_refl _ _, h1, h2, hw, hn⟩

theorem WLoc_apply {s s1 s2 : State} {tagv : Pattern} {args : List (Located Pattern)}
    (hm1 : sLeB s s1 = true) (hm2 : sLeB s1 s2 = true)
    (hforall : ∀ a ∈ args, WLoc s1 a s2)
    (hne : args.isEmpty = false)
    (hwleaf : ∀ R, wfIn R tagv = true)
    (hnleaf : noEmpApply tagv = true) :
    WLoc s
      ⟨Region.across_all ⟨s.line, s.col, s1.line, s1.col⟩ (args.map (fun a => a.region)),
        .Apply ⟨⟨s.line, s.col, s1.line, s1.col⟩, tagv⟩ args⟩ s2 := by
  have hmemstart : ∀ x ∈ args.map (fun a => a.region),
      posLeB s.line s.col x.startLine x.startCol = true := by
    intro x hx
    obtain ⟨a, ha, rfl⟩ := List.mem_map.mp hx
    exact posLeB_trans hm1 (hforall a ha).1
  have hmemend : ∀ x ∈ args.map (fun a => a.region),
      posLeB x.endLine x.endCol s2.line s2.col = true := by
    intro x hx
    obtain ⟨a, ha, rfl⟩ := List.mem_map.mp hx
    exact (hforall a ha).2.2.1
  have hfirst := across_contains_first (⟨s.line, s.col, s1.line, s1.col⟩ : Region)
    (args.map (fun a => a.region))
  refine ⟨?_, ?_, ?_, ?_, ?_⟩
  · exact across_start_ge (posLeB_refl _ _) hmemstart
  · exact wfB_of_contains hfirst hm1
  · exact across_end_le hm2 hmemend
  · simp only [wfIn, Bool.and_eq_true]
    refine ⟨⟨⟨hfirst, hm1⟩, hwleaf _⟩, ?_⟩
    refine wfList_contains ?_ (wfList_of_forall hforall)
    intro a ha
    exact across_contains_mem _ (List.mem_map.mpr ⟨a, ha, rfl⟩)
  · simp only [noEmpApply, Bool.and_eq_true]
    exact ⟨⟨by simp [hne], hnleaf⟩, noEmpList_of_forall hforall⟩

theorem wf_step_lih {f n : Nat} {b : Bool}
    (IHargs : ∀ s s' pr as1, loc_tag_pattern_args_help f n s = .ok pr as1 s' →
      sLeB s s' = true ∧ ∀ a ∈ as1, WLoc s a s')
    {s s' : State} {pr : Progress} {lv : Located Pattern}
    (h : loc_ident_pattern_help (f + 1) n b s = .ok pr lv s') : WLoc s lv s' := by
  rw [loc_ident_pattern_help_succ] at h
  unfold lihBody at h
  simp only [PB_loc_tag_pattern_args_help] at h
  split at h
  · cases h
  · cases h
  · rename_i pr0 locIdent s1 heq0
    obtain ⟨hreg, hm1⟩ := lih_scan_elim heq0
    split at h
    · -- GlobalTag
      rename_i tag hval
      split at h
      · split at h
        · cases h
        · cases h
        · rename_i pr2 locArgs s2 heq2
          obtain ⟨hm2, hforall⟩ := IHargs _ _ _ _ heq2
          split at h
          · rename_i hemp
            injection h with h1 h2 h3
            subst h2 h3
            rw [hreg]
            exact WLoc_scan_leaf hm1 hm2 (wfIn_GlobalTag _ _) (noEmp_GlobalTag _)
          · rename_i hemp
            injection h with h1 h2 h3
            subst h2 h3
            rw [hreg]
            exact WLoc_apply hm1 hm2 hforall (by simpa using hemp) (fun R => wfIn_GlobalTag R tag)
              (noEmp_GlobalTag tag)
      · injection h with h1 h2 h3
        subst h2 h3
        rw [hreg]
        exact WLoc_scan_leaf hm1 (posLeB_refl _ _) (wfIn_GlobalTag _ _) (noEmp_GlobalTag _)
    · -- PrivateTag
      rename_i tag hval
      split at h
      · split at h
        · cases h
        · cases h
        · rename_i pr2 locArgs s2 heq2
          obtain ⟨hm2, hforall⟩ := IHargs _ _ _ _ heq2
          split at h
          · rename_i hemp
            injection h with h1 h2 h3
            subst h2 h3
            rw [hreg]
            exact WLoc_scan_leaf hm1 hm2 (wfIn_PrivateTag _ _) (noEmp_PrivateTag _)
          · rename_i hemp
            injection h with h1 h2 h3
            subst h2 h3
            rw [hreg]
            exact WLoc_apply hm1 hm2 hforall (by simpa using hemp) (fun R => wfIn_PrivateTag R tag)
              (noEmp_PrivateTag tag)
      · injection h with h1 h2 h3
        subst h2 h3
        rw [hreg]
        exact WLoc_scan_leaf hm1 (posLeB_refl _ _) (wfIn_PrivateTag _ _) (noEmp_PrivateTag _)
    · -- Access
      split at h
      · cases h
      · split at h
        · injection h with h1 h2 h3
          subst h2 h3
          rw [hreg]
          exact WLoc_scan_leaf hm1 (posLeB_refl _ _) (wfIn_Identifier _ _) (noEmp_Identifier _)
        · injection h with h1 h2 h3
          subst h2 h3
          rw [hreg]
          exact WLoc_scan_leaf hm1 (posLeB_refl _ _) (wfIn_Malformed _ _) (noEmp_Malformed _)
    · -- AccessorFunction
      injection h with h1 h2 h3
      subst h2 h3
      rw [hreg]
      exact WLoc_scan_leaf hm1 (posLeB_refl _ _) (wfIn_Malformed _ _) (noEmp_Malformed _)
    · cases h

theorem wf_step_args {f n : Nat}
    (IHarg : ∀ s s' pr lv, loc_tag_pattern_arg f n s = .ok pr lv s' → WLoc s lv s')
    (IHargs : ∀ s s' pr as1, loc_tag_pattern_args_help f n s = .ok pr as1 s' →
      sLeB s s' = true ∧ ∀ a ∈ as1, WLoc s a s')
    {s s' : State} {pr : Progress} {as1 : List (Located Pattern)}
    (h : loc_tag_pattern_args_help (f + 1) n s = .ok pr as1 s') :
    sLeB s s' = true ∧ ∀ a ∈ as1, WLoc s a s' := by
  rw [loc_tag_pattern_args_help_succ] at h
  unfold tagArgsBody at h
  simp only [PB_loc_tag_pattern_arg, PB_loc_tag_pattern_args_help] at h
  split at h
  · cases h
  · cases h
  · rename_i e1 s1 heq1
    injection h with h1 h2 h3
    subst h2 h3
    exact ⟨arg_errnp_ge heq1, by intro a ha; cases ha⟩
  · rename_i pr1 arg s1 heq1
    split at h
    · cases h
    · cases h
    · rename_i pr2 args s2 heq2
      injection h with h1 h2 h3
      subst h2 h3
      have hw1 := IHarg _ _ _ _ heq1
      obtain ⟨hm2, hforall⟩ := IHargs _ _ _ _ heq2
      refine ⟨sLeB_trans (WLoc_sLeB hw1) hm2, ?_⟩
      intro a ha
      rcases List.mem_cons.mp ha with rfl | hmem
      · exact WLoc_extend_right hw1 hm2
      · exact WLoc_extend_left (hforall a hmem) (WLoc_sLeB hw1)

theorem wf_step_arg {f n : Nat}
    (IHparse : ∀ s s' pr lv, loc_parse_tag_pattern_arg f n s = .ok pr lv s' → WLoc s lv s')
    {s s' : State} {pr : Progress} {lv : Located Pattern}
    (h : loc_tag_pattern_arg (f + 1) n s = .ok pr lv s') : WLoc s lv s' := by
  rw [loc_tag_pattern_arg_succ] at h
  unfold tagArgBody at h
  simp only [PB_loc_parse_tag_pattern_arg] at h
  split at h
  · cases h
  · cases h
  · rename_i pr1 spaces s1 heq1
    have hm1 : sLeB s s1 = true := space0_e_mono (pbacktrackable_ok_iff.mp heq1)
    split at h
    · cases h
    · cases h
    · rename_i pr2 locPat s2 heq2
      have hw := IHparse _ _ _ _ heq2
      injection h with h1 h2 h3
      subst h2 h3
      split
      · exact WLoc_extend_left hw hm1
      · cases locPat with
        | mk lr lval =>
          obtain ⟨w1, w2, w3, w4, w5⟩ := WLoc_extend_left hw hm1
          exact ⟨w1, w2, w3, w4, w5⟩

theorem wf_step_locpat {f n : Nat}
    (IHhelp : ∀ s s' pr lv, loc_pattern_help f n s = .ok pr lv s' → WLoc s lv s')
    {s s' : State} {pr : Progress} {lv : Located Pattern}
    (h : loc_pattern (f + 1) n s = .ok pr lv s') : WLoc s lv s' := by
  rw [loc_pattern_succ] at h
  unfold locPatternBody at h
  simp only [PB_loc_pattern_help] at h
  exact IHhelp _ _ _ _ (pspecialize_ok_iff.mp h)

theorem wfIn_SpaceBefore (R : Region) (p : Pattern) (sp : List CommentOrNewline) :
    wfIn R (.SpaceBefore p sp) = wfIn R p := rfl

theorem wfIn_SpaceAfter (R : Region) (p : Pattern) (sp : List CommentOrNewline) :
    wfIn R (.SpaceAfter p sp) = wfIn R p := rfl

theorem noEmp_SpaceBefore (p : Pattern) (sp : List CommentOrNewline) :
    noEmpApply (.SpaceBefore p sp) = noEmpApply p := rfl

theorem noEmp_SpaceAfter (p : Pattern) (sp : List CommentOrNewline) :
    noEmpApply (.SpaceAfter p sp) = noEmpApply p := rfl

theorem WLoc_wrapB {s : State} {lv : Located Pattern} {s' : State} (h : WLoc s lv s')
    (cn : List CommentOrNewline) : WLoc s (wrapPatBefore lv cn) s' := by
  obtain ⟨w1, w2, w3, w4, w5⟩ := h
  exact ⟨w1, w2, w3, by rwa [wrapPatBefore, wfIn_SpaceBefore],
    by rwa [wrapPatBefore, noEmp_SpaceBefore]⟩

theorem WLoc_wrapA {s : State} {lv : Located Pattern} {s' : State} (h : WLoc s lv s')
    (cn : List CommentOrNewline) : WLoc s (wrapPatAfter lv cn) s' := by
  obtain ⟨w1, w2, w3, w4, w5⟩ := h
  exact ⟨w1, w2, w3, by rwa [wrapPatAfter, wfIn_SpaceAfter],
    by rwa [wrapPatAfter, noEmp_SpaceAfter]⟩

theorem wf_step_parens {f n : Nat}
    (IHlocpat : ∀ s s' pr lv, loc_pattern f n s = .ok pr lv s' → WLoc s lv s')
    {s s' : State} {pr : Progress} {lv : Located Pattern}
    (h : loc_pattern_in_parens_help (f + 1) n s = .ok pr lv s') : WLoc s lv s' := by
  rw [loc_pattern_in_parens_help_succ] at h
  unfold parensBody at h
  simp only [PB_loc_pattern] at h
  split at h
  · cases h
  · cases h
  · rename_i pr1 u1 s1 heq1
    have hm1 : sLeB s s1 = true := word1_mono heq1
    split at h
    · cases h
    · cases h
    · rename_i pr2 locPat s2 heq2
      -- dissect the trivia-tolerant middle parser
      unfold space0_around_e at heq2
      split at heq2
      · cases heq2
      · cases heq2
      · rename_i pr3 cn1 s3 heq3
        have hm3 : sLeB s1 s3 = true := space0_e_mono heq3
        split at heq2
        · cases heq2
        · cases heq2
        · rename_i pr4 inner s4 heq4
          have hwin := IHlocpat _ _ _ _ (pspecialize_ok_iff.mp heq4)
          split at heq2
          · cases heq2
          · cases heq2
          · rename_i pr5 cn2 s5 heq5
            have hm5 : sLeB s4 s5 = true := space0_e_mono heq5
            injection heq2 with h1 h2 h3
            subst h2 h3
            split at h
            · cases h
            · cases h
            · rename_i pr6 u6 s6 heq6
              have hm6 : sLeB s5 s6 = true := word1_mono heq6
              injection h with h1 h2 h3
              subst h2 h3
              have hw0 : WLoc s inner s6 :=
                WLoc_extend_right
                  (WLoc_extend_left (WLoc_extend_left hwin hm3) hm1)
                  (sLeB_trans hm5 hm6)
              split
              · split
                · exact hw0
                · exact WLoc_wrapB hw0 cn1
              · split
                · exact WLoc_wrapA hw0 cn2
                · exact WLoc_wrapA (WLoc_wrapB hw0 cn1) cn2

/-- Region bundle for a located expression (no recursion into `Expr`). -/
def WLocE (s : State) (le : Located Expr) (s' : State) : Prop :=
  posLeB s.line s.col le.region.startLine le.region.startCol = true ∧
  le.region.wfB = true ∧
  posLeB le.region.endLine le.region.endCol s'.line s'.col = true

theorem WPat_required {s sa s4 s' : State} {label : String} {locVal : Located Pattern}
    (hpre : sLeB s sa = true) (hw : WLoc sa locVal s4) (hpost : sLeB s4 s' = true) :
    WPat s (.RequiredField label locVal) s' := by
  cases locVal with
  | mk lr lvv =>
    obtain ⟨w1, w2, w3, w4, w5⟩ := hw
    refine ⟨?_, ?_, ?_⟩
    · exact sLeB_trans (sLeB_trans hpre (posLeB_trans w1 (posLeB_trans w2 w3))) hpost
    · simp only [wfIn, Bool.and_eq_true]
      refine ⟨⟨?_, w2⟩, w4⟩
      simp only [Region.containsB, Bool.and_eq_true]
      exact ⟨posLeB_trans hpre w1, posLeB_trans w3 hpost⟩
    · simpa only [noEmpApply] using w5

theorem WPat_optional {s sa s4 s' : State} {label : String} {le : Located Expr}
    (hpre : sLeB s sa = true) (hE : WLocE sa le s4) (hpost : sLeB s4 s' = true) :
    WPat s (.OptionalField label le) s' := by
  obtain ⟨w1, w2, w3⟩ := hE
  refine ⟨?_, ?_, ?_⟩
  · exact sLeB_trans (sLeB_trans hpre (posLeB_trans w1 (posLeB_trans w2 w3))) hpost
  · simp only [wfIn, Bool.and_eq_true]
    refine ⟨?_, w2⟩
    simp only [Region.containsB, Bool.and_eq_true]
    exact ⟨posLeB_trans hpre w1, posLeB_trans w3 hpost⟩
  · rfl

theorem wf_step_field {f n : Nat}
    (IHlocpat : ∀ s s' pr lv, loc_pattern f n s = .ok pr lv s' → WLoc s lv s')
    {s s' : State} {pr : Progress} {v : Pattern}
    (h : record_pattern_field (f + 1) n s = .ok pr v s') : WPat s v s' := by
  rw [record_pattern_field_succ] at h
  unfold fieldBody at h
  simp only [PB_loc_pattern] at h
  split at h
  · cases h
  · cases h
  · rename_i pr1 locLabel s1 heq1
    have hm1 : sLeB s s1 = true :=
      lowercase_ident_mono (ploc_ok_elim (pspecialize_ok_iff.mp heq1)).1
    split at h
    · cases h
    · cases h
    · rename_i pr2 spaces s2 heq2
      have hm2 : sLeB s1 s2 = true := space0_e_mono heq2
      split at h
      · cases h
      · -- ':' branch
        rename_i pr3 u3 s3 heq3
        have hm3 : sLeB s2 s3 = true := word1_mono heq3
        split at h
        · cases h
        · cases h
        · rename_i pr4 locVal s4 heq4
          injection h with h1 h2 h3
          subst h2 h3
          unfold space0_before_e at heq4
          split at heq4
          · cases heq4
          · cases heq4
          · rename_i pr5 cn1 sa heq5
            have hma : sLeB s3 sa = true := space0_e_mono heq5
            split at heq4
            · cases heq4
            · cases heq4
            · rename_i pr6 inner s6 heq6
              have hwin := IHlocpat _ _ _ _ (pspecialize_ok_iff.mp heq6)
              injection heq4 with h1 h2 h3
              subst h2 h3
              have hpre : sLeB s sa = true :=
                sLeB_trans (sLeB_trans (sLeB_trans hm1 hm2) hm3) hma
              split
              · exact WPat_required hpre hwin (posLeB_refl _ _)
              · exact WPat_required hpre (WLoc_wrapB hwin cn1) (posLeB_refl _ _)
      · -- no ':' ; try '?'
        split at h
        · cases h
        · -- '?' branch
          rename_i pr3 u3 s3 heq3
          have hm3 : sLeB s2 s3 = true := word1_mono heq3
          split at h
          · cases h
          · cases h
          · rename_i pr4 locVal s4 heq4
            injection h with h1 h2 h3
            subst h2 h3
            unfold space0_before_e at heq4
            split at heq4
            · cases heq4
            · cases heq4
            · rename_i pr5 cn1 sa heq5
              have hma : sLeB s3 sa = true := space0_e_mono heq5
              split at heq4
              · cases heq4
              · cases heq4
              · rename_i pr6 inner s6 heq6
                obtain ⟨hexp, hreg⟩ := ploc_ok_elim (pspecialize_ok_iff.mp heq6)
                have hE : WLocE sa inner s6 :=
                  ⟨by rw [hreg]; exact posLeB_refl _ _,
                   by rw [hreg]; exact expr_mono hexp,
                   by rw [hreg]; exact posLeB_refl _ _⟩
                injection heq4 with h1 h2 h3
                subst h2 h3
                have hpre : sLeB s sa = true :=
                  sLeB_trans (sLeB_trans (sLeB_trans hm1 hm2) hm3) hma
                split
                · exact WPat_optional hpre hE (posLeB_refl _ _)
                · refine WPat_optional hpre ?_ (posLeB_refl _ _)
                  exact hE
        · -- bare identifier field
          injection h with h1 h2 h3
          subst h2 h3
          have hm : sLeB s s2 = true := sLeB_trans hm1 hm2
          split
          · exact ⟨hm, wfIn_Identifier _ _, noEmp_Identifier _⟩
          · exact ⟨hm, rfl, rfl⟩

theorem wf_step_loop {f n : Nat}
    (IHfield : ∀ s s' pr v, record_pattern_field f n s = .ok pr v s' → WPat s v s')
    (IHloop : ∀ acc s s' pr res, record_fields_loop f n acc s = .ok pr res s' →
      sLeB s s' = true ∧ ∃ new, res.1 = acc ++ new ∧ ∀ a ∈ new, WLoc s a s')
    {acc : List (Located Pattern)} {s s' : State} {pr : Progress}
    {res : List (Located Pattern) × List CommentOrNewline}
    (h : record_fields_loop (f + 1) n acc s = .ok pr res s') :
    sLeB s s' = true ∧ ∃ new, res.1 = acc ++ new ∧ ∀ a ∈ new, WLoc s a s' := by
  rw [record_fields_loop_succ] at h
  unfold fieldsLoopBody at h
  simp only [PB_record_pattern_field, PB_record_fields_loop] at h
  split at h
  · cases h
  · cases h
  · rename_i pr1 cn s1 heq1
    have hm1 : sLeB s s1 = true := space0_e_mono heq1
    split at h
    · cases h
    · cases h
    · -- no field: expect close brace
      split at h
      · cases h
      · rename_i pr2 u2 s2 heq2
        injection h with h1 h2 h3
        subst h2 h3
        refine ⟨sLeB_trans hm1 (word1_mono heq2), [], by simp, by intro a ha; cases ha⟩
      · cases h
    · -- got a field
      rename_i pr2 fld s2 heq2
      obtain ⟨hfld, hreg⟩ := ploc_ok_elim heq2
      have hwfld : WLoc s1 fld s2 := by
        obtain ⟨hwm, hww, hwn⟩ := IHfield _ _ _ _ hfld
        cases fld with
        | mk fr fv =>
          simp only at hreg
          subst hreg
          exact WLoc_span hwm hww hwn
      split at h
      · cases h
      · cases h
      · rename_i pr3 cn3 s3 heq3
        have hm3 : sLeB s2 s3 = true := space0_e_mono heq3
        split at h
        · cases h
        · -- comma: continue the loop
          rename_i pr4 u4 s4 heq4
          have hm4 : sLeB s3 s4 = true := word1_mono heq4
          obtain ⟨hm', new', hres, hforall'⟩ := IHloop _ _ _ _ _ h
          have hs1s4 : sLeB s1 s4 = true :=
            sLeB_trans (WLoc_sLeB hwfld) (sLeB_trans hm3 hm4)
          refine ⟨sLeB_trans hm1 (sLeB_trans hs1s4 hm'), fld :: new', ?_, ?_⟩
          · rw [hres, List.append_assoc]
            rfl
          · intro a ha
            rcases List.mem_cons.mp ha with rfl | hmem
            · exact WLoc_extend_left
                (WLoc_extend_right hwfld (sLeB_trans hm3 (sLeB_trans hm4 hm'))) hm1
            · exact WLoc_extend_left (hforall' a hmem) (sLeB_trans hm1 hs1s4)
        · -- no comma: expect close brace
          split at h
          · cases h
          · rename_i pr5 u5 s5 heq5
            injection h with h1 h2 h3
            subst h2 h3
            have hm5 : sLeB s3 s5 = true := word1_mono heq5
            refine ⟨sLeB_trans hm1 (sLeB_trans (WLoc_sLeB hwfld) (sLeB_trans hm3 hm5)),
              [fld], rfl, ?_⟩
            intro a ha
            rcases List.mem_cons.mp ha with rfl | hmem
            · exact WLoc_extend_left (WLoc_extend_right hwfld (sLeB_trans hm3 hm5)) hm1
            · cases hmem
          · cases h

theorem wf_step_record {f n : Nat}
    (IHloop : ∀ acc s s' pr res, record_fields_loop f n acc s = .ok pr res s' →
      sLeB s s' = true ∧ ∃ new, res.1 = acc ++ new ∧ ∀ a ∈ new, WLoc s a s')
    {s s' : State} {pr : Progress} {v : Pattern}
    (h : record_pattern_help (f + 1) n s = .ok pr v s') : WPat s v s' := by
  rw [record_pattern_help_succ] at h
  unfold recordBody at h
  simp only [PB_record_fields_loop] at h
  split at h
  · cases h
  · cases h
  · rename_i pr1 u1 s1 heq1
    have hm1 : sLeB s s1 = true := word1_mono heq1
    split at h
    · cases h
    · cases h
    · rename_i pr2 res s2 heq2
      injection h with h1 h2 h3
      subst h2 h3
      obtain ⟨hm2, new, hres, hforall⟩ := IHloop _ _ _ _ _ heq2
      have hforall2 : ∀ a ∈ new, WLoc s a s2 :=
        fun a ha => WLoc_extend_left (hforall a ha) hm1
      refine ⟨sLeB_trans hm1 hm2, ?_, ?_⟩
      · simp only [wfIn]
        rw [hres, List.nil_append]
        exact wfList_of_forall hforall2
      · simp only [noEmpApply]
        rw [hres, List.nil_append]
        exact noEmpList_of_forall hforall2

theorem wf_main (f : Nat) :
    (∀ n s s' pr lv, loc_pattern_help f n s = .ok pr lv s' → WLoc s lv s') ∧
    (∀ n b s s' pr lv, loc_ident_pattern_help f n b s = .ok pr lv s' → WLoc s lv s') ∧
    (∀ n s s' pr as1, loc_tag_pattern_args_help f n s = .ok pr as1 s' →
      sLeB s s' = true ∧ ∀ a ∈ as1, WLoc s a s') ∧
    (∀ n s s' pr lv, loc_tag_pattern_arg f n s = .ok pr lv s' → WLoc s lv s') ∧
    (∀ n s s' pr lv, loc_parse_tag_pattern_arg f n s = .ok pr lv s' → WLoc s lv s') ∧
    (∀ n s s' pr lv, loc_pattern_in_parens_help f n s = .ok pr lv s' → WLoc s lv s') ∧
    (∀ n s s' pr lv, loc_pattern f n s = .ok pr lv s' → WLoc s lv s') ∧
    (∀ n s s' pr v, record_pattern_help f n s = .ok pr v s' → WPat s v s') ∧
    (∀ n acc s s' pr res, record_fields_loop f n acc s = .ok pr res s' →
      sLeB s s' = true ∧ ∃ new, res.1 = acc ++ new ∧ ∀ a ∈ new, WLoc s a s') ∧
    (∀ n s s' pr v, record_pattern_field f n s = .ok pr v s' → WPat s v s') := by
  induction f with
  | zero =>
    refine ⟨fun n s s' pr lv h => ?_, fun n b s s' pr lv h => ?_, fun n s s' pr as1 h => ?_,
      fun n s s' pr lv h => ?_, fun n s s' pr lv h => ?_, fun n s s' pr lv h => ?_,
      fun n s s' pr lv h => ?_, fun n s s' pr v h => ?_, fun n acc s s' pr res h => ?_,
      fun n s s' pr v h => ?_⟩
    · rw [loc_pattern_help_zero] at h; cases h
    · rw [loc_ident_pattern_help_zero] at h; cases h
    · rw [loc_tag_pattern_args_help_zero] at h; cases h
    · rw [loc_tag_pattern_arg_zero] at h; cases h
    · rw [loc_parse_tag_pattern_arg_zero] at h; cases h
    · rw [loc_pattern_in_parens_help_zero] at h; cases h
    · rw [loc_pattern_zero] at h; cases h
    · rw [record_pattern_help_zero] at h; cases h
    · rw [record_fields_loop_zero] at h; cases h
    · rw [record_pattern_field_zero] at h; cases h
  | succ g ih =>
    obtain ⟨IHhelp, IHlih, IHargs, IHarg, IHparse, IHparens, IHlocpat, IHrecord, IHloop,
      IHfield⟩ := ih
    refine ⟨fun n s s' pr lv h => ?_, fun n b s s' pr lv h => ?_, fun n s s' pr as1 h => ?_,
      fun n s s' pr lv h => ?_, fun n s s' pr lv h => ?_, fun n s s' pr lv h => ?_,
      fun n s s' pr lv h => ?_, fun n s s' pr v h => ?_, fun n acc s s' pr res h => ?_,
      fun n s s' pr v h => ?_⟩
    · rw [loc_pattern_help_succ] at h
      unfold locPatternHelpBody at h
      simp only [PB_loc_pattern_in_parens_help, PB_loc_ident_pattern_help,
        PB_record_pattern_help] at h
      exact wf_chainBody (fun s s' pr lv hh => IHparens n s s' pr lv hh)
        (fun s s' pr lv hh => IHlih n true s s' pr lv hh)
        (fun s s' pr v hh => IHrecord n s s' pr v hh) h
    · exact wf_step_lih (fun s s' pr as1 hh => IHargs n s s' pr as1 hh) h
    · exact wf_step_args (fun s s' pr lv hh => IHarg n s s' pr lv hh)
        (fun s s' pr as1 hh => IHargs n s s' pr as1 hh) h
    · exact wf_step_arg (fun s s' pr lv hh => IHparse n s s' pr lv hh) h
    · rw [loc_parse_tag_pattern_arg_succ] at h
      unfold parseTagArgBody at h
      simp only [PB_loc_pattern_in_parens_help, PB_loc_ident_pattern_help,
        PB_record_pattern_help] at h
      exact wf_chainBody (fun s s' pr lv hh => IHparens n s s' pr lv hh)
        (fun s s' pr lv hh => IHlih n false s s' pr lv hh)
        (fun s s' pr v hh => IHrecord n s s' pr v hh) h
    · exact wf_step_parens (fun s s' pr lv hh => IHlocpat n s s' pr lv hh) h
    · exact wf_step_locpat (fun s s' pr lv hh => IHhelp n s s' pr lv hh) h
    · exact wf_step_record (fun acc s s' pr res hh => IHloop n acc s s' pr res hh) h
    · exact wf_step_loop (fun s s' pr v hh => IHfield n s s' pr v hh)
        (fun acc s s' pr res hh => IHloop n acc s s' pr res hh) h
    · exact wf_step_field (fun s s' pr lv hh => IHlocpat n s s' pr lv hh) h

/-- C2: for every successfully parsed pattern, every located node's region
has its start not after its end, and the region of each located child node
is fully contained in its parent's region (this is what `wfIn` checks
recursively); in particular, the region of an `Apply` node is exactly the
span-union `Region::across_all` of the tag head's region and every
argument's region. -/
theorem claim_C2 :
    (∀ (f n : Nat) (s s' : State) (pr : Progress) (lv : Located Pattern),
      loc_pattern_help f n s = .ok pr lv s' →
      lv.region.wfB = true ∧ wfIn lv.region lv.value = true) ∧
    (∀ (f n : Nat) (s s' : State) (pr : Progress) (r : Region) (hd : Located Pattern)
      (args : List (Located Pattern)),
      loc_ident_pattern_help f n true s = .ok pr ⟨r, .Apply hd args⟩ s' →
      r = Region.across_all hd.region (args.map (fun a => a.region))) :=
  ⟨fun f n s s' pr lv h =>
    ⟨((wf_main f).1 n s s' pr lv h).2.1, ((wf_main f).1 n s s' pr lv h).2.2.2.1⟩,
   fun _ _ _ _ _ _ _ _ h => (lih_apply_region h).1⟩

/-- Witness for C2: the parse of `Foo Bar 1` yields a well-formed region
tree whose root region contains both argument regions. -/
theorem claim_C2_witness :
    (⟨0, 0, 0, 9⟩ : Region).wfB = true ∧
      wfIn ⟨0, 0, 0, 9⟩
        (.Apply ⟨⟨0, 0, 0, 3⟩, .GlobalTag "Foo"⟩
          [⟨⟨0, 4, 0, 7⟩, .GlobalTag "Bar"⟩, ⟨⟨0, 8, 0, 9⟩, .NumLiteral "1"⟩]) = true :=
  claim_C2.1 10 0 (st "Foo Bar 1") ⟨[], 0, 9⟩ .MadeProgress
    ⟨⟨0, 0, 0, 9⟩,
      .Apply ⟨⟨0, 0, 0, 3⟩, .GlobalTag "Foo"⟩
        [⟨⟨0, 4, 0, 7⟩, .GlobalTag "Bar"⟩, ⟨⟨0, 8, 0, 9⟩, .NumLiteral "1"⟩]⟩ rfl

/-- C7: a tag parsed with arguments permitted but zero atomic arguments
following returns the bare `GlobalTag`/`PrivateTag` node carrying the
identifier's own region, and no `Apply` node with an empty argument
sequence is ever constructed anywhere in a parsed pattern. -/
theorem claim_C7 :
    (∀ (f n : Nat) (s s1 s2 : State) (pr pr2 : Progress) (reg : Region) (tag : String),
      pspecialize (fun _ r c => EPattern.Start r c) (ploc identScan) s =
        .ok pr ⟨reg, .GlobalTag tag⟩ s1 →
      loc_tag_pattern_args_help f n s1 = .ok pr2 [] s2 →
      loc_ident_pattern_help (f + 1) n true s = .ok .MadeProgress ⟨reg, .GlobalTag tag⟩ s2) ∧
    (∀ (f n : Nat) (s s1 s2 : State) (pr pr2 : Progress) (reg : Region) (tag : String),
      pspecialize (fun _ r c => EPattern.Start r c) (ploc identScan) s =
        .ok pr ⟨reg, .PrivateTag tag⟩ s1 →
      loc_tag_pattern_args_help f n s1 = .ok pr2 [] s2 →
      loc_ident_pattern_help (f + 1) n true s = .ok .MadeProgress ⟨reg, .PrivateTag tag⟩ s2) ∧
    (∀ (f n : Nat) (s s' : State) (pr : Progress) (lv : Located Pattern),
      loc_pattern_help f n s = .ok pr lv s' → noEmpApply lv.value = true) :=
  ⟨fun _ _ _ _ _ _ _ _ _ hscan hargs => lih_tag_no_args_global hscan hargs,
   fun _ _ _ _ _ _ _ _ _ hscan hargs => lih_tag_no_args_private hscan hargs,
   fun f n s s' pr lv h => ((wf_main f).1 n s s' pr lv h).2.2.2.2⟩

/-- Witness for C7: `Foo` alone (arguments permitted, none present) parses
to the bare tag with the identifier's own region. -/
theorem claim_C7_witness :
    loc_ident_pattern_help 6 0 true (st "Foo") =
      .ok .MadeProgress ⟨⟨0, 0, 0, 3⟩, .GlobalTag "Foo"⟩ ⟨[], 0, 3⟩ :=
  claim_C7.1 5 0 (st "Foo") ⟨[], 0, 3⟩ ⟨[], 0, 3⟩ .MadeProgress .NoProgress
    ⟨0, 0, 0, 3⟩ "Foo" rfl rfl

/-- Counterexample to C9 as stated: parsing `(Foo Bar)` and discarding the
outer parentheses' region does not yield the same pattern value as parsing
`Foo Bar` directly, because every nested located node keeps its shifted
source region (the tag head sits at column 1 instead of column 0). -/
theorem claim_C9_counterexample :
    loc_pattern_help 10 0 (stl ['F','o','o',' ','B','a','r']) =
      .ok .MadeProgress
        ⟨⟨0, 0, 0, 7⟩, .Apply ⟨⟨0, 0, 0, 3⟩, .GlobalTag "Foo"⟩
          [⟨⟨0, 4, 0, 7⟩, .GlobalTag "Bar"⟩]⟩ ⟨[], 0, 7⟩ ∧
    loc_pattern_in_parens_help 12 0 (stl ['(','F','o','o',' ','B','a','r',')']) =
      .ok .MadeProgress
        ⟨⟨0, 1, 0, 8⟩, .Apply ⟨⟨0, 1, 0, 4⟩, .GlobalTag "Foo"⟩
          [⟨⟨0, 5, 0, 8⟩, .GlobalTag "Bar"⟩]⟩ ⟨[], 0, 9⟩ ∧
    (Pattern.Apply ⟨⟨0, 1, 0, 4⟩, .GlobalTag "Foo"⟩ [⟨⟨0, 5, 0, 8⟩, .GlobalTag "Bar"⟩] ≠
      Pattern.Apply ⟨⟨0, 0, 0, 3⟩, .GlobalTag "Foo"⟩ [⟨⟨0, 4, 0, 7⟩, .GlobalTag "Bar"⟩]) :=
  ⟨rfl, rfl, by
    intro h
    injection h with h1 h2
    injection h1 with hr hv
    exact absurd hr (by decide)⟩

/-- The one-character-more relation between cursors used to compare a parse
inside parentheses with the direct parse: the right cursor sees the same
remaining input followed by the closing parenthesis. -/
def RelP (s t : State) : Prop := t.input = s.input ++ [')']

theorem takeWhile_app_stop {p : Char → Bool} {l : List Char} (m : List Char)
    (h : l.takeWhile p ≠ l) : (l ++ m).takeWhile p = l.takeWhile p := by
  induction l with
  | nil => exact absurd rfl h
  | cons c r ih =>
    by_cases hc : p c = true
    · simp only [List.cons_append, List.takeWhile_cons, hc, if_true] at h ⊢
      rw [ih (by intro he; exact h (by rw [he]))]
    · simp only [List.cons_append, List.takeWhile_cons, hc] at h ⊢
      simp [Bool.not_eq_true] at hc
      simp [hc]

theorem takeWhile_app_last {p : Char → Bool} {x : Char} (l : List Char)
    (hx : p x = false) : (l ++ [x]).takeWhile p = l.takeWhile p := by
  induction l with
  | nil => simp [List.takeWhile_cons, hx]
  | cons c r ih =>
    by_cases hc : p c = true
    · simp only [List.cons_append, List.takeWhile_cons, hc, if_true] at ih ⊢
      rw [ih]
    · simp only [Bool.not_eq_true] at hc
      simp [List.takeWhile_cons, hc]

theorem takeWhile_len_le (p : Char → Bool) (l : List Char) :
    (l.takeWhile p).length ≤ l.length := by
  induction l with
  | nil => simp
  | cons c r ih =>
    by_cases hc : p c = true
    · simp [List.takeWhile_cons, hc]; omega
    · simp only [Bool.not_eq_true] at hc
      simp [List.takeWhile_cons, hc]

theorem drop_app_le {l : List Char} (m : List Char) {k : Nat} (h : k ≤ l.length) :
    (l ++ m).drop k = l.drop k ++ m := by
  induction l generalizing k with
  | nil =>
    have hk0 : k = 0 := Nat.le_zero.mp h
    subst hk0; simp
  | cons c r ih =>
    cases k with
    | zero => simp
    | succ j =>
      simp only [List.cons_append, List.drop_succ_cons]
      exact ih (by simpa using h)

theorem stepChar_input (s : State) : (stepChar s).input = s.input.drop 1 := by
  unfold stepChar
  split
  · simp_all
  · split <;> simp_all

theorem stepN_input (s : State) (k : Nat) : (stepN s k).input = s.input.drop k := by
  induction k generalizing s with
  | zero => simp [stepN]
  | succ j ih =>
    show (stepN (stepChar s) j).input = s.input.drop (j + 1)
    rw [ih, stepChar_input, List.drop_drop, Nat.add_comm]

theorem RelP_stepN {s t : State} {k : Nat} (hr : RelP s t)
    (hk : k ≤ s.input.length) : RelP (stepN s k) (stepN t k) := by
  unfold RelP at hr ⊢
  rw [stepN_input, stepN_input, hr, drop_app_le _ hk]

/-- Success simulation under `RelP`: whenever the parser succeeds on the
shorter input it also succeeds on the input extended with the closing
parenthesis, with the same progress, a `rel`-related value, and `RelP`
output cursors. -/
def SimOkF {α ε : Type} (rel : α → α → Prop) (P : State → PResult α ε) : Prop :=
  ∀ s t pr v s', RelP s t → P s = .ok pr v s' →
    ∃ v' t', P t = .ok pr v' t' ∧ rel v v' ∧ RelP s' t'

/-- No-progress-failure simulation under `RelP`: a no-progress failure on
the shorter input is still a no-progress failure on the extended input,
with `RelP` failure cursors. -/
def SimNpF {α ε : Type} (P : State → PResult α ε) : Prop :=
  ∀ s t e s_e, RelP s t → P s = .err .NoProgress e s_e →
    ∃ e' t_e, P t = .err .NoProgress e' t_e ∧ RelP s_e t_e

/-- Located pattern values equal after erasing every region. -/
def relLP (a b : Located Pattern) : Prop := eraseP a.value = eraseP b.value

theorem SimOkF_weaken {α ε : Type} {rel1 rel2 : α → α → Prop} {P : State → PResult α ε}
    (himp : ∀ a b, rel1 a b → rel2 a b) (h : SimOkF rel1 P) : SimOkF rel2 P := by
  intro s t pr v s' hrel hok
  obtain ⟨v', t', h1, h2, h3⟩ := h s t pr v s' hrel hok
  exact ⟨v', t', h1, himp _ _ h2, h3⟩

theorem pOr_sim_ok {α ε : Type} {rel : α → α → Prop} {p q : State → PResult α ε}
    (hpo : SimOkF rel p) (hpn : SimNpF p) (hqo : SimOkF rel q) :
    SimOkF rel (pOr p q) := by
  intro s t pr v s' hrel h
  unfold pOr at h ⊢
  cases hp : p s with
  | ok pr1 v1 s1 =>
    simp only [hp] at h
    obtain ⟨v', t', ht, hv, hr⟩ := hpo s t pr1 v1 s1 hrel hp
    injection h with h1 h2 h3
    subst h1 h2 h3
    simp only [ht]
    exact ⟨v', t', rfl, hv, hr⟩
  | err pr1 e1 s1 =>
    cases pr1 with
    | MadeProgress => simp only [hp] at h; cases h
    | NoProgress =>
      simp only [hp] at h
      obtain ⟨e', t_e, ht, hr⟩ := hpn s t e1 s1 hrel hp
      obtain ⟨v', t', hq, hv, hr2⟩ := hqo s1 t_e pr v s' hr h
      simp only [ht]
      exact ⟨v', t', hq, hv, hr2⟩
  | oot => simp only [hp] at h; cases h

theorem pOr_sim_np {α ε : Type} {p q : State → PResult α ε}
    (hpn : SimNpF p) (hqn : SimNpF q) : SimNpF (pOr p q) := by
  intro s t e s_e hrel h
  unfold pOr at h ⊢
  cases hp : p s with
  | ok pr1 v1 s1 => simp only [hp] at h; cases h
  | err pr1 e1 s1 =>
    cases pr1 with
    | MadeProgress => simp only [hp] at h; cases h
    | NoProgress =>
      simp only [hp] at h
      obtain ⟨e', t_e, ht, hr⟩ := hpn s t e1 s1 hrel hp
      obtain ⟨e2, t_e2, hq, hr2⟩ := hqn s1 t_e e s_e hr h
      simp only [ht]
      exact ⟨e2, t_e2, hq, hr2⟩
  | oot => simp only [hp] at h; cases h

theorem pspecialize_sim_ok {α ε ε' : Type} {rel : α → α → Prop}
    {f : ε → Nat → Nat → ε'} {p : State → PResult α ε}
    (hpo : SimOkF rel p) : SimOkF rel (pspecialize f p) := by
  intro s t pr v s' hrel h
  rw [pspecialize_ok_iff] at h
  obtain ⟨v', t', ht, hv, hr⟩ := hpo s t pr v s' hrel h
  exact ⟨v', t', by rw [pspecialize_ok_iff]; exact ht, hv, hr⟩

theorem pspecialize_sim_np {α ε ε' : Type} {f : ε → Nat → Nat → ε'}
    {p : State → PResult α ε} (hpn : SimNpF p) : SimNpF (pspecialize f p) := by
  intro s t e s_e hrel h
  obtain ⟨e0, hp, he⟩ := pspecialize_err_elim h
  obtain ⟨e', t_e, ht, hr⟩ := hpn s t e0 s_e hrel hp
  refine ⟨f e' t_e.line t_e.col, t_e, ?_, hr⟩
  unfold pspecialize
  simp only [ht]

theorem ploc_sim_ok {ε : Type} {p : State → PResult Pattern ε}
    (hpo : SimOkF (fun a b => eraseP a = eraseP b) p) : SimOkF relLP (ploc p) := by
  intro s t pr lv s' hrel h
  obtain ⟨hp, hreg⟩ := ploc_ok_elim h
  obtain ⟨v', t', ht, hv, hr⟩ := hpo s t pr lv.value s' hrel hp
  refine ⟨⟨⟨t.line, t.col, t'.line, t'.col⟩, v'⟩, t', ?_, hv, hr⟩
  unfold ploc
  simp only [ht]

theorem ploc_sim_np {α ε : Type} {p : State → PResult α ε}
    (hpn : SimNpF p) : SimNpF (ploc p) := by
  intro s t e s_e hrel h
  rw [ploc_err_iff] at h
  obtain ⟨e', t_e, ht, hr⟩ := hpn s t e s_e hrel h
  exact ⟨e', t_e, by rw [ploc_err_iff]; exact ht, hr⟩

/-- Closes a simulation leaf where both sides return the same value after
stepping the same number of consumed characters. -/
theorem sim_leaf {α ε : Type} {pr pr0 : Progress} {v v0 : α} {s' : State} {k : Nat}
    {s t : State} (hrel : RelP s t) (hk : k ≤ s.input.length)
    (h : (PResult.ok pr0 v0 (stepN s k) : PResult α ε) = .ok pr v s') :
    ∃ t', (PResult.ok pr0 v0 (stepN t k) : PResult α ε) = .ok pr v t' ∧ RelP s' t' := by
  injection h with h1 h2 h3
  exact ⟨stepN t k, by rw [h1, h2], h3 ▸ RelP_stepN hrel hk⟩

theorem word1_sim_ok {ε : Type} {c : Char} {toErr : Nat → Nat → ε}
    {s t s' : State} {pr : Progress} (hrel : RelP s t)
    (h : word1 c toErr s = .ok pr () s') :
    ∃ t', word1 c toErr t = .ok pr () t' ∧ RelP s' t' := by
  unfold word1 at h ⊢
  cases hi : s.input with
  | nil => simp only [hi] at h; cases h
  | cons a r =>
    have ht : t.input = a :: (r ++ [')']) := by rw [hrel, hi]; rfl
    simp only [hi] at h
    simp only [ht]
    split at h
    · rename_i hac
      rw [if_pos hac]
      have hs1 : stepChar s = stepN s 1 := rfl
      have ht1 : stepChar t = stepN t 1 := rfl
      rw [hs1] at h
      rw [ht1]
      exact sim_leaf hrel (by rw [hi]; simp) h
    · cases h

theorem word1_sim_np {ε : Type} {c : Char} {toErr : Nat → Nat → ε}
    {s t s_e : State} {e : ε} (hc : c ≠ ')') (hrel : RelP s t)
    (h : word1 c toErr s = .err .NoProgress e s_e) :
    ∃ e', word1 c toErr t = .err .NoProgress e' t ∧ RelP s_e t := by
  have hse : s_e = s := (word1_err h).2.1
  unfold word1 at h ⊢
  cases hi : s.input with
  | nil =>
    have ht : t.input = [')'] := by rw [hrel, hi]; rfl
    simp only [ht]
    rw [if_neg (by intro hx; exact hc hx.symm)]
    exact ⟨_, rfl, by rw [hse]; exact hrel⟩
  | cons a r =>
    have ht : t.input = a :: (r ++ [')']) := by rw [hrel, hi]; rfl
    simp only [hi] at h
    simp only [ht]
    split at h
    · cases h
    · rename_i hac
      rw [if_neg hac]
      exact ⟨_, rfl, by rw [hse]; exact hrel⟩

theorem space0_sim {ε : Type} {a b : Nat → Nat → ε} {s t s' : State}
    {pr : Progress} {cn : List CommentOrNewline} (hrel : RelP s t)
    (h : space0_e 0 a b s = .ok pr cn s') :
    ∃ t', space0_e 0 a b t = .ok pr cn t' ∧ RelP s' t' := by
  have hw : t.input.takeWhile isSpaceCh = s.input.takeWhile isSpaceCh := by
    rw [hrel]; exact takeWhile_app_last _ (by decide)
  have hlen : (s.input.takeWhile isSpaceCh).length ≤ s.input.length :=
    takeWhile_len_le _ _
  unfold space0_e at h ⊢
  rw [hw]
  split at h
  · rename_i hemp
    rw [if_pos hemp]
    exact sim_leaf hrel hlen h
  · rename_i hemp
    rw [if_neg hemp]
    split at h
    · rename_i hcol
      exact absurd hcol (by omega)
    · rename_i hcol
      rw [if_neg (by omega)]
      exact sim_leaf hrel hlen h

theorem identScan_sim_ok {s t s' : State} {pr : Progress} {v : Ident}
    (hrel : RelP s t) (h : identScan s = .ok pr v s') :
    ∃ t', identScan t = .ok pr v t' ∧ RelP s' t' := by
  unfold identScan at h ⊢
  cases hi : s.input with
  | nil => simp only [hi] at h; cases h
  | cons c rest =>
    have ht : t.input = c :: (rest ++ [')']) := by rw [hrel, hi]; rfl
    have hw1 : (rest ++ [')']).takeWhile isIdentCh = rest.takeWhile isIdentCh :=
      takeWhile_app_last _ (by decide)
    have hw2 : (c :: (rest ++ [')'])).takeWhile isIdentCh
        = (c :: rest).takeWhile isIdentCh := by
      rw [← List.cons_append]
      exact takeWhile_app_last _ (by decide)
    have hk1 : (rest.takeWhile isIdentCh).length + 1 ≤ s.input.length := by
      rw [hi]; simp only [List.length_cons]
      exact Nat.succ_le_succ (takeWhile_len_le _ _)
    have hk2 : ((c :: rest).takeWhile isIdentCh).length ≤ s.input.length := by
      rw [hi]; exact takeWhile_len_le _ _
    simp only [hi] at h
    simp only [ht, hw1, hw2]
    by_cases hc1 : c = '@'
    · rw [if_pos hc1] at h ⊢
      cases hsd : splitDots (rest.takeWhile isIdentCh) with
      | nil =>
        simp only [hsd] at h ⊢
        exact sim_leaf hrel hk1 h
      | cons p ps =>
        cases ps with
        | nil =>
          simp only [hsd] at h ⊢
          split at h
          · rename_i hup
            rw [if_pos hup]
            exact sim_leaf hrel hk1 h
          · rename_i hup
            rw [if_neg hup]
            exact sim_leaf hrel hk1 h
        | cons q qs =>
          simp only [hsd] at h ⊢
          exact sim_leaf hrel hk1 h
    · rw [if_neg hc1] at h ⊢
      by_cases hc2 : c = '.'
      · rw [if_pos hc2] at h ⊢
        cases hsd : splitDots (rest.takeWhile isIdentCh) with
        | nil =>
          simp only [hsd] at h ⊢
          exact sim_leaf hrel hk1 h
        | cons p ps =>
          cases ps with
          | nil =>
            simp only [hsd] at h ⊢
            split at h
            · rename_i hup
              rw [if_pos hup]
              exact sim_leaf hrel hk1 h
            · rename_i hup
              rw [if_neg hup]
              exact sim_leaf hrel hk1 h
          | cons q qs =>
            simp only [hsd] at h ⊢
            exact sim_leaf hrel hk1 h
      · rw [if_neg hc2] at h ⊢
        by_cases hc3 : c.isAlpha
        · rw [if_pos hc3] at h ⊢
          exact sim_leaf hrel hk2 h
        · rw [if_neg hc3] at h ⊢
          cases h

theorem identScan_sim_np {s t s_e : State} {e : Unit}
    (hrel : RelP s t) (h : identScan s = .err .NoProgress e s_e) :
    identScan t = .err .NoProgress () t ∧ RelP s_e t := by
  have hse : s_e = s := (identScan_err h).2
  unfold identScan at h ⊢
  cases hi : s.input with
  | nil =>
    have ht : t.input = [')'] := by rw [hrel, hi]; rfl
    simp only [ht]
    rw [if_neg (by decide), if_neg (by decide), if_neg (by decide)]
    exact ⟨rfl, by rw [hse]; exact hrel⟩
  | cons c rest =>
    have ht : t.input = c :: (rest ++ [')']) := by rw [hrel, hi]; rfl
    simp only [hi] at h
    simp only [ht]
    repeat' split at h
    all_goals (try cases h)
    rename_i hc1 hc2 hc3
    rw [if_neg hc1, if_neg hc2, if_neg hc3]
    exact ⟨rfl, by rw [hse]; exact hrel⟩

theorem lowercase_ident_sim_ok {s t s' : State} {pr : Progress} {v : String}
    (hrel : RelP s t) (h : lowercase_ident s = .ok pr v s') :
    ∃ t', lowercase_ident t = .ok pr v t' ∧ RelP s' t' := by
  unfold lowercase_ident at h ⊢
  cases hi : s.input with
  | nil => simp only [hi] at h; cases h
  | cons c rest =>
    have ht : t.input = c :: (rest ++ [')']) := by rw [hrel, hi]; rfl
    have hw : (rest ++ [')']).takeWhile (fun d => d.isAlphanum)
        = rest.takeWhile (fun d => d.isAlphanum) :=
      takeWhile_app_last _ (by decide)
    have hk : (rest.takeWhile (fun d => d.isAlphanum)).length + 1 ≤ s.input.length := by
      rw [hi]; simp only [List.length_cons]
      exact Nat.succ_le_succ (takeWhile_len_le _ _)
    simp only [hi] at h
    simp only [ht, hw]
    split at h
    · rename_i hlow
      rw [if_pos hlow]
      exact sim_leaf hrel hk h
    · cases h

theorem lowercase_ident_sim_np {s t s_e : State} {e : Unit}
    (hrel : RelP s t) (h : lowercase_ident s = .err .NoProgress e s_e) :
    lowercase_ident t = .err .NoProgress () t ∧ RelP s_e t := by
  have hse : s_e = s := (lowercase_ident_err h).2
  unfold lowercase_ident at h ⊢
  cases hi : s.input with
  | nil =>
    have ht : t.input = [')'] := by rw [hrel, hi]; rfl
    simp only [ht]
    rw [if_neg (by decide)]
    exact ⟨rfl, by rw [hse]; exact hrel⟩
  | cons c rest =>
    have ht : t.input = c :: (rest ++ [')']) := by rw [hrel, hi]; rfl
    simp only [hi] at h
    simp only [ht]
    split at h
    · cases h
    · rename_i hlow
      rw [if_neg hlow]
      exact ⟨rfl, by rw [hse]; exact hrel⟩

theorem number_literal_hex_ok {u : State} {hr : List Char} (hu : u.input = '0' :: 'x' :: hr)
    (hne : (hr.takeWhile isHexCh).isEmpty = false) :
    number_literal u = .ok .MadeProgress
      (.NonBase10Int (listStr ('0' :: 'x' :: hr.takeWhile isHexCh)))
      (stepN u ((hr.takeWhile isHexCh).length + 2)) := by
  unfold number_literal
  simp only [hu]
  rw [if_pos (by decide)]
  rw [if_neg (by simp [hne])]

theorem number_literal_hex_err {u : State} {hr : List Char} (hu : u.input = '0' :: 'x' :: hr)
    (hne : (hr.takeWhile isHexCh).isEmpty = true) :
    number_literal u = .err .MadeProgress () (stepN u 2) := by
  unfold number_literal
  simp only [hu]
  rw [if_pos (by decide)]
  rw [if_pos hne]

theorem number_literal_num {u : State} {c : Char} {rest : List Char}
    (hu : u.input = c :: rest) (hd : c.isDigit = true)
    (hnx : ∀ hr : List Char, ¬(c = '0' ∧ rest = 'x' :: hr))
    (hdr : ∀ t2 : List Char,
      (c :: rest).drop ((c :: rest).takeWhile (fun d => d.isDigit)).length = '.' :: t2 →
      (t2.takeWhile (fun d => d.isDigit)).isEmpty = true) :
    number_literal u = .ok .MadeProgress
      (.Num (listStr ((c :: rest).takeWhile (fun d => d.isDigit))))
      (stepN u ((c :: rest).takeWhile (fun d => d.isDigit)).length) := by
  unfold number_literal
  simp only [hu]
  rw [if_pos hd]
  split
  · rename_i c0 r0 hr
    exact absurd ⟨rfl, rfl⟩ (hnx hr)
  · split
    · rename_i t2 heq
      rw [if_pos (hdr t2 heq)]
    · rfl

theorem number_literal_float {u : State} {c : Char} {rest t2 : List Char}
    (hu : u.input = c :: rest) (hd : c.isDigit = true)
    (hnx : ∀ hr : List Char, ¬(c = '0' ∧ rest = 'x' :: hr))
    (hdr : (c :: rest).drop ((c :: rest).takeWhile (fun d => d.isDigit)).length = '.' :: t2)
    (hfr : (t2.takeWhile (fun d => d.isDigit)).isEmpty = false) :
    number_literal u = .ok .MadeProgress
      (.Float (listStr ((c :: rest).takeWhile (fun d => d.isDigit) ++
        '.' :: t2.takeWhile (fun d => d.isDigit))))
      (stepN u (((c :: rest).takeWhile (fun d => d.isDigit)).length + 1 +
        (t2.takeWhile (fun d => d.isDigit)).length)) := by
  unfold number_literal
  simp only [hu]
  rw [if_pos hd]
  split
  · rename_i c0 r0 hr
    exact absurd ⟨rfl, rfl⟩ (hnx hr)
  · split
    · rename_i t2' heq
      rw [hdr] at heq
      injection heq with heq1 heq2
      subst heq2
      rw [if_neg (by simp [hfr])]
    · rename_i hne
      exact absurd hdr (hne _)

theorem number_literal_np_inv {s s_e : State} {e : Unit}
    (h : number_literal s = .err .NoProgress e s_e) :
    s_e = s ∧ (s.input = [] ∨ ∃ c rest, s.input = c :: rest ∧ c.isDigit = false) := by
  unfold number_literal at h
  cases hi : s.input with
  | nil =>
    simp only [hi] at h
    injection h with h1 h2 h3
    exact ⟨h3.symm, Or.inl rfl⟩
  | cons c rest =>
    simp only [hi] at h
    by_cases hd : c.isDigit = true
    · rw [if_pos hd] at h
      exfalso
      split at h
      · split at h
        · injection h with h1; cases h1
        · cases h
      · split at h
        · split at h <;> cases h
        · cases h
    · rw [if_neg hd] at h
      injection h with h1 h2 h3
      exact ⟨h3.symm, Or.inr ⟨c, rest, rfl, by simpa using hd⟩⟩

theorem number_literal_sim_np {s t s_e : State} {e : Unit}
    (hrel : RelP s t) (h : number_literal s = .err .NoProgress e s_e) :
    number_literal t = .err .NoProgress () t ∧ RelP s_e t := by
  obtain ⟨hse, hshape⟩ := number_literal_np_inv h
  refine ⟨?_, by rw [hse]; exact hrel⟩
  unfold number_literal
  cases hshape with
  | inl hnil =>
    have ht : t.input = [')'] := by rw [hrel, hnil]; rfl
    simp only [ht]
    rw [if_neg (by decide)]
  | inr hcons =>
    obtain ⟨c, rest, hi, hd⟩ := hcons
    have ht : t.input = c :: (rest ++ [')']) := by rw [hrel, hi]; rfl
    simp only [ht]
    rw [if_neg (by simp [hd])]

theorem hnx_app {c : Char} {rest : List Char}
    (hnx : ∀ hr : List Char, ¬(c = '0' ∧ rest = 'x' :: hr)) :
    ∀ hr : List Char, ¬(c = '0' ∧ rest ++ [')'] = 'x' :: hr) := by
  intro hr hcontra
  obtain ⟨hc0, happ⟩ := hcontra
  cases rest with
  | nil =>
    injection happ with ha
    exact absurd ha (by decide)
  | cons y ys =>
    injection happ with ha hb
    exact hnx ys ⟨hc0, by rw [ha]⟩

theorem number_literal_sim_ok {s t s' : State} {pr : Progress} {v : Expr}
    (hrel : RelP s t) (h : number_literal s = .ok pr v s') :
    ∃ t', number_literal t = .ok pr v t' ∧ RelP s' t' := by
  obtain ⟨c, rest, hi, hd⟩ := number_literal_ok_first h
  have ht : t.input = c :: (rest ++ [')']) := by rw [hrel, hi]; rfl
  by_cases hx : ∃ hr : List Char, c = '0' ∧ rest = 'x' :: hr
  · obtain ⟨hr, hc0, hrx⟩ := hx
    subst hc0; subst hrx
    have hw : ((hr ++ [')']).takeWhile isHexCh) = hr.takeWhile isHexCh :=
      takeWhile_app_last _ (by decide)
    cases hne : (hr.takeWhile isHexCh).isEmpty with
    | true =>
      rw [number_literal_hex_err hi hne] at h; cases h
    | false =>
      rw [number_literal_hex_ok hi hne] at h
      have ht' : t.input = '0' :: 'x' :: (hr ++ [')']) := by rw [ht, List.cons_append]
      have hT := number_literal_hex_ok ht' (by rw [hw]; exact hne)
      rw [hw] at hT
      have hk : (hr.takeWhile isHexCh).length + 2 ≤ s.input.length := by
        rw [hi]; simp only [List.length_cons]
        have := takeWhile_len_le isHexCh hr
        omega
      injection h with h1 h2 h3
      exact ⟨stepN t _, by rw [hT, h1, h2], h3 ▸ RelP_stepN hrel hk⟩
  · have hnx : ∀ hr : List Char, ¬(c = '0' ∧ rest = 'x' :: hr) := by
      intro hr hcontra; exact hx ⟨hr, hcontra⟩
    have hnx' := hnx_app hnx
    have hD : (c :: (rest ++ [')'])).takeWhile (fun d => d.isDigit)
        = (c :: rest).takeWhile (fun d => d.isDigit) := by
      rw [← List.cons_append]
      exact takeWhile_app_last _ (by decide)
    have hDlen : ((c :: rest).takeWhile (fun d => d.isDigit)).length ≤ (c :: rest).length :=
      takeWhile_len_le _ _
    have hdrop : (c :: (rest ++ [')'])).drop ((c :: rest).takeWhile (fun d => d.isDigit)).length
        = ((c :: rest).drop ((c :: rest).takeWhile (fun d => d.isDigit)).length) ++ [')'] := by
      rw [← List.cons_append]
      exact drop_app_le _ hDlen
    cases hdr : (c :: rest).drop ((c :: rest).takeWhile (fun d => d.isDigit)).length with
    | nil =>
      rw [number_literal_num hi hd hnx
        (by intro t2 hcon; rw [hdr] at hcon; cases hcon)] at h
      have hT := number_literal_num ht hd hnx' (by
        intro t2 hcon
        rw [hD, hdrop, hdr] at hcon
        injection hcon with ha
        exact absurd ha (by decide))
      rw [hD] at hT
      injection h with h1 h2 h3
      exact ⟨stepN t _, by rw [hT, h1, h2],
        h3 ▸ RelP_stepN hrel (by rw [hi]; exact hDlen)⟩
    | cons d t2 =>
      by_cases hdot : d = '.'
      · subst hdot
        have hF : ((t2 ++ [')']).takeWhile (fun d => d.isDigit))
            = t2.takeWhile (fun d => d.isDigit) :=
          takeWhile_app_last _ (by decide)
        cases hfr : (t2.takeWhile (fun d => d.isDigit)).isEmpty with
        | true =>
          rw [number_literal_num hi hd hnx (by
            intro t2' hcon
            rw [hdr] at hcon
            injection hcon with ha hb
            rw [← hb]; exact hfr)] at h
          have hT := number_literal_num ht hd hnx' (by
            intro t2' hcon
            rw [hD, hdrop, hdr] at hcon
            injection hcon with ha hb
            rw [← hb, List.append_eq, hF]; exact hfr)
          rw [hD] at hT
          injection h with h1 h2 h3
          exact ⟨stepN t _, by rw [hT, h1, h2],
            h3 ▸ RelP_stepN hrel (by rw [hi]; exact hDlen)⟩
        | false =>
          rw [number_literal_float hi hd hnx hdr hfr] at h
          have hdr' : (c :: (rest ++ [')'])).drop
              ((c :: (rest ++ [')'])).takeWhile (fun d => d.isDigit)).length
              = '.' :: (t2 ++ [')']) := by
            rw [hD, hdrop, hdr]; rfl
          have hT := number_literal_float ht hd hnx' hdr' (by rw [hF]; exact hfr)
          rw [hD, hF] at hT
          have hk : ((c :: rest).takeWhile (fun d => d.isDigit)).length + 1 +
              (t2.takeWhile (fun d => d.isDigit)).length ≤ s.input.length := by
            have hlen : ((c :: rest).drop
                ((c :: rest).takeWhile (fun d => d.isDigit)).length).length
                = (c :: rest).length - ((c :: rest).takeWhile (fun d => d.isDigit)).length := by
              rw [List.length_drop]
            rw [hdr] at hlen
            have hfl := takeWhile_len_le (fun d => d.isDigit) t2
            rw [hi]
            simp only [List.length_cons] at hlen ⊢
            omega
          injection h with h1 h2 h3
          exact ⟨stepN t _, by rw [hT, h1, h2], h3 ▸ RelP_stepN hrel hk⟩
      · rw [number_literal_num hi hd hnx (by
          intro t2' hcon
          rw [hdr] at hcon
          injection hcon with ha
          exact absurd ha hdot)] at h
        have hT := number_literal_num ht hd hnx' (by
          intro t2' hcon
          rw [hD, hdrop, hdr] at hcon
          injection hcon with ha
          exact absurd ha hdot)
        rw [hD] at hT
        injection h with h1 h2 h3
        exact ⟨stepN t _, by rw [hT, h1, h2],
          h3 ▸ RelP_stepN hrel (by rw [hi]; exact hDlen)⟩

theorem string_parse_ok_eval {u : State} {rest k : List Char}
    (hu : u.input = '"' :: rest)
    (hdr : rest.drop ((rest.takeWhile (fun c => !(c == '"'))).length) = '"' :: k) :
    string_parse u = .ok .MadeProgress (listStr (rest.takeWhile (fun c => !(c == '"'))))
      (stepN u ((rest.takeWhile (fun c => !(c == '"'))).length + 2)) := by
  unfold string_parse
  simp only [hu]
  split
  · rfl
  · rename_i hne
    exact absurd hdr (hne _)

theorem string_parse_err_eval {u : State} {rest : List Char}
    (hu : u.input = '"' :: rest)
    (hdr : ∀ k : List Char, rest.drop ((rest.takeWhile (fun c => !(c == '"'))).length) ≠ '"' :: k) :
    string_parse u = .err .MadeProgress () (stepN u ((rest.takeWhile (fun c => !(c == '"'))).length + 1)) := by
  unfold string_parse
  simp only [hu]

theorem string_parse_np_eval {u : State}
    (hne : ∀ r : List Char, u.input ≠ '"' :: r) :
    string_parse u = .err .NoProgress () u := by
  unfold string_parse
  split
  · rename_i k' heq
    exact absurd heq (hne _)
  · rfl

theorem string_parse_np_inv {s s_e : State} {e : Unit}
    (h : string_parse s = .err .NoProgress e s_e) :
    s_e = s ∧ ∀ r : List Char, s.input ≠ '"' :: r := by
  refine ⟨string_parse_np h, ?_⟩
  intro r hr
  unfold string_parse at h
  simp only [hr] at h
  split at h
  · cases h
  · injection h with h1; cases h1

theorem string_parse_sim_ok {s t s' : State} {pr : Progress} {v : String}
    (hrel : RelP s t) (h : string_parse s = .ok pr v s') :
    ∃ t', string_parse t = .ok pr v t' ∧ RelP s' t' := by
  obtain ⟨rest, hi⟩ := string_parse_ok_first h
  have ht : t.input = '"' :: (rest ++ [')']) := by rw [hrel, hi]; rfl
  cases hdr : rest.drop ((rest.takeWhile (fun c => !(c == '"'))).length) with
  | nil =>
    rw [string_parse_err_eval hi (by rw [hdr]; intro k hk; cases hk)] at h
    cases h
  | cons d k =>
    by_cases hq : d = '"'
    · subst hq
      have htw : rest.takeWhile (fun c => !(c == '"')) ≠ rest := by
        intro he
        rw [he, List.drop_length] at hdr
        cases hdr
      have hTW : (rest ++ [')']).takeWhile (fun c => !(c == '"'))
          = rest.takeWhile (fun c => !(c == '"')) :=
        takeWhile_app_stop _ htw
      have hDlen : ((rest.takeWhile (fun c => !(c == '"'))).length) ≤ rest.length :=
        takeWhile_len_le _ _
      have hdr' : (rest ++ [')']).drop (((rest ++ [')']).takeWhile (fun c => !(c == '"'))).length)
          = '"' :: (k ++ [')']) := by
        rw [hTW, drop_app_le _ hDlen, hdr]; rfl
      rw [string_parse_ok_eval hi hdr] at h
      have hT := string_parse_ok_eval ht hdr'
      rw [hTW] at hT
      have hklen : rest.length - (rest.takeWhile (fun c => !(c == '"'))).length
          = k.length + 1 := by
        have := congrArg List.length hdr
        rw [List.length_drop] at this
        simpa using this
      have hk : ((rest.takeWhile (fun c => !(c == '"'))).length) + 2 ≤ s.input.length := by
        rw [hi]; simp only [List.length_cons]; omega
      injection h with h1 h2 h3
      exact ⟨stepN t _, by rw [hT, h1, h2], h3 ▸ RelP_stepN hrel hk⟩
    · rw [string_parse_err_eval hi (by
        rw [hdr]; intro k' hk; injection hk with ha; exact absurd ha hq)] at h
      cases h

theorem string_parse_sim_np {s t s_e : State} {e : Unit}
    (hrel : RelP s t) (h : string_parse s = .err .NoProgress e s_e) :
    string_parse t = .err .NoProgress () t ∧ RelP s_e t := by
  obtain ⟨hse, hshape⟩ := string_parse_np_inv h
  refine ⟨string_parse_np_eval ?_, by rw [hse]; exact hrel⟩
  intro r hr
  cases hi : s.input with
  | nil =>
    rw [hrel, hi] at hr
    injection hr with ha
    exact absurd ha (by decide)
  | cons c cs =>
    rw [hrel, hi] at hr
    injection hr with ha hb
    exact hshape cs (by rw [hi, ha])

theorem lowercase_ident_pattern_sim_ok {s t s' : State} {pr : Progress} {v : String}
    (hrel : RelP s t) (h : lowercase_ident_pattern s = .ok pr v s') :
    ∃ t', lowercase_ident_pattern t = .ok pr v t' ∧ RelP s' t' := by
  unfold lowercase_ident_pattern at h ⊢
  rw [pspecialize_ok_iff] at h
  obtain ⟨t', ht, hr⟩ := lowercase_ident_sim_ok hrel h
  exact ⟨t', by rw [pspecialize_ok_iff]; exact ht, hr⟩

theorem lowercase_ident_pattern_sim_np {s t s_e : State} {e : EPattern}
    (hrel : RelP s t) (h : lowercase_ident_pattern s = .err .NoProgress e s_e) :
    lowercase_ident_pattern t = .err .NoProgress (EPattern.End t.line t.col) t ∧ RelP s_e t := by
  unfold lowercase_ident_pattern at h ⊢
  obtain ⟨e0, hle, hee⟩ := pspecialize_err_elim h
  obtain ⟨hlt, hre⟩ := lowercase_ident_sim_np hrel hle
  refine ⟨?_, hre⟩
  unfold pspecialize
  simp only [hlt]

theorem underscore_sim_ok {s t s' : State} {pr : Progress} {v : Pattern}
    (hrel : RelP s t) (h : underscore_pattern_help s = .ok pr v s') :
    ∃ t', underscore_pattern_help t = .ok pr v t' ∧ RelP s' t' := by
  unfold underscore_pattern_help at h ⊢
  cases hw : word1 '_' (fun r c => EPattern.Underscore r c) s with
  | err pr1 e1 s1 => simp only [hw] at h; cases h
  | oot => simp only [hw] at h; cases h
  | ok pr1 u1 s1 =>
    cases u1
    simp only [hw] at h
    obtain ⟨t1, hwt, hr1⟩ := word1_sim_ok hrel hw
    simp only [hwt]
    cases hl : lowercase_ident_pattern s1 with
    | ok pr2 name s2 =>
      simp only [hl] at h
      obtain ⟨t2, hlt, hr2⟩ := lowercase_ident_pattern_sim_ok hr1 hl
      simp only [hlt]
      injection h with h1 h2 h3
      exact ⟨t2, by rw [h1, h2], h3 ▸ hr2⟩
    | err pr2 e2 s2 =>
      cases pr2 with
      | MadeProgress =>
        obtain ⟨e0, hle, _⟩ := pspecialize_err_elim hl
        cases (lowercase_ident_err hle).1
      | NoProgress =>
        simp only [hl] at h
        obtain ⟨hlt, hre⟩ := lowercase_ident_pattern_sim_np hr1 hl
        simp only [hlt]
        injection h with h1 h2 h3
        exact ⟨t1, by rw [h1, h2], h3 ▸ hr1⟩
    | oot => simp only [hl] at h; cases h

theorem underscore_sim_np {s t s_e : State} {e : EPattern}
    (hrel : RelP s t) (h : underscore_pattern_help s = .err .NoProgress e s_e) :
    ∃ e', underscore_pattern_help t = .err .NoProgress e' t ∧ RelP s_e t := by
  unfold underscore_pattern_help at h ⊢
  cases hw : word1 '_' (fun r c => EPattern.Underscore r c) s with
  | ok pr1 u1 s1 =>
    cases u1
    simp only [hw] at h
    cases hl : lowercase_ident_pattern s1 with
    | ok pr2 name s2 => simp only [hl] at h; cases h
    | err pr2 e2 s2 =>
      cases pr2 with
      | MadeProgress => simp only [hl] at h; injection h with h1; cases h1
      | NoProgress => simp only [hl] at h; cases h
    | oot => simp only [hl] at h; cases h
  | oot => simp only [hw] at h; cases h
  | err pr1 e1 s1 =>
    cases pr1 with
    | MadeProgress => cases (word1_err hw).1
    | NoProgress =>
      simp only [hw] at h
      injection h with h1 h2 h3
      obtain ⟨e', hwt, hre⟩ := word1_sim_np (by decide) hrel hw
      refine ⟨e', ?_, by rw [← h3]; exact hre⟩
      simp only [hwt]

theorem number_pattern_sim_ok {s t s' : State} {pr : Progress} {v : Pattern}
    (hrel : RelP s t) (h : number_pattern_help s = .ok pr v s') :
    ∃ t', number_pattern_help t = .ok pr v t' ∧ RelP s' t' := by
  unfold number_pattern_help at h ⊢
  cases hn : number_literal s with
  | ok pr1 e1 s1 =>
    simp only [hn] at h
    obtain ⟨t1, hnt, hr1⟩ := number_literal_sim_ok hrel hn
    simp only [hnt]
    cases hc : expr_to_pattern e1 with
    | some p =>
      simp only [hc] at h ⊢
      injection h with h1 h2 h3
      exact ⟨t1, by rw [h1, h2], h3 ▸ hr1⟩
    | none =>
      simp only [hc] at h ⊢
      injection h with h1 h2 h3
      exact ⟨t1, by rw [h1, h2], h3 ▸ hr1⟩
  | err pr1 e1 s1 => simp only [hn] at h; cases h
  | oot => simp only [hn] at h; cases h

theorem number_pattern_sim_np {s t s_e : State} {e : EPattern}
    (hrel : RelP s t) (h : number_pattern_help s = .err .NoProgress e s_e) :
    ∃ e', number_pattern_help t = .err .NoProgress e' t ∧ RelP s_e t := by
  unfold number_pattern_help at h ⊢
  cases hn : number_literal s with
  | ok pr1 e1 s1 =>
    simp only [hn] at h
    cases hc : expr_to_pattern e1 <;> simp only [hc] at h <;> cases h
  | oot => simp only [hn] at h; cases h
  | err pr1 e1 s1 =>
    cases pr1 with
    | MadeProgress => simp only [hn] at h; injection h with h1; cases h1
    | NoProgress =>
      simp only [hn] at h
      injection h with h1 h2 h3
      obtain ⟨hnt, hre⟩ := number_literal_sim_np hrel hn
      refine ⟨EPattern.Start t.line t.col, ?_, by rw [← h3]; exact hre⟩
      simp only [hnt]

theorem string_pattern_sim_ok {s t s' : State} {pr : Progress} {v : Pattern}
    (hrel : RelP s t) (h : string_pattern_help s = .ok pr v s') :
    ∃ t', string_pattern_help t = .ok pr v t' ∧ RelP s' t' := by
  unfold string_pattern_help at h ⊢
  cases hn : string_parse s with
  | ok pr1 str1 s1 =>
    simp only [hn] at h
    obtain ⟨t1, hnt, hr1⟩ := string_parse_sim_ok hrel hn
    simp only [hnt]
    injection h with h1 h2 h3
    exact ⟨t1, by rw [h1, h2], h3 ▸ hr1⟩
  | err pr1 e1 s1 => simp only [hn] at h; cases h
  | oot => simp only [hn] at h; cases h

theorem string_pattern_sim_np {s t s_e : State} {e : EPattern}
    (hrel : RelP s t) (h : string_pattern_help s = .err .NoProgress e s_e) :
    ∃ e', string_pattern_help t = .err .NoProgress e' t ∧ RelP s_e t := by
  unfold string_pattern_help at h ⊢
  cases hn : string_parse s with
  | ok pr1 str1 s1 => simp only [hn] at h; cases h
  | oot => simp only [hn] at h; cases h
  | err pr1 e1 s1 =>
    cases pr1 with
    | MadeProgress => simp only [hn] at h; injection h with h1; cases h1
    | NoProgress =>
      simp only [hn] at h
      injection h with h1 h2 h3
      obtain ⟨hnt, hre⟩ := string_parse_sim_np hrel hn
      refine ⟨EPattern.Start t.line t.col, ?_, by rw [← h3]; exact hre⟩
      simp only [hnt]

theorem expr_sim_ok {n : Nat} {s t s' : State} {pr : Progress} {v : Expr}
    (hrel : RelP s t) (h : expr n s = .ok pr v s') :
    ∃ t', expr n t = .ok pr v t' ∧ RelP s' t' := by
  unfold expr at h ⊢
  cases hn : number_literal s with
  | ok pr1 e1 s1 =>
    simp only [hn] at h
    obtain ⟨t1, hnt, hr1⟩ := number_literal_sim_ok hrel hn
    simp only [hnt]
    injection h with h1 h2 h3
    exact ⟨t1, by rw [h1, h2], h3 ▸ hr1⟩
  | oot => simp only [hn] at h; cases h
  | err pr1 e1 s1 =>
    cases pr1 with
    | MadeProgress => simp only [hn] at h; cases h
    | NoProgress =>
      simp only [hn] at h
      obtain ⟨hnt, hre⟩ := number_literal_sim_np hrel hn
      simp only [hnt]
      cases hl : lowercase_ident s with
      | ok pr2 name s2 =>
        simp only [hl] at h
        obtain ⟨t2, hlt, hr2⟩ := lowercase_ident_sim_ok hrel hl
        simp only [hlt]
        injection h with h1 h2 h3
        exact ⟨t2, by rw [h1, h2], h3 ▸ hr2⟩
      | err pr2 e2 s2 => simp only [hl] at h; cases h
      | oot => simp only [hl] at h; cases h

theorem expr_sim_np {n : Nat} {s t s_e : State} {e : SyntaxError}
    (hrel : RelP s t) (h : expr n s = .err .NoProgress e s_e) :
    ∃ e', expr n t = .err .NoProgress e' t ∧ RelP s_e t := by
  unfold expr at h ⊢
  cases hn : number_literal s with
  | ok pr1 e1 s1 => simp only [hn] at h; cases h
  | oot => simp only [hn] at h; cases h
  | err pr1 e1 s1 =>
    cases pr1 with
    | MadeProgress => simp only [hn] at h; injection h with h1; cases h1
    | NoProgress =>
      simp only [hn] at h
      obtain ⟨hnt, hre⟩ := number_literal_sim_np hrel hn
      simp only [hnt]
      cases hl : lowercase_ident s with
      | ok pr2 name s2 => simp only [hl] at h; cases h
      | oot => simp only [hl] at h; cases h
      | err pr2 e2 s2 =>
        cases pr2 with
        | MadeProgress => cases (lowercase_ident_err hl).1
        | NoProgress =>
          simp only [hl] at h
          injection h with h1 h2 h3
          obtain ⟨hlt, hre2⟩ := lowercase_ident_sim_np hrel hl
          simp only [hlt]
          exact ⟨_, rfl, by rw [← h3]; exact hre2⟩

theorem eraseL_length (l : List (Located Pattern)) : (eraseL l).length = l.length := by
  induction l with
  | nil => rfl
  | cons a rest ih =>
    obtain ⟨r, v⟩ := a
    simp only [eraseL, List.length_cons, ih]

theorem eraseL_append (l1 l2 : List (Located Pattern)) :
    eraseL (l1 ++ l2) = eraseL l1 ++ eraseL l2 := by
  induction l1 with
  | nil => rfl
  | cons a rest ih =>
    obtain ⟨r, v⟩ := a
    simp only [List.cons_append, eraseL, List.append_eq, ih]

theorem isEmpty_congr {α β : Type} {l : List α} {l' : List β}
    (h : l.length = l'.length) : l.isEmpty = l'.isEmpty := by
  cases l <;> cases l' <;> simp_all

theorem space0_e_zero_err_false {ε : Type} {sp ie : Nat → Nat → ε} {s s' : State}
    {pr : Progress} {e : ε} (h : space0_e 0 sp ie s = .err pr e s') : False := by
  unfold space0_e at h
  split at h
  · cases h
  · split at h
    · rename_i hcol
      exact absurd hcol (by omega)
    · cases h

theorem ploc_sim_val {α ε : Type} {p : State → PResult α ε}
    (hpo : SimOkF Eq p) : SimOkF (fun a b : Located α => a.value = b.value) (ploc p) := by
  intro s t pr lv s' hrel h
  obtain ⟨hp, hreg⟩ := ploc_ok_elim h
  obtain ⟨v', t', ht, hv, hr⟩ := hpo s t pr lv.value s' hrel hp
  refine ⟨⟨⟨t.line, t.col, t'.line, t'.col⟩, v'⟩, t', ?_, hv, hr⟩
  unfold ploc
  simp only [ht]

theorem space0_before_sim {α ε : Type} {rel : α → α → Prop}
    {p : State → PResult α ε} {wrap : α → List CommentOrNewline → α}
    {sp ie : Nat → Nat → ε}
    (hwrap : ∀ v v' cn, rel v v' → rel (wrap v cn) (wrap v' cn))
    (hpo : SimOkF rel p) (hpn : SimNpF p) :
    SimOkF rel (space0_before_e p wrap 0 sp ie) ∧
      SimNpF (space0_before_e p wrap 0 sp ie) := by
  constructor
  · intro s t pr v s' hrel h
    unfold space0_before_e at h ⊢
    cases hsp : space0_e 0 sp ie s with
    | err pr1 e1 s1 => exact absurd hsp space0_e_zero_err_false
    | oot => simp only [hsp] at h; cases h
    | ok pr1 cn s1 =>
      simp only [hsp] at h
      obtain ⟨t1, hspt, hr1⟩ := space0_sim hrel hsp
      simp only [hspt]
      cases hp : p s1 with
      | err pr2 e2 s2 => simp only [hp] at h; cases h
      | oot => simp only [hp] at h; cases h
      | ok pr2 v2 s2 =>
        simp only [hp] at h
        obtain ⟨v2', t2, hpt, hv, hr2⟩ := hpo s1 t1 pr2 v2 s2 hr1 hp
        simp only [hpt]
        injection h with h1 h2 h3
        refine ⟨if cn.isEmpty then v2' else wrap v2' cn, t2, by rw [h1], ?_, h3 ▸ hr2⟩
        rw [← h2]
        by_cases hcn : cn.isEmpty
        · simp only [hcn, if_true]; exact hv
        · simp only [hcn, if_false]; exact hwrap _ _ _ hv
  · intro s t e s_e hrel h
    unfold space0_before_e at h ⊢
    cases hsp : space0_e 0 sp ie s with
    | err pr1 e1 s1 => exact absurd hsp space0_e_zero_err_false
    | oot => simp only [hsp] at h; cases h
    | ok pr1 cn s1 =>
      simp only [hsp] at h
      obtain ⟨t1, hspt, hr1⟩ := space0_sim hrel hsp
      simp only [hspt]
      cases hp : p s1 with
      | ok pr2 v2 s2 => simp only [hp] at h; cases h
      | oot => simp only [hp] at h; cases h
      | err pr2 e2 s2 =>
        simp only [hp] at h
        injection h with h1 h2 h3
        have hpr : pr1 = .NoProgress ∧ pr2 = .NoProgress := by
          cases pr1 <;> cases pr2 <;> simp_all [Progress.or]
        obtain ⟨hpr1, hpr2⟩ := hpr
        subst hpr1 hpr2
        obtain ⟨e2', t_e, hpt, hr2⟩ := hpn s1 t1 e2 s2 hr1 hp
        simp only [hpt]
        exact ⟨e2', t_e, by rfl, by rw [← h3]; exact hr2⟩

theorem space0_around_sim {ε : Type}
    {p : State → PResult (Located Pattern) ε} {sp ie : Nat → Nat → ε}
    (hpo : SimOkF relLP p) (hpn : SimNpF p) :
    SimOkF relLP (space0_around_e p wrapPatBefore wrapPatAfter 0 sp ie) ∧
      SimNpF (space0_around_e p wrapPatBefore wrapPatAfter 0 sp ie) := by
  have hwB : ∀ (v v' : Located Pattern) cn, relLP v v' →
      relLP (wrapPatBefore v cn) (wrapPatBefore v' cn) := by
    intro v v' cn hv
    unfold relLP at hv ⊢
    simp only [wrapPatBefore, eraseP, hv]
  have hwA : ∀ (v v' : Located Pattern) cn, relLP v v' →
      relLP (wrapPatAfter v cn) (wrapPatAfter v' cn) := by
    intro v v' cn hv
    unfold relLP at hv ⊢
    simp only [wrapPatAfter, eraseP, hv]
  constructor
  · intro s t pr v s' hrel h
    unfold space0_around_e at h ⊢
    cases hsp : space0_e 0 sp ie s with
    | err pr1 e1 s1 => exact absurd hsp space0_e_zero_err_false
    | oot => simp only [hsp] at h; cases h
    | ok pr1 cn1 s1 =>
      simp only [hsp] at h
      obtain ⟨t1, hspt, hr1⟩ := space0_sim hrel hsp
      simp only [hspt]
      cases hp : p s1 with
      | err pr2 e2 s2 => simp only [hp] at h; cases h
      | oot => simp only [hp] at h; cases h
      | ok pr2 v2 s2 =>
        simp only [hp] at h
        obtain ⟨v2', t2, hpt, hv, hr2⟩ := hpo s1 t1 pr2 v2 s2 hr1 hp
        simp only [hpt]
        cases hsp2 : space0_e 0 sp ie s2 with
        | err pr3 e3 s3 => exact absurd hsp2 space0_e_zero_err_false
        | oot => simp only [hsp2] at h; cases h
        | ok pr3 cn2 s3 =>
          simp only [hsp2] at h
          obtain ⟨t3, hspt2, hr3⟩ := space0_sim hr2 hsp2
          simp only [hspt2]
          injection h with h1 h2 h3
          refine ⟨_, t3, by rw [h1], ?_, h3 ▸ hr3⟩
          rw [← h2]
          by_cases hcn2 : cn2.isEmpty
          · simp only [hcn2, if_true]
            by_cases hcn1 : cn1.isEmpty
            · simp only [hcn1, if_true]; exact hv
            · simp only [hcn1, if_false]; exact hwB _ _ _ hv
          · simp only [hcn2, if_false]
            by_cases hcn1 : cn1.isEmpty
            · simp only [hcn1, if_true]; exact hwA _ _ _ hv
            · simp only [hcn1, if_false]; exact hwA _ _ _ (hwB _ _ _ hv)
  · intro s t e s_e hrel h
    unfold space0_around_e at h ⊢
    cases hsp : space0_e 0 sp ie s with
    | err pr1 e1 s1 => exact absurd hsp space0_e_zero_err_false
    | oot => simp only [hsp] at h; cases h
    | ok pr1 cn1 s1 =>
      simp only [hsp] at h
      obtain ⟨t1, hspt, hr1⟩ := space0_sim hrel hsp
      simp only [hspt]
      cases hp : p s1 with
      | oot => simp only [hp] at h; cases h
      | err pr2 e2 s2 =>
        simp only [hp] at h
        injection h with h1 h2 h3
        have hpr : pr1 = .NoProgress ∧ pr2 = .NoProgress := by
          cases pr1 <;> cases pr2 <;> simp_all [Progress.or]
        obtain ⟨hpr1, hpr2⟩ := hpr
        subst hpr1 hpr2
        obtain ⟨e2', t_e, hpt, hr2⟩ := hpn s1 t1 e2 s2 hr1 hp
        simp only [hpt]
        exact ⟨e2', t_e, by rfl, by rw [← h3]; exact hr2⟩
      | ok pr2 v2 s2 =>
        simp only [hp] at h
        obtain ⟨v2', t2, hpt, hv, hr2⟩ := hpo s1 t1 pr2 v2 s2 hr1 hp
        simp only [hpt]
        cases hsp2 : space0_e 0 sp ie s2 with
        | err pr3 e3 s3 => exact absurd hsp2 space0_e_zero_err_false
        | oot => simp only [hsp2] at h; cases h
        | ok pr3 cn2 s3 => simp only [hsp2] at h; cases h

theorem underscore_simOk :
    SimOkF (fun a b => eraseP a = eraseP b) underscore_pattern_help :=
  fun _ _ _ v _ hrel h => by
    obtain ⟨t', ht, hr⟩ := underscore_sim_ok hrel h
    exact ⟨v, t', ht, rfl, hr⟩

theorem underscore_simNp : SimNpF underscore_pattern_help :=
  fun _ t _ _ hrel h => by
    obtain ⟨e', ht, hr⟩ := underscore_sim_np hrel h
    exact ⟨e', t, ht, hr⟩

theorem number_pattern_simOk :
    SimOkF (fun a b => eraseP a = eraseP b) number_pattern_help :=
  fun _ _ _ v _ hrel h => by
    obtain ⟨t', ht, hr⟩ := number_pattern_sim_ok hrel h
    exact ⟨v, t', ht, rfl, hr⟩

theorem number_pattern_simNp : SimNpF number_pattern_help :=
  fun _ t _ _ hrel h => by
    obtain ⟨e', ht, hr⟩ := number_pattern_sim_np hrel h
    exact ⟨e', t, ht, hr⟩

theorem string_pattern_simOk :
    SimOkF (fun a b => eraseP a = eraseP b) string_pattern_help :=
  fun _ _ _ v _ hrel h => by
    obtain ⟨t', ht, hr⟩ := string_pattern_sim_ok hrel h
    exact ⟨v, t', ht, rfl, hr⟩

theorem string_pattern_simNp : SimNpF string_pattern_help :=
  fun _ t _ _ hrel h => by
    obtain ⟨e', ht, hr⟩ := string_pattern_sim_np hrel h
    exact ⟨e', t, ht, hr⟩

theorem sim_step_help (prev : PB)
    (hpar_o : SimOkF relLP (prev.loc_pattern_in_parens_help 0))
    (hpar_n : SimNpF (prev.loc_pattern_in_parens_help 0))
    (hlih_o : SimOkF relLP (prev.loc_ident_pattern_help 0 true))
    (hlih_n : SimNpF (prev.loc_ident_pattern_help 0 true))
    (hrec_o : SimOkF (fun a b => eraseP a = eraseP b) (prev.record_pattern_help 0))
    (hrec_n : SimNpF (prev.record_pattern_help 0)) :
    SimOkF relLP (locPatternHelpBody prev 0) ∧ SimNpF (locPatternHelpBody prev 0) :=
  ⟨pOr_sim_ok (pspecialize_sim_ok hpar_o) (pspecialize_sim_np hpar_n)
    (pOr_sim_ok (ploc_sim_ok underscore_simOk) (ploc_sim_np underscore_simNp)
      (pOr_sim_ok hlih_o hlih_n
        (pOr_sim_ok (ploc_sim_ok (pspecialize_sim_ok hrec_o))
            (ploc_sim_np (pspecialize_sim_np hrec_n))
          (pOr_sim_ok (ploc_sim_ok string_pattern_simOk) (ploc_sim_np string_pattern_simNp)
            (ploc_sim_ok number_pattern_simOk))))),
   pOr_sim_np (pspecialize_sim_np hpar_n)
    (pOr_sim_np (ploc_sim_np underscore_simNp)
      (pOr_sim_np hlih_n
        (pOr_sim_np (ploc_sim_np (pspecialize_sim_np hrec_n))
          (pOr_sim_np (ploc_sim_np string_pattern_simNp)
            (ploc_sim_np number_pattern_simNp)))))⟩

theorem sim_step_pta (prev : PB)
    (hpar_o : SimOkF relLP (prev.loc_pattern_in_parens_help 0))
    (hpar_n : SimNpF (prev.loc_pattern_in_parens_help 0))
    (hlih_o : SimOkF relLP (prev.loc_ident_pattern_help 0 false))
    (hlih_n : SimNpF (prev.loc_ident_pattern_help 0 false))
    (hrec_o : SimOkF (fun a b => eraseP a = eraseP b) (prev.record_pattern_help 0))
    (hrec_n : SimNpF (prev.record_pattern_help 0)) :
    SimOkF relLP (parseTagArgBody prev 0) ∧ SimNpF (parseTagArgBody prev 0) :=
  ⟨pOr_sim_ok (pspecialize_sim_ok hpar_o) (pspecialize_sim_np hpar_n)
    (pOr_sim_ok (ploc_sim_ok underscore_simOk) (ploc_sim_np underscore_simNp)
      (pOr_sim_ok hlih_o hlih_n
        (pOr_sim_ok (ploc_sim_ok (pspecialize_sim_ok hrec_o))
            (ploc_sim_np (pspecialize_sim_np hrec_n))
          (pOr_sim_ok (ploc_sim_ok string_pattern_simOk) (ploc_sim_np string_pattern_simNp)
            (ploc_sim_ok number_pattern_simOk))))),
   pOr_sim_np (pspecialize_sim_np hpar_n)
    (pOr_sim_np (ploc_sim_np underscore_simNp)
      (pOr_sim_np hlih_n
        (pOr_sim_np (ploc_sim_np (pspecialize_sim_np hrec_n))
          (pOr_sim_np (ploc_sim_np string_pattern_simNp)
            (ploc_sim_np number_pattern_simNp)))))⟩

theorem sim_step_locpat (prev : PB)
    (hlph_o : SimOkF relLP (prev.loc_pattern_help 0))
    (hlph_n : SimNpF (prev.loc_pattern_help 0)) :
    SimOkF relLP (locPatternBody prev 0) ∧ SimNpF (locPatternBody prev 0) :=
  ⟨pspecialize_sim_ok hlph_o, pspecialize_sim_np hlph_n⟩

theorem sim_step_parens (prev : PB)
    (hlp_o : SimOkF relLP (prev.loc_pattern 0))
    (hlp_n : SimNpF (prev.loc_pattern 0)) :
    SimOkF relLP (parensBody prev 0) ∧ SimNpF (parensBody prev 0) := by
  have hinner := @space0_around_sim PInParens
    (fun t => pspecialize (fun e r c => PInParens.Syntax e r c)
      (fun u => prev.loc_pattern 0 u) t)
    (fun r c => PInParens.Space r c) (fun r c => PInParens.IndentEnd r c)
    (pspecialize_sim_ok hlp_o) (pspecialize_sim_np hlp_n)
  constructor
  · intro s t pr v s' hrel h
    unfold parensBody at h ⊢
    cases hw : word1 '(' (fun r c => PInParens.Open r c) s with
    | err pr1 e1 s1 => simp only [hw] at h; cases h
    | oot => simp only [hw] at h; cases h
    | ok pr1 u1 s1 =>
      cases u1
      simp only [hw] at h
      obtain ⟨t1, hwt, hr1⟩ := word1_sim_ok hrel hw
      simp only [hwt]
      cases hsa : space0_around_e
          (fun t => pspecialize (fun e r c => PInParens.Syntax e r c)
            (fun u => prev.loc_pattern 0 u) t)
          wrapPatBefore wrapPatAfter 0 (fun r c => PInParens.Space r c)
          (fun r c => PInParens.IndentEnd r c) s1 with
      | err pr2 e2 s2 => simp only [hsa] at h; cases h
      | oot => simp only [hsa] at h; cases h
      | ok pr2 lv2 s2 =>
        simp only [hsa] at h
        obtain ⟨lv2', t2, hsat, hv, hr2⟩ := hinner.1 s1 t1 pr2 lv2 s2 hr1 hsa
        simp only [hsat]
        cases hw2 : word1 ')' (fun r c => PInParens.End r c) s2 with
        | err pr3 e3 s3 => simp only [hw2] at h; cases h
        | oot => simp only [hw2] at h; cases h
        | ok pr3 u3 s3 =>
          cases u3
          simp only [hw2] at h
          obtain ⟨t3, hwt2, hr3⟩ := word1_sim_ok hr2 hw2
          simp only [hwt2]
          injection h with h1 h2 h3
          exact ⟨lv2', t3, by rw [h1], by rw [← h2]; exact hv, h3 ▸ hr3⟩
  · intro s t e s_e hrel h
    unfold parensBody at h ⊢
    cases hw : word1 '(' (fun r c => PInParens.Open r c) s with
    | ok pr1 u1 s1 =>
      cases u1
      simp only [hw] at h
      cases hsa : space0_around_e
          (fun t => pspecialize (fun e r c => PInParens.Syntax e r c)
            (fun u => prev.loc_pattern 0 u) t)
          wrapPatBefore wrapPatAfter 0 (fun r c => PInParens.Space r c)
          (fun r c => PInParens.IndentEnd r c) s1 with
      | err pr2 e2 s2 => simp only [hsa] at h; injection h with h1; cases h1
      | oot => simp only [hsa] at h; cases h
      | ok pr2 lv2 s2 =>
        simp only [hsa] at h
        cases hw2 : word1 ')' (fun r c => PInParens.End r c) s2 with
        | err pr3 e3 s3 => simp only [hw2] at h; injection h with h1; cases h1
        | oot => simp only [hw2] at h; cases h
        | ok pr3 u3 s3 => simp only [hw2] at h; cases h
    | oot => simp only [hw] at h; cases h
    | err pr1 e1 s1 =>
      cases pr1 with
      | MadeProgress => cases (word1_err hw).1
      | NoProgress =>
        simp only [hw] at h
        injection h with h1 h2 h3
        obtain ⟨e', hwt, hre⟩ := word1_sim_np (by decide) hrel hw
        refine ⟨e', t, ?_, by rw [← h3]; exact hre⟩
        simp only [hwt]

theorem sim_step_record (prev : PB)
    (hloop : ∀ acc acc', eraseL acc = eraseL acc' → ∀ s t pr v s', RelP s t →
      prev.record_fields_loop 0 acc s = .ok pr v s' →
      ∃ v' t', prev.record_fields_loop 0 acc' t = .ok pr v' t' ∧
        eraseL v.1 = eraseL v'.1 ∧ v.2 = v'.2 ∧ RelP s' t') :
    SimOkF (fun a b => eraseP a = eraseP b) (recordBody prev 0) ∧
      SimNpF (recordBody prev 0) := by
  constructor
  · intro s t pr v s' hrel h
    unfold recordBody at h ⊢
    cases hw : word1 '{' (fun r c => PRecord.Open r c) s with
    | err pr1 e1 s1 => simp only [hw] at h; cases h
    | oot => simp only [hw] at h; cases h
    | ok pr1 u1 s1 =>
      cases u1
      simp only [hw] at h
      obtain ⟨t1, hwt, hr1⟩ := word1_sim_ok hrel hw
      simp only [hwt]
      cases hl : prev.record_fields_loop 0 [] s1 with
      | err pr2 e2 s2 => simp only [hl] at h; cases h
      | oot => simp only [hl] at h; cases h
      | ok pr2 fc s2 =>
        simp only [hl] at h
        obtain ⟨fc', t2, hlt, hv1, hv2, hr2⟩ := hloop [] [] rfl s1 t1 pr2 fc s2 hr1 hl
        simp only [hlt]
        injection h with h1 h2 h3
        refine ⟨.RecordDestructure fc'.1, t2, by rw [h1], ?_, h3 ▸ hr2⟩
        rw [← h2]
        simp only [eraseP, hv1]
  · intro s t e s_e hrel h
    unfold recordBody at h ⊢
    cases hw : word1 '{' (fun r c => PRecord.Open r c) s with
    | ok pr1 u1 s1 =>
      cases u1
      simp only [hw] at h
      cases hl : prev.record_fields_loop 0 [] s1 with
      | err pr2 e2 s2 => simp only [hl] at h; injection h with h1; cases h1
      | oot => simp only [hl] at h; cases h
      | ok pr2 fc s2 => simp only [hl] at h; cases h
    | oot => simp only [hw] at h; cases h
    | err pr1 e1 s1 =>
      cases pr1 with
      | MadeProgress => cases (word1_err hw).1
      | NoProgress =>
        simp only [hw] at h
        injection h with h1 h2 h3
        obtain ⟨e', hwt, hre⟩ := word1_sim_np (by decide) hrel hw
        refine ⟨e', t, ?_, by rw [← h3]; exact hre⟩
        simp only [hwt]

theorem sim_step_args (prev : PB)
    (harg_o : SimOkF relLP (prev.loc_tag_pattern_arg 0))
    (harg_n : SimNpF (prev.loc_tag_pattern_arg 0))
    (hargs : SimOkF (fun a b => eraseL a = eraseL b) (prev.loc_tag_pattern_args_help 0)) :
    SimOkF (fun a b => eraseL a = eraseL b) (tagArgsBody prev 0) := by
  intro s t pr v s' hrel h
  unfold tagArgsBody at h ⊢
  cases ha : prev.loc_tag_pattern_arg 0 s with
  | oot => simp only [ha] at h; cases h
  | err pr1 e1 s1 =>
    cases pr1 with
    | MadeProgress => simp only [ha] at h; cases h
    | NoProgress =>
      simp only [ha] at h
      injection h with h1 h2 h3
      obtain ⟨e', t_e, hat, hre⟩ := harg_n s t e1 s1 hrel ha
      simp only [hat]
      exact ⟨[], t_e, by rw [h1], by rw [← h2], h3 ▸ hre⟩
  | ok pr1 a1 s1 =>
    simp only [ha] at h
    obtain ⟨a1', t1, hat, hv1, hr1⟩ := harg_o s t pr1 a1 s1 hrel ha
    simp only [hat]
    cases hr : prev.loc_tag_pattern_args_help 0 s1 with
    | oot => simp only [hr] at h; cases h
    | err pr2 e2 s2 => simp only [hr] at h; cases h
    | ok pr2 as2 s2 =>
      simp only [hr] at h
      obtain ⟨as2', t2, hrt, hv2, hr2⟩ := hargs s1 t1 pr2 as2 s2 hr1 hr
      simp only [hrt]
      injection h with h1 h2 h3
      refine ⟨a1' :: as2', t2, by rw [h1], ?_, h3 ▸ hr2⟩
      rw [← h2]
      obtain ⟨ra, va⟩ := a1
      obtain ⟨ra', va'⟩ := a1'
      simp only [eraseL, hv2]
      unfold relLP at hv1
      simp only at hv1
      rw [hv1]

theorem sim_step_arg (prev : PB)
    (hpta_o : SimOkF relLP (prev.loc_parse_tag_pattern_arg 0))
    (hpta_n : SimNpF (prev.loc_parse_tag_pattern_arg 0)) :
    SimOkF relLP (tagArgBody prev 0) ∧ SimNpF (tagArgBody prev 0) := by
  constructor
  · intro s t pr v s' hrel h
    unfold tagArgBody at h ⊢
    cases hb : pbacktrackable (fun u => space0_e 0 (fun r c => EPattern.Space r c)
        (fun r c => EPattern.IndentStart r c) u) s with
    | oot => simp only [hb] at h; cases h
    | err pr1 e1 s1 =>
      exfalso
      unfold pbacktrackable at hb
      cases hsp : space0_e 0 (fun r c => EPattern.Space r c)
          (fun r c => EPattern.IndentStart r c) s with
      | ok pr2 cn2 s2 => simp only [hsp] at hb; cases hb
      | err pr2 e2 s2 => exact space0_e_zero_err_false hsp
      | oot => exact space0_e_not_oot hsp
    | ok pr1 sp1 s1 =>
      simp only [hb] at h
      rw [pbacktrackable_ok_iff] at hb
      obtain ⟨t1, hbt, hr1⟩ := space0_sim hrel hb
      have hbt2 : pbacktrackable (fun u => space0_e 0 (fun r c => EPattern.Space r c)
          (fun r c => EPattern.IndentStart r c) u) t = .ok pr1 sp1 t1 := by
        rw [pbacktrackable_ok_iff]; exact hbt
      simp only [hbt2]
      cases hp : prev.loc_parse_tag_pattern_arg 0 s1 with
      | oot => simp only [hp] at h; cases h
      | err pr2 e2 s2 => simp only [hp] at h; cases h
      | ok pr2 lv2 s2 =>
        simp only [hp] at h
        obtain ⟨lv2', t2, hpt, hv, hr2⟩ := hpta_o s1 t1 pr2 lv2 s2 hr1 hp
        simp only [hpt]
        injection h with h1 h2 h3
        refine ⟨_, t2, by rw [h1], ?_, h3 ▸ hr2⟩
        rw [← h2]
        by_cases hsp : sp1.isEmpty
        · simp only [hsp, if_true]; exact hv
        · simp only [hsp, if_false]
          unfold relLP at hv ⊢
          simp only [eraseP, hv]
  · intro s t e s_e hrel h
    unfold tagArgBody at h ⊢
    cases hb : pbacktrackable (fun u => space0_e 0 (fun r c => EPattern.Space r c)
        (fun r c => EPattern.IndentStart r c) u) s with
    | oot => simp only [hb] at h; cases h
    | err pr1 e1 s1 =>
      exfalso
      unfold pbacktrackable at hb
      cases hsp : space0_e 0 (fun r c => EPattern.Space r c)
          (fun r c => EPattern.IndentStart r c) s with
      | ok pr2 cn2 s2 => simp only [hsp] at hb; cases hb
      | err pr2 e2 s2 => exact space0_e_zero_err_false hsp
      | oot => exact space0_e_not_oot hsp
    | ok pr1 sp1 s1 =>
      simp only [hb] at h
      rw [pbacktrackable_ok_iff] at hb
      obtain ⟨t1, hbt, hr1⟩ := space0_sim hrel hb
      have hbt2 : pbacktrackable (fun u => space0_e 0 (fun r c => EPattern.Space r c)
          (fun r c => EPattern.IndentStart r c) u) t = .ok pr1 sp1 t1 := by
        rw [pbacktrackable_ok_iff]; exact hbt
      simp only [hbt2]
      cases hp : prev.loc_parse_tag_pattern_arg 0 s1 with
      | oot => simp only [hp] at h; cases h
      | ok pr2 lv2 s2 => simp only [hp] at h; cases h
      | err pr2 e2 s2 =>
        cases pr2 with
        | MadeProgress => simp only [hp] at h; cases h
        | NoProgress =>
          simp only [hp] at h
          injection h with h1 h2 h3
          obtain ⟨e', t_e, hpt, hre⟩ := hpta_n s1 t1 e2 s2 hr1 hp
          simp only [hpt]
          exact ⟨e', t_e, rfl, by rw [← h3]; exact hre⟩

theorem sim_step_lih (prev : PB) (b : Bool)
    (hargs : SimOkF (fun a b => eraseL a = eraseL b) (prev.loc_tag_pattern_args_help 0))
    (hargs_mp : ∀ s1 s2 pr e, prev.loc_tag_pattern_args_help 0 s1 = .err pr e s2 →
      pr = .MadeProgress) :
    SimOkF relLP (lihBody prev 0 b) ∧ SimNpF (lihBody prev 0 b) := by
  constructor
  · intro s t pr v s' hrel h
    unfold lihBody at h ⊢
    cases hscan : pspecialize (fun _ r c => EPattern.Start r c) (ploc identScan) s with
    | oot => simp only [hscan] at h; cases h
    | err pr1 e1 s1 => simp only [hscan] at h; cases h
    | ok pr1 li s1 =>
      simp only [hscan] at h
      have hps := pspecialize_ok_iff.mp hscan
      obtain ⟨hid, hreg⟩ := ploc_ok_elim hps
      obtain ⟨t1, hidt, hr1⟩ := identScan_sim_ok hrel hid
      have hscanT : pspecialize (fun _ r c => EPattern.Start r c) (ploc identScan) t
          = .ok pr1 ⟨⟨t.line, t.col, t1.line, t1.col⟩, li.value⟩ t1 := by
        rw [pspecialize_ok_iff]
        unfold ploc
        simp only [hidt]
      simp only [hscanT]
      cases hv : li.value with
      | GlobalTag tag =>
        simp only [hv] at h ⊢
        cases b with
        | false =>
          rw [if_neg (by decide)]
          injection h with h1 h2 h3
          refine ⟨_, t1, by rw [h1], ?_, h3 ▸ hr1⟩
          rw [← h2]
          unfold relLP
          rfl
        | true =>
          rw [if_pos (by decide)]
          cases hargs0 : prev.loc_tag_pattern_args_help 0 s1 with
          | oot => simp only [hargs0] at h; cases h
          | err pr2 e2 s2 => simp only [hargs0] at h; cases h
          | ok pr2 args2 s2 =>
            simp only [hargs0] at h
            obtain ⟨args2', t2, hargsT, hvE, hr2⟩ := hargs s1 t1 pr2 args2 s2 hr1 hargs0
            simp only [hargsT]
            have hemp : args2.isEmpty = args2'.isEmpty :=
              isEmpty_congr (by rw [← eraseL_length args2, hvE, eraseL_length])
            by_cases he : args2.isEmpty
            · rw [if_pos he] at h
              rw [if_pos (by rw [← hemp]; exact he)]
              injection h with h1 h2 h3
              refine ⟨_, t2, by rw [h1], ?_, h3 ▸ hr2⟩
              rw [← h2]
              unfold relLP
              rfl
            · rw [if_neg he] at h
              rw [if_neg (by rw [← hemp]; exact he)]
              injection h with h1 h2 h3
              refine ⟨_, t2, by rw [h1], ?_, h3 ▸ hr2⟩
              rw [← h2]
              unfold relLP
              simp only [eraseP, hvE]
      | PrivateTag tag =>
        simp only [hv] at h ⊢
        cases b with
        | false =>
          rw [if_neg (by decide)]
          injection h with h1 h2 h3
          refine ⟨_, t1, by rw [h1], ?_, h3 ▸ hr1⟩
          rw [← h2]
          unfold relLP
          rfl
        | true =>
          rw [if_pos (by decide)]
          cases hargs0 : prev.loc_tag_pattern_args_help 0 s1 with
          | oot => simp only [hargs0] at h; cases h
          | err pr2 e2 s2 => simp only [hargs0] at h; cases h
          | ok pr2 args2 s2 =>
            simp only [hargs0] at h
            obtain ⟨args2', t2, hargsT, hvE, hr2⟩ := hargs s1 t1 pr2 args2 s2 hr1 hargs0
            simp only [hargsT]
            have hemp : args2.isEmpty = args2'.isEmpty :=
              isEmpty_congr (by rw [← eraseL_length args2, hvE, eraseL_length])
            by_cases he : args2.isEmpty
            · rw [if_pos he] at h
              rw [if_pos (by rw [← hemp]; exact he)]
              injection h with h1 h2 h3
              refine ⟨_, t2, by rw [h1], ?_, h3 ▸ hr2⟩
              rw [← h2]
              unfold relLP
              rfl
            · rw [if_neg he] at h
              rw [if_neg (by rw [← hemp]; exact he)]
              injection h with h1 h2 h3
              refine ⟨_, t2, by rw [h1], ?_, h3 ▸ hr2⟩
              rw [← h2]
              unfold relLP
              simp only [eraseP, hvE]
      | Access mn parts =>
        simp only [hv] at h ⊢
        by_cases hkw : KEYWORDS.contains (parts.headD "") = true
        · rw [if_pos hkw] at h; cases h
        · rw [if_neg hkw] at h
          rw [if_neg hkw]
          by_cases hone : (decide (mn = "") && decide (parts.length = 1)) = true
          · rw [if_pos hone] at h
            rw [if_pos hone]
            injection h with h1 h2 h3
            refine ⟨_, t1, by rw [h1], ?_, h3 ▸ hr1⟩
            rw [← h2]
            unfold relLP
            rfl
          · rw [if_neg hone] at h
            rw [if_neg hone]
            injection h with h1 h2 h3
            refine ⟨_, t1, by rw [h1], ?_, h3 ▸ hr1⟩
            rw [← h2]
            unfold relLP
            rfl
      | AccessorFunction str =>
        simp only [hv] at h ⊢
        injection h with h1 h2 h3
        refine ⟨_, t1, by rw [h1], ?_, h3 ▸ hr1⟩
        rw [← h2]
        unfold relLP
        rfl
      | Malformed str =>
        simp only [hv] at h
        cases h
  · intro s t e s_e hrel h
    unfold lihBody at h ⊢
    cases hscan : pspecialize (fun _ r c => EPattern.Start r c) (ploc identScan) s with
    | oot => simp only [hscan] at h; cases h
    | err pr1 e1 s1 =>
      cases pr1 with
      | MadeProgress => simp only [hscan] at h; injection h with h1; cases h1
      | NoProgress =>
        simp only [hscan] at h
        injection h with h1 h2 h3
        obtain ⟨e0, hploce, hee⟩ := pspecialize_err_elim hscan
        rw [ploc_err_iff] at hploce
        obtain ⟨hidt, hre⟩ := identScan_sim_np hrel hploce
        refine ⟨EPattern.Start t.line t.col, t, ?_, by rw [← h3]; exact hre⟩
        have hplocT : ploc identScan t = .err .NoProgress () t := by
          rw [ploc_err_iff]; exact hidt
        unfold pspecialize
        simp only [hplocT]
    | ok pr1 li s1 =>
      simp only [hscan] at h
      have hps := pspecialize_ok_iff.mp hscan
      obtain ⟨hid, hreg⟩ := ploc_ok_elim hps
      obtain ⟨t1, hidt, hr1⟩ := identScan_sim_ok hrel hid
      have hscanT : pspecialize (fun _ r c => EPattern.Start r c) (ploc identScan) t
          = .ok pr1 ⟨⟨t.line, t.col, t1.line, t1.col⟩, li.value⟩ t1 := by
        rw [pspecialize_ok_iff]
        unfold ploc
        simp only [hidt]
      simp only [hscanT]
      cases hv : li.value with
      | GlobalTag tag =>
        simp only [hv] at h ⊢
        cases b with
        | false => cases h
        | true =>
          cases hargs0 : prev.loc_tag_pattern_args_help 0 s1 with
          | oot => simp only [hargs0] at h; cases h
          | err pr2 e2 s2 =>
            cases pr2 with
            | NoProgress => cases hargs_mp s1 s2 .NoProgress e2 hargs0
            | MadeProgress => simp only [hargs0] at h; injection h with h1; cases h1
          | ok pr2 args2 s2 =>
            simp only [hargs0] at h
            by_cases he : args2.isEmpty
            · rw [if_pos he] at h; cases h
            · rw [if_neg he] at h; cases h
      | PrivateTag tag =>
        simp only [hv] at h ⊢
        cases b with
        | false => cases h
        | true =>
          cases hargs0 : prev.loc_tag_pattern_args_help 0 s1 with
          | oot => simp only [hargs0] at h; cases h
          | err pr2 e2 s2 =>
            cases pr2 with
            | NoProgress => cases hargs_mp s1 s2 .NoProgress e2 hargs0
            | MadeProgress => simp only [hargs0] at h; injection h with h1; cases h1
          | ok pr2 args2 s2 =>
            simp only [hargs0] at h
            by_cases he : args2.isEmpty
            · rw [if_pos he] at h; cases h
            · rw [if_neg he] at h; cases h
      | Access mn parts =>
        simp only [hv] at h ⊢
        by_cases hkw : KEYWORDS.contains (parts.headD "") = true
        · rw [if_pos hkw] at h
          rw [if_pos hkw]
          injection h with h1 h2 h3
          exact ⟨EPattern.End t.line t.col, t, rfl, by rw [← h3]; exact hrel⟩
        · rw [if_neg hkw] at h
          by_cases hone : (decide (mn = "") && decide (parts.length = 1)) = true
          · rw [if_pos hone] at h; cases h
          · rw [if_neg hone] at h; cases h
      | AccessorFunction str =>
        simp only [hv] at h
        cases h
      | Malformed str =>
        simp only [hv] at h
        injection h with h1
        cases h1

theorem relLP_wrapB (v v' : Located Pattern) (cn : List CommentOrNewline)
    (hv : relLP v v') : relLP (wrapPatBefore v cn) (wrapPatBefore v' cn) := by
  unfold relLP at hv ⊢
  simp only [wrapPatBefore, eraseP, hv]

theorem expr_simOk {n : Nat} : SimOkF Eq (fun u => expr n u) :=
  fun _ _ _ v _ hrel h => by
    obtain ⟨t', ht, hr⟩ := expr_sim_ok hrel h
    exact ⟨v, t', ht, rfl, hr⟩

theorem expr_simNp {n : Nat} : SimNpF (fun u => expr n u) :=
  fun _ _ _ _ hrel h => by
    obtain ⟨e', ht, hr⟩ := expr_sim_np hrel h
    exact ⟨e', _, ht, hr⟩

theorem valrel_wrapE (v v' : Located Expr) (cn : List CommentOrNewline)
    (hv : v.value = v'.value) :
    (wrapExprBefore v cn).value = (wrapExprBefore v' cn).value := by
  simp only [wrapExprBefore, hv]

theorem sim_step_field (prev : PB)
    (hlp_o : SimOkF relLP (prev.loc_pattern 0))
    (hlp_n : SimNpF (prev.loc_pattern 0)) :
    SimOkF (fun a b => eraseP a = eraseP b) (fieldBody prev 0) ∧
      SimNpF (fieldBody prev 0) := by
  have hsbP := @space0_before_sim (Located Pattern) PRecord relLP
    (fun u => pspecialize (fun e r c => PRecord.Syntax e r c)
      (fun w => prev.loc_pattern 0 w) u)
    wrapPatBefore (fun r c => PRecord.Space r c) (fun r c => PRecord.IndentColon r c)
    relLP_wrapB (pspecialize_sim_ok hlp_o) (pspecialize_sim_np hlp_n)
  have hsbE := @space0_before_sim (Located Expr) PRecord
    (fun a b => a.value = b.value)
    (fun u => pspecialize (fun e r c => PRecord.Syntax e r c)
      (ploc (fun w => expr 0 w)) u)
    wrapExprBefore (fun r c => PRecord.Space r c) (fun r c => PRecord.IndentColon r c)
    valrel_wrapE (pspecialize_sim_ok (ploc_sim_val expr_simOk))
    (pspecialize_sim_np (ploc_sim_np expr_simNp))
  constructor
  · intro s t pr v s' hrel h
    unfold fieldBody at h ⊢
    cases hsc : pspecialize (fun _ _ _ => PRecord.Field s.line s.col)
        (ploc lowercase_ident) s with
    | oot => simp only [hsc] at h; cases h
    | err pr1 e1 s1 => simp only [hsc] at h; cases h
    | ok pr1 locLabel s1 =>
      simp only [hsc] at h
      have hps := pspecialize_ok_iff.mp hsc
      obtain ⟨hid, hreg⟩ := ploc_ok_elim hps
      obtain ⟨t1, hidt, hr1⟩ := lowercase_ident_sim_ok hrel hid
      have hscT : pspecialize (fun _ _ _ => PRecord.Field t.line t.col)
          (ploc lowercase_ident) t
          = .ok pr1 ⟨⟨t.line, t.col, t1.line, t1.col⟩, locLabel.value⟩ t1 := by
        rw [pspecialize_ok_iff]
        unfold ploc
        simp only [hidt]
      simp only [hscT]
      cases hsp : space0_e 0 (fun r c => PRecord.Space r c)
          (fun r c => PRecord.IndentEnd r c) s1 with
      | err pr2 e2 s2 => exact absurd hsp space0_e_zero_err_false
      | oot => exact absurd hsp space0_e_not_oot
      | ok pr2 spaces s2 =>
        simp only [hsp] at h
        obtain ⟨t2, hspt, hr2⟩ := space0_sim hr1 hsp
        simp only [hspt]
        cases hw1 : word1 ':' (fun r c => PRecord.Colon r c) s2 with
        | oot => simp only [hw1] at h; cases h
        | ok pr3 u3 s3 =>
          cases u3
          simp only [hw1] at h
          obtain ⟨t3, hw1t, hr3⟩ := word1_sim_ok hr2 hw1
          simp only [hw1t]
          cases hsb : space0_before_e
              (fun u => pspecialize (fun e r c => PRecord.Syntax e r c)
                (fun w => prev.loc_pattern 0 w) u)
              wrapPatBefore 0 (fun r c => PRecord.Space r c)
              (fun r c => PRecord.IndentColon r c) s3 with
          | oot => simp only [hsb] at h; cases h
          | err pr4 e4 s4 => simp only [hsb] at h; cases h
          | ok pr4 locVal s4 =>
            simp only [hsb] at h
            obtain ⟨locVal', t4, hsbt, hvv, hr4⟩ := hsbP.1 s3 t3 pr4 locVal s4 hr3 hsb
            simp only [hsbt]
            injection h with h1 h2 h3
            refine ⟨_, t4, by rw [h1], ?_, h3 ▸ hr4⟩
            rw [← h2]
            obtain ⟨rv, vv⟩ := locVal
            obtain ⟨rv', vv'⟩ := locVal'
            unfold relLP at hvv
            simp only at hvv
            simp only [eraseP, hvv]
        | err pr3 e3 s3 =>
          simp only [hw1] at h
          have hw1np : word1 ':' (fun r c => PRecord.Colon r c) s2
              = .err .NoProgress e3 s3 := by
            rw [(word1_err hw1).1] at hw1; exact hw1
          obtain ⟨e3', hw1t, hre3⟩ := word1_sim_np (by decide) hr2 hw1np
          simp only [hw1t]
          cases hw2 : word1 '?' (fun r c => PRecord.Optional r c) s2 with
          | oot => simp only [hw2] at h; cases h
          | ok pr5 u5 s5 =>
            cases u5
            simp only [hw2] at h
            obtain ⟨t5, hw2t, hr5⟩ := word1_sim_ok hr2 hw2
            simp only [hw2t]
            cases hsb2 : space0_before_e
                (fun u => pspecialize (fun e r c => PRecord.Syntax e r c)
                  (ploc (fun w => expr 0 w)) u)
                wrapExprBefore 0 (fun r c => PRecord.Space r c)
                (fun r c => PRecord.IndentColon r c) s5 with
            | oot => simp only [hsb2] at h; cases h
            | err pr6 e6 s6 => simp only [hsb2] at h; cases h
            | ok pr6 locVal s6 =>
              simp only [hsb2] at h
              obtain ⟨locVal', t6, hsb2t, hvv, hr6⟩ := hsbE.1 s5 t5 pr6 locVal s6 hr5 hsb2
              simp only [hsb2t]
              injection h with h1 h2 h3
              refine ⟨_, t6, by rw [h1], ?_, h3 ▸ hr6⟩
              rw [← h2]
              simp only [eraseP, hvv]
          | err pr5 e5 s5 =>
            simp only [hw2] at h
            have hw2np : word1 '?' (fun r c => PRecord.Optional r c) s2
                = .err .NoProgress e5 s5 := by
              rw [(word1_err hw2).1] at hw2; exact hw2
            obtain ⟨e5', hw2t, hre5⟩ := word1_sim_np (by decide) hr2 hw2np
            simp only [hw2t]
            injection h with h1 h2 h3
            exact ⟨_, t2, by rw [h1], by rw [← h2], h3 ▸ hr2⟩
  · intro s t e s_e hrel h
    unfold fieldBody at h ⊢
    cases hsc : pspecialize (fun _ _ _ => PRecord.Field s.line s.col)
        (ploc lowercase_ident) s with
    | oot => simp only [hsc] at h; cases h
    | err pr1 e1 s1 =>
      cases pr1 with
      | MadeProgress => simp only [hsc] at h; injection h with h1; cases h1
      | NoProgress =>
        simp only [hsc] at h
        injection h with h1 h2 h3
        obtain ⟨e0, hploce, hee⟩ := pspecialize_err_elim hsc
        rw [ploc_err_iff] at hploce
        obtain ⟨hidt, hre⟩ := lowercase_ident_sim_np hrel hploce
        refine ⟨PRecord.Field t.line t.col, t, ?_, by rw [← h3]; exact hre⟩
        have hplocT : ploc lowercase_ident t = .err .NoProgress () t := by
          rw [ploc_err_iff]; exact hidt
        unfold pspecialize
        simp only [hplocT]
    | ok pr1 locLabel s1 =>
      simp only [hsc] at h
      have hps := pspecialize_ok_iff.mp hsc
      obtain ⟨hid, hreg⟩ := ploc_ok_elim hps
      obtain ⟨t1, hidt, hr1⟩ := lowercase_ident_sim_ok hrel hid
      have hscT : pspecialize (fun _ _ _ => PRecord.Field t.line t.col)
          (ploc lowercase_ident) t
          = .ok pr1 ⟨⟨t.line, t.col, t1.line, t1.col⟩, locLabel.value⟩ t1 := by
        rw [pspecialize_ok_iff]
        unfold ploc
        simp only [hidt]
      simp only [hscT]
      cases hsp : space0_e 0 (fun r c => PRecord.Space r c)
          (fun r c => PRecord.IndentEnd r c) s1 with
      | err pr2 e2 s2 => exact absurd hsp space0_e_zero_err_false
      | oot => exact absurd hsp space0_e_not_oot
      | ok pr2 spaces s2 =>
        simp only [hsp] at h
        obtain ⟨t2, hspt, hr2⟩ := space0_sim hr1 hsp
        simp only [hspt]
        cases hw1 : word1 ':' (fun r c => PRecord.Colon r c) s2 with
        | oot => simp only [hw1] at h; cases h
        | ok pr3 u3 s3 =>
          cases u3
          simp only [hw1] at h
          obtain ⟨t3, hw1t, hr3⟩ := word1_sim_ok hr2 hw1
          simp only [hw1t]
          cases hsb : space0_before_e
              (fun u => pspecialize (fun e r c => PRecord.Syntax e r c)
                (fun w => prev.loc_pattern 0 w) u)
              wrapPatBefore 0 (fun r c => PRecord.Space r c)
              (fun r c => PRecord.IndentColon r c) s3 with
          | oot => simp only [hsb] at h; cases h
          | ok pr4 locVal s4 => simp only [hsb] at h; cases h
          | err pr4 e4 s4 =>
            cases pr4 with
            | MadeProgress => simp only [hsb] at h; injection h with h1; cases h1
            | NoProgress =>
              simp only [hsb] at h
              injection h with h1 h2 h3
              obtain ⟨e4', t_e, hsbt, hre4⟩ := hsbP.2 s3 t3 e4 s4 hr3 hsb
              simp only [hsbt]
              exact ⟨e4', t_e, rfl, by rw [← h3]; exact hre4⟩
        | err pr3 e3 s3 =>
          simp only [hw1] at h
          have hw1np : word1 ':' (fun r c => PRecord.Colon r c) s2
              = .err .NoProgress e3 s3 := by
            rw [(word1_err hw1).1] at hw1; exact hw1
          obtain ⟨e3', hw1t, hre3⟩ := word1_sim_np (by decide) hr2 hw1np
          simp only [hw1t]
          cases hw2 : word1 '?' (fun r c => PRecord.Optional r c) s2 with
          | oot => simp only [hw2] at h; cases h
          | ok pr5 u5 s5 =>
            cases u5
            simp only [hw2] at h
            obtain ⟨t5, hw2t, hr5⟩ := word1_sim_ok hr2 hw2
            simp only [hw2t]
            cases hsb2 : space0_before_e
                (fun u => pspecialize (fun e r c => PRecord.Syntax e r c)
                  (ploc (fun w => expr 0 w)) u)
                wrapExprBefore 0 (fun r c => PRecord.Space r c)
                (fun r c => PRecord.IndentColon r c) s5 with
            | oot => simp only [hsb2] at h; cases h
            | ok pr6 locVal s6 => simp only [hsb2] at h; cases h
            | err pr6 e6 s6 =>
              cases pr6 with
              | MadeProgress => simp only [hsb2] at h; injection h with h1; cases h1
              | NoProgress =>
                simp only [hsb2] at h
                injection h with h1 h2 h3
                obtain ⟨e6', t_e, hsb2t, hre6⟩ := hsbE.2 s5 t5 e6 s6 hr5 hsb2
                simp only [hsb2t]
                exact ⟨e6', t_e, rfl, by rw [← h3]; exact hre6⟩
          | err pr5 e5 s5 => simp only [hw2] at h; cases h

theorem sim_step_loop (prev : PB)
    (hf_o : SimOkF (fun a b => eraseP a = eraseP b) (prev.record_pattern_field 0))
    (hf_n : SimNpF (prev.record_pattern_field 0))
    (hloop : ∀ acc acc', eraseL acc = eraseL acc' → ∀ s t pr v s', RelP s t →
      prev.record_fields_loop 0 acc s = .ok pr v s' →
      ∃ v' t', prev.record_fields_loop 0 acc' t = .ok pr v' t' ∧
        eraseL v.1 = eraseL v'.1 ∧ v.2 = v'.2 ∧ RelP s' t') :
    ∀ acc acc', eraseL acc = eraseL acc' → ∀ s t pr v s', RelP s t →
      fieldsLoopBody prev 0 acc s = .ok pr v s' →
      ∃ v' t', fieldsLoopBody prev 0 acc' t = .ok pr v' t' ∧
        eraseL v.1 = eraseL v'.1 ∧ v.2 = v'.2 ∧ RelP s' t' := by
  intro acc acc' hacc s t pr v s' hrel h
  unfold fieldsLoopBody at h ⊢
  cases hsp : space0_e 0 (fun r c => PRecord.Space r c)
      (fun r c => PRecord.IndentEnd r c) s with
  | err pr1 e1 s1 => exact absurd hsp space0_e_zero_err_false
  | oot => exact absurd hsp space0_e_not_oot
  | ok pr1 cn s1 =>
    simp only [hsp] at h
    obtain ⟨t1, hspt, hr1⟩ := space0_sim hrel hsp
    simp only [hspt]
    cases hfld : ploc (fun u => prev.record_pattern_field 0 u) s1 with
    | oot => simp only [hfld] at h; cases h
    | err pr2 e2 s2 =>
      cases pr2 with
      | MadeProgress => simp only [hfld] at h; cases h
      | NoProgress =>
        simp only [hfld] at h
        obtain ⟨e2', t_e, hfldT, hre2⟩ := ploc_sim_np hf_n s1 t1 e2 s2 hr1 hfld
        simp only [hfldT]
        cases hw : word1 '}' (fun r c => PRecord.End r c) s1 with
        | oot => simp only [hw] at h; cases h
        | ok pr3 u3 s3 =>
          cases u3
          simp only [hw] at h
          obtain ⟨t3, hwt, hr3⟩ := word1_sim_ok hr1 hw
          simp only [hwt]
          injection h with h1 h2 h3
          refine ⟨(acc', cn), t3, by rw [h1], ?_, ?_, h3 ▸ hr3⟩
          · rw [← h2]; exact hacc
          · rw [← h2]
        | err pr3 e3 s3 => simp only [hw] at h; cases h
    | ok pr2 fld s2 =>
      simp only [hfld] at h
      obtain ⟨fld', t2, hfldT, hvf, hr2⟩ := ploc_sim_ok hf_o s1 t1 pr2 fld s2 hr1 hfld
      simp only [hfldT]
      cases hsp2 : space0_e 0 (fun r c => PRecord.Space r c)
          (fun r c => PRecord.IndentEnd r c) s2 with
      | err pr3 e3 s3 => exact absurd hsp2 space0_e_zero_err_false
      | oot => exact absurd hsp2 space0_e_not_oot
      | ok pr3 cn2 s3 =>
        simp only [hsp2] at h
        obtain ⟨t3, hsp2t, hr3⟩ := space0_sim hr2 hsp2
        simp only [hsp2t]
        have haccx : eraseL (acc ++ [fld]) = eraseL (acc' ++ [fld']) := by
          rw [eraseL_append, eraseL_append, hacc]
          obtain ⟨rf, vf⟩ := fld
          obtain ⟨rf', vf'⟩ := fld'
          unfold relLP at hvf
          simp only at hvf
          simp only [eraseL, hvf]
        cases hw1 : word1 ',' (fun r c => PRecord.End r c) s3 with
        | oot => simp only [hw1] at h; cases h
        | ok pr4 u4 s4 =>
          cases u4
          simp only [hw1] at h
          obtain ⟨t4, hw1t, hr4⟩ := word1_sim_ok hr3 hw1
          simp only [hw1t]
          exact hloop (acc ++ [fld]) (acc' ++ [fld']) haccx s4 t4 pr v s' hr4 h
        | err pr4 e4 s4 =>
          simp only [hw1] at h
          have hw1np : word1 ',' (fun r c => PRecord.End r c) s3
              = .err .NoProgress e4 s4 := by
            rw [(word1_err hw1).1] at hw1; exact hw1
          obtain ⟨e4', hw1t, hre4⟩ := word1_sim_np (by decide) hr3 hw1np
          simp only [hw1t]
          cases hw2 : word1 '}' (fun r c => PRecord.End r c) s3 with
          | oot => simp only [hw2] at h; cases h
          | ok pr5 u5 s5 =>
            cases u5
            simp only [hw2] at h
            obtain ⟨t5, hw2t, hr5⟩ := word1_sim_ok hr3 hw2
            simp only [hw2t]
            injection h with h1 h2 h3
            refine ⟨(acc' ++ [fld'], []), t5, by rw [h1], ?_, ?_, h3 ▸ hr5⟩
            · rw [← h2]; exact haccx
            · rw [← h2]
          | err pr5 e5 s5 => simp only [hw2] at h; cases h

theorem sim_main (f : Nat) :
    (SimOkF relLP (loc_pattern_help f 0) ∧ SimNpF (loc_pattern_help f 0)) ∧
    (SimOkF relLP (loc_parse_tag_pattern_arg f 0) ∧
      SimNpF (loc_parse_tag_pattern_arg f 0)) ∧
    (∀ b, SimOkF relLP (loc_ident_pattern_help f 0 b) ∧
      SimNpF (loc_ident_pattern_help f 0 b)) ∧
    (SimOkF (fun a b => eraseL a = eraseL b) (loc_tag_pattern_args_help f 0)) ∧
    (SimOkF relLP (loc_tag_pattern_arg f 0) ∧ SimNpF (loc_tag_pattern_arg f 0)) ∧
    (SimOkF relLP (loc_pattern_in_parens_help f 0) ∧
      SimNpF (loc_pattern_in_parens_help f 0)) ∧
    (SimOkF relLP (loc_pattern f 0) ∧ SimNpF (loc_pattern f 0)) ∧
    (SimOkF (fun a b => eraseP a = eraseP b) (record_pattern_help f 0) ∧
      SimNpF (record_pattern_help f 0)) ∧
    (∀ acc acc', eraseL acc = eraseL acc' → ∀ s t pr v s', RelP s t →
      record_fields_loop f 0 acc s = .ok pr v s' →
      ∃ v' t', record_fields_loop f 0 acc' t = .ok pr v' t' ∧
        eraseL v.1 = eraseL v'.1 ∧ v.2 = v'.2 ∧ RelP s' t') ∧
    (SimOkF (fun a b => eraseP a = eraseP b) (record_pattern_field f 0) ∧
      SimNpF (record_pattern_field f 0)) := by
  induction f with
  | zero =>
    refine ⟨⟨?_, ?_⟩, ⟨?_, ?_⟩, fun b => ⟨?_, ?_⟩, ?_, ⟨?_, ?_⟩, ⟨?_, ?_⟩, ⟨?_, ?_⟩,
      ⟨?_, ?_⟩, ?_, ⟨?_, ?_⟩⟩
    · intro s t pr v s' hrel h; rw [loc_pattern_help_zero] at h; cases h
    · intro s t e s_e hrel h; rw [loc_pattern_help_zero] at h; cases h
    · intro s t pr v s' hrel h; rw [loc_parse_tag_pattern_arg_zero] at h; cases h
    · intro s t e s_e hrel h; rw [loc_parse_tag_pattern_arg_zero] at h; cases h
    · intro s t pr v s' hrel h; rw [loc_ident_pattern_help_zero] at h; cases h
    · intro s t e s_e hrel h; rw [loc_ident_pattern_help_zero] at h; cases h
    · intro s t pr v s' hrel h; rw [loc_tag_pattern_args_help_zero] at h; cases h
    · intro s t pr v s' hrel h; rw [loc_tag_pattern_arg_zero] at h; cases h
    · intro s t e s_e hrel h; rw [loc_tag_pattern_arg_zero] at h; cases h
    · intro s t pr v s' hrel h; rw [loc_pattern_in_parens_help_zero] at h; cases h
    · intro s t e s_e hrel h; rw [loc_pattern_in_parens_help_zero] at h; cases h
    · intro s t pr v s' hrel h; rw [loc_pattern_zero] at h; cases h
    · intro s t e s_e hrel h; rw [loc_pattern_zero] at h; cases h
    · intro s t pr v s' hrel h; rw [record_pattern_help_zero] at h; cases h
    · intro s t e s_e hrel h; rw [record_pattern_help_zero] at h; cases h
    · intro acc acc' hacc s t pr v s' hrel h; rw [record_fields_loop_zero] at h; cases h
    · intro s t pr v s' hrel h; rw [record_pattern_field_zero] at h; cases h
    · intro s t e s_e hrel h; rw [record_pattern_field_zero] at h; cases h
  | succ g ih =>
    obtain ⟨Shelp, Spta, Slih, Sargs, Sarg, Sparens, Slp, Srec, Sloop, Sfield⟩ := ih
    refine ⟨?_, ?_, ?_, ?_, ?_, ?_, ?_, ?_, ?_, ?_⟩
    · exact sim_step_help (parsersAt g) Sparens.1 Sparens.2 (Slih true).1 (Slih true).2
        Srec.1 Srec.2
    · exact sim_step_pta (parsersAt g) Sparens.1 Sparens.2 (Slih false).1 (Slih false).2
        Srec.1 Srec.2
    · exact fun b => sim_step_lih (parsersAt g) b Sargs
        (fun s1 s2 pr e hh => args_loop_err_mp hh)
    · exact sim_step_args (parsersAt g) Sarg.1 Sarg.2 Sargs
    · exact sim_step_arg (parsersAt g) Spta.1 Spta.2
    · exact sim_step_parens (parsersAt g) Slp.1 Slp.2
    · exact sim_step_locpat (parsersAt g) Shelp.1 Shelp.2
    · exact sim_step_record (parsersAt g) Sloop
    · exact sim_step_loop (parsersAt g) Sfield.1 Sfield.2 Sloop
    · exact sim_step_field (parsersAt g) Slp.1 Slp.2

theorem isSpaceCh_false_of_alpha {c : Char} (hc : c.isAlpha = true) :
    isSpaceCh c = false := by
  cases hs : isSpaceCh c
  · rfl
  · exfalso
    simp only [isSpaceCh, Bool.or_eq_true, decide_eq_true_eq] at hs
    rcases hs with hs | hs <;> subst hs <;> exact absurd hc (by decide)

theorem isSpaceCh_false_of_digit {c : Char} (hc : c.isDigit = true) :
    isSpaceCh c = false := by
  cases hs : isSpaceCh c
  · rfl
  · exfalso
    simp only [isSpaceCh, Bool.or_eq_true, decide_eq_true_eq] at hs
    rcases hs with hs | hs <;> subst hs <;> exact absurd hc (by decide)

theorem head_first {s : State} {ch : Char} (hh : s.input.head? = some ch) :
    ∃ rest, s.input = ch :: rest := by
  cases hi : s.input with
  | nil => rw [hi] at hh; cases hh
  | cons c0 rest0 =>
    rw [hi] at hh
    injection hh with hc
    exact ⟨rest0, by rw [hc]⟩

theorem loc_pattern_help_ok_first {f n : Nat} {s s' : State} {pr : Progress}
    {lv : Located Pattern} (h : loc_pattern_help f n s = .ok pr lv s') :
    ∃ c rest, s.input = c :: rest ∧ isSpaceCh c = false := by
  cases f with
  | zero => rw [loc_pattern_help_zero] at h; cases h
  | succ g =>
    rw [loc_pattern_help_succ] at h
    unfold locPatternHelpBody at h
    simp only [PB_loc_pattern_in_parens_help, PB_loc_ident_pattern_help,
      PB_record_pattern_help] at h
    unfold pOr at h
    split at h
    · rename_i pr1 v1 s1 heq1
      rw [pspecialize_ok_iff] at heq1
      obtain ⟨rest, hi⟩ := head_first (parens_ok_first heq1)
      exact ⟨'(', rest, hi, by decide⟩
    · cases h
    · rename_i e1 s1 heq1
      obtain ⟨e0, he0, -⟩ := pspecialize_err_elim heq1
      obtain ⟨hs1, -⟩ := parens_errnp he0
      subst hs1
      split at h
      · rename_i pr2 v2 s2 heq2
        obtain ⟨hu, -⟩ := ploc_ok_elim heq2
        obtain ⟨rest, hi⟩ := head_first (underscore_ok_first hu)
        exact ⟨'_', rest, hi, by decide⟩
      · cases h
      · rename_i e2 s2 heq2
        obtain ⟨-, hs2, -⟩ := underscore_err (ploc_err_iff.mp heq2)
        subst hs2
        split at h
        · rename_i pr3 v3 s3 heq3
          obtain ⟨c, rest, hi, hc⟩ := lih_ok_first heq3
          refine ⟨c, rest, hi, ?_⟩
          rcases hc with hc | hc | hc
          · subst hc; decide
          · subst hc; decide
          · exact isSpaceCh_false_of_alpha hc
        · cases h
        · rename_i e3 s3 heq3
          have hs3 := lih_errnp heq3
          subst hs3
          split at h
          · rename_i pr4 v4 s4 heq4
            obtain ⟨hr, -⟩ := ploc_ok_elim heq4
            rw [pspecialize_ok_iff] at hr
            obtain ⟨rest, hi⟩ := head_first (record_ok_first hr)
            exact ⟨'{', rest, hi, by decide⟩
          · cases h
          · rename_i e4 s4 heq4
            obtain ⟨e5, he5, -⟩ := pspecialize_err_elim (ploc_err_iff.mp heq4)
            obtain ⟨hs4, -⟩ := record_errnp he5
            subst hs4
            split at h
            · rename_i pr6 v6 s6 heq6
              obtain ⟨hstr, -⟩ := ploc_ok_elim heq6
              obtain ⟨rest, hi⟩ := string_pattern_help_ok_first hstr
              exact ⟨'"', rest, hi, by decide⟩
            · cases h
            · rename_i e6 s6 heq6
              obtain ⟨hs6, -⟩ := string_pattern_help_np (ploc_err_iff.mp heq6)
              subst hs6
              obtain ⟨hn, -⟩ := ploc_ok_elim h
              obtain ⟨c, rest, hi, hc⟩ := number_pattern_help_ok_first hn
              exact ⟨c, rest, hi, isSpaceCh_false_of_digit hc⟩
            · cases h
          · cases h
        · cases h
      · cases h
    · cases h

/-- C9 (amended): for every pattern that parses successfully and consumes
its whole input, wrapping the input in parentheses with no interstitial
trivia also parses successfully with two extra fuel steps, consumes
everything including the closing parenthesis, and yields the same pattern
value up to erasing every region annotation (the nested regions shift by
one column inside the parentheses, so the values agree only after
`eraseP`). -/
theorem claim_C9 (f : Nat) (s t0 s_end : State) (pr : Progress) (lv : Located Pattern)
    (h : loc_pattern_help f 0 s = .ok pr lv s_end)
    (hend : s_end.input = [])
    (ht0 : t0.input = '(' :: (s.input ++ [')'])) :
    ∃ (lv' : Located Pattern) (t' : State),
      loc_pattern_in_parens_help (f + 2) 0 t0 = .ok .MadeProgress lv' t' ∧
      eraseP lv'.value = eraseP lv.value ∧ t'.input = [] := by
  rw [loc_pattern_in_parens_help_succ]
  unfold parensBody
  simp only [PB_loc_pattern]
  have hw1 : word1 '(' (fun r c => PInParens.Open r c) t0
      = .ok .MadeProgress () (stepChar t0) := by
    unfold word1
    simp only [ht0]
    exact if_pos trivial
  simp only [hw1]
  have ht1 : (stepChar t0).input = s.input ++ [')'] := by
    rw [stepChar_input, ht0]; rfl
  obtain ⟨c0, rest0, hi0, hc0⟩ := loc_pattern_help_ok_first h
  have hsp1 : space0_e 0 (fun r c => PInParens.Space r c)
      (fun r c => PInParens.IndentEnd r c) (stepChar t0)
      = .ok .NoProgress [] (stepChar t0) :=
    space0_e_ok_empty (by
      rw [ht1, hi0]
      simp [List.takeWhile_cons, hc0])
  have hrel1 : RelP s (stepChar t0) := by unfold RelP; rw [ht1]
  obtain ⟨lv', t2, hlpT, hvE, hrel2⟩ := (sim_main f).1.1 s (stepChar t0) pr lv s_end hrel1 h
  have hlp1 : loc_pattern (f + 1) 0 (stepChar t0) = .ok pr lv' t2 := by
    rw [loc_pattern_succ]
    unfold locPatternBody
    simp only [PB_loc_pattern_help]
    rw [pspecialize_ok_iff]
    exact hlpT
  unfold space0_around_e
  simp only [hsp1]
  have hps : pspecialize (fun e r c => PInParens.Syntax e r c)
      (fun u => loc_pattern (f + 1) 0 u) (stepChar t0) = .ok pr lv' t2 := by
    rw [pspecialize_ok_iff]; exact hlp1
  simp only [hps]
  have ht2 : t2.input = [')'] := by
    unfold RelP at hrel2
    rw [hrel2, hend]; rfl
  have hsp2 : space0_e 0 (fun r c => PInParens.Space r c)
      (fun r c => PInParens.IndentEnd r c) t2 = .ok .NoProgress [] t2 :=
    space0_e_ok_empty (by rw [ht2]; decide)
  simp only [hsp2]
  have hw2 : word1 ')' (fun r c => PInParens.End r c) t2
      = .ok .MadeProgress () (stepChar t2) := by
    unfold word1
    simp only [ht2]
    exact if_pos trivial
  simp only [hw2]
  refine ⟨_, stepChar t2, rfl, ?_, ?_⟩
  · exact hvE.symm
  · rw [stepChar_input, ht2]; rfl

/-- Witness for C9: `_` parses directly, and `(_)` parses to the same
value after region erasure. -/
theorem claim_C9_witness :
    ∃ (lv' : Located Pattern) (t' : State),
      loc_pattern_in_parens_help 4 0 (stl ['(', '_', ')']) = .ok .MadeProgress lv' t' ∧
      eraseP lv'.value = eraseP (Pattern.Underscore "") ∧ t'.input = [] :=
  claim_C9 2 (stl ['_']) (stl ['(', '_', ')']) ⟨[], 0, 1⟩ .MadeProgress
    ⟨⟨0, 0, 0, 1⟩, .Underscore ""⟩ rfl rfl rfl
